import Mathlib

/-!
# gettext 0.14.1 as bundled in libxpod: format-string validators and msgcat

A shallow embedding of `format-ycp.c` (the single-digit-percent grammar), of
`format-csharp.c` (the numbered-brace grammar), of the function `main` of
`msgcat.c`, of the three back-ends of `csharpcomp.c` and of the function
`expand_escape` of `ngettext.c`, and a model of the merge of catalogs as the
spec describes it, followed by the properties proved about them.

Conventions of the embedding.

* A C string is the list of its characters before the terminating NUL; the
  pointer `format` is the list of the characters not yet read, `*format` is its
  head (the empty list standing for `*format == '\0'`) and `format++` drops
  the head. The code compares characters with ASCII characters only.
* An `unsigned int` is a natural number below `UINT_MODULUS`; every increment
  and every arithmetic expression on one is reduced modulo `UINT_MODULUS`.
  Counters that cannot exceed 9 (`arg_count`, the loop index of `format_check`)
  are plain natural numbers.
* `*invalid_reason` is the error value of `Except`; the `%u` and `%c` arguments
  of its text are kept as data.
* `error_at_line` appends to a list of diagnostics. The assignments to
  `error_with_progname` around it restore the value the flag had and are not
  modelled.
-/

deriving instance DecidableEq for Except

/-- Number of values of an `unsigned int` (32 bits). -/
def UINT_MODULUS : Nat := 4294967296

/-- Modelled from the spec: the type `lex_pos_ty` of the header `pos.h`, which
is not among the sources; the spec calls it the location (file and line) of a
message. -/
structure lex_pos_ty where
  file_name : String
  line_number : Nat
deriving DecidableEq, Repr

/-- Modelled from the spec: `c_isdigit` of the header `c-ctype.h`, which is not
among the sources; the spec speaks of decimal digits, the ASCII characters
'0' to '9'. -/
def c_isdigit (c : Char) : Bool := decide ('0' ≤ c) && decide (c ≤ '9')

/-- Modelled from the spec: `c_isprint` of the header `c-ctype.h`, which is not
among the sources: the printable ASCII characters, space to tilde. It only
selects which of two wordings of a failure reason is produced. -/
def c_isprint (c : Char) : Bool := decide (' ' ≤ c) && decide (c ≤ '~')

namespace FormatYcp

/-- The `struct spec` of format-ycp.c. A cell of `args_used` holds `none` as
long as nothing was stored in it (the struct is an uninitialised local of
`format_parse`). -/
structure spec where
  directives : Nat
  arg_count : Nat
  args_used : List (Option Bool)
deriving DecidableEq, Repr

/-- The texts stored in `*invalid_reason` by `format_parse`. -/
inductive invalid_reason where
  /-- `INVALID_UNTERMINATED_DIRECTIVE ()`. -/
  | unterminated_directive
  /-- "In the directive number %u, the character '%c' is not a digit between 1
  and 9." when the character is printable (`c = some _`), and "The character
  that terminates the directive number %u is not a digit between 1 and 9."
  otherwise. -/
  | not_a_digit (directive : Nat) (c : Option Char)
deriving DecidableEq, Repr

/-- The loop `while (spec.arg_count <= number)
spec.args_used[spec.arg_count++] = false;`. The first argument bounds the
number of iterations; `format_parse_loop` passes `number + 1 - spec.arg_count`,
after which the loop condition is false (`clear_loop_exit`). -/
def clear_loop (number : Nat) : Nat → spec → spec
  | 0, spec => spec
  | n + 1, spec =>
    if spec.arg_count ≤ number then
      clear_loop number n
        { spec with
          args_used := spec.args_used.set spec.arg_count (some false)
          arg_count := spec.arg_count + 1 }
    else spec

/-- The `for (; *format != '\0';)` loop of `format_parse`. -/
def format_parse_loop : List Char → spec → Except invalid_reason spec
  | [], spec => .ok spec
  | c :: format, spec =>
    if c = '%' then
      -- A directive.
      let spec := { spec with directives := (spec.directives + 1) % UINT_MODULUS }
      match format with
      | [] => .error .unterminated_directive
      | d :: format =>
        if d = '%' then format_parse_loop format spec
        else if '1' ≤ d ∧ d ≤ '9' then
          let number := d.toNat - '1'.toNat
          let spec := clear_loop number (number + 1 - spec.arg_count) spec
          let spec := { spec with args_used := spec.args_used.set number (some true) }
          format_parse_loop format spec
        else
          .error (.not_a_digit spec.directives (if c_isprint d then some d else none))
    else format_parse_loop format spec

/-- The function `format_parse` of format-ycp.c: the descriptor, or the reason
why the string is invalid. The flag `translated` is not used by the code. -/
def format_parse (format : List Char) (_translated : Bool) : Except invalid_reason spec :=
  format_parse_loop format
    { directives := 0, arg_count := 0, args_used := List.replicate 9 none }

/-- The function `format_get_number_of_directives`: the counter, converted to
`int` (two's complement, 32 bits). -/
def format_get_number_of_directives (descr : spec) : Int :=
  if descr.directives < 2147483648 then (descr.directives : Int)
  else (descr.directives : Int) - 4294967296

/-- The two messages `format_check` passes to `error_at_line`, with their
arguments `i + 1` and `pretty_msgstr`. -/
inductive check_message where
  /-- "a format specification for argument %u doesn't exist in '%s'". -/
  | missing_in_msgstr (argument : Nat) (pretty_msgstr : String)
  /-- "a format specification for argument %u, as in '%s', doesn't exist in
  'msgid'". -/
  | missing_in_msgid (argument : Nat) (pretty_msgstr : String)
deriving DecidableEq, Repr

/-- What `format_check` leaves behind: the returned `err` and the calls of
`error_at_line` it made. -/
structure check_result where
  err : Bool
  diagnostics : List (lex_pos_ty × check_message)
deriving DecidableEq, Repr

/-- The expression `i < spec->arg_count && spec->args_used[i]`. The result is
`none` when the second operand is evaluated on a cell outside the array or on
one that was never written, which C leaves undefined. -/
def arg_used (spec : spec) (i : Nat) : Option Bool :=
  if i < spec.arg_count then spec.args_used.getD i none else some false

/-- The `for` loop of `format_check`, entered at index `i`. The first argument
bounds the number of iterations; `format_check` passes the larger of the two
`arg_count`, and when that bound is used up the loop condition is false
(`format_check_loop_exit`). -/
def format_check_loop (pos : lex_pos_ty) (spec1 spec2 : spec)
    (equality noisy : Bool) (pretty_msgstr : String) : Nat → Nat → Option check_result
  | 0, _ => some { err := false, diagnostics := [] }
  | n + 1, i =>
    if i < spec1.arg_count ∨ i < spec2.arg_count then
      match arg_used spec1 i, arg_used spec2 i with
      | some arg_used1, some arg_used2 =>
        if (if equality then arg_used1 != arg_used2 else (!arg_used1 && arg_used2)) then
          some
            { err := true
              diagnostics :=
                if noisy then
                  [(pos, if arg_used1 then .missing_in_msgstr (i + 1) pretty_msgstr
                         else .missing_in_msgid (i + 1) pretty_msgstr)]
                else [] }
        else format_check_loop pos spec1 spec2 equality noisy pretty_msgstr n (i + 1)
      | _, _ => none
    else some { err := false, diagnostics := [] }

/-- The function `format_check` of format-ycp.c; `spec1` describes the msgid
(the original) and `spec2` the msgstr (the translation). `none` stands for
undefined behaviour, see `arg_used`. -/
def format_check (pos : lex_pos_ty) (spec1 spec2 : spec)
    (equality noisy : Bool) (pretty_msgstr : String) : Option check_result :=
  format_check_loop pos spec1 spec2 equality noisy pretty_msgstr
    (max spec1.arg_count spec2.arg_count) 0

/-- The descriptors `format_check` can be given: at most nine arguments, an
array of nine cells, every cell below `arg_count` written. -/
def spec.valid (s : spec) : Prop :=
  s.arg_count ≤ 9 ∧ s.args_used.length = 9 ∧
    ∀ i, i < s.arg_count → (s.args_used.getD i none).isSome = true

instance (s : spec) : Decidable s.valid := by
  unfold spec.valid; infer_instance

/-- Argument `i + 1` is used in the descriptor. -/
def spec.uses (s : spec) (i : Nat) : Prop :=
  i < s.arg_count ∧ s.args_used.getD i none = some true

instance (s : spec) (i : Nat) : Decidable (s.uses i) := by
  unfold spec.uses; infer_instance

/-! ### The grammar of the single-digit-percent strings, in the spec's words -/

/-- The pieces a single-digit-percent string is made of: a character of
literal text, the literal percent `%%`, and a reference `%d` to an
argument. -/
inductive token where
  | literal (c : Char)
  | percent
  | argument (d : Char)
deriving DecidableEq, Repr

/-- The characters of a piece. -/
def token.text : token → List Char
  | .literal c => [c]
  | .percent => ['%', '%']
  | .argument d => ['%', d]

/-- Literal text is any character but '%'; an argument is referenced by a
digit from '1' to '9'. -/
def token.well_formed : token → Prop
  | .literal c => c ≠ '%'
  | .percent => True
  | .argument d => '1' ≤ d ∧ d ≤ '9'

instance (t : token) : Decidable t.well_formed := by
  cases t <;> unfold token.well_formed <;> infer_instance

/-- The string made of the pieces `ts`, in this order. -/
def concatenation (ts : List token) : List Char :=
  (ts.map token.text).flatten

/-- What reading a piece does to the descriptor under construction. -/
def token.effect (s : spec) : token → spec
  | .literal _ => s
  | .percent => { s with directives := (s.directives + 1) % UINT_MODULUS }
  | .argument d =>
    let s := { s with directives := (s.directives + 1) % UINT_MODULUS }
    let number := d.toNat - '1'.toNat
    let s := clear_loop number (number + 1 - s.arg_count) s
    { s with args_used := s.args_used.set number (some true) }

/-- The arguments (1 to 9) a string references, read from left to right: a
'%' followed by a digit from '1' to '9' references that argument, `%%`
references none. -/
def referenced_arguments : List Char → List Nat
  | [] => []
  | c :: format =>
    if c = '%' then
      match format with
      | [] => []
      | d :: format =>
        if '1' ≤ d ∧ d ≤ '9' then (d.toNat - '0'.toNat) :: referenced_arguments format
        else referenced_arguments format
    else referenced_arguments format

end FormatYcp

namespace FormatCsharp

/-- The `struct spec` of format-csharp.c. -/
structure spec where
  directives : Nat
  numbered_arg_count : Nat
deriving DecidableEq, Repr

/-- The texts stored in `*invalid_reason` by `format_parse`. -/
inductive invalid_reason where
  /-- "In the directive number %u, '{' is not followed by an argument
  number." -/
  | no_argument_number (directive : Nat)
  /-- "In the directive number %u, ',' is not followed by a number." -/
  | no_width_number (directive : Nat)
  /-- "The string ends in the middle of a directive: found '{' without
  matching '}'." -/
  | unterminated
  /-- "The directive number %u ends with an invalid character '%c' instead of
  '}'." when the character is printable (`c = some _`), and "The directive
  number %u ends with an invalid character instead of '}'." otherwise. -/
  | invalid_terminator (directive : Nat) (c : Option Char)
  /-- "The string starts in the middle of a directive: found '}' without
  matching '{'." -/
  | starts_in_middle
  /-- "The string contains a lone '}' after directive number %u." -/
  | lone_close (directive : Nat)
deriving DecidableEq, Repr

/-- A test `p (*format)` that is false on the terminating NUL: `c_isdigit`,
the comparison with a character other than NUL, and
`*format != '\0' && *format != '}'`. -/
def at_head (p : Char → Bool) : List Char → Bool
  | [] => false
  | c :: _ => p c

/-- The loop `do format++; while (p (*format));`. -/
def do_skip_while (p : Char → Bool) (format : List Char) : List Char :=
  (format.drop 1).dropWhile p

/-- The loop `while (c_isdigit (*format))` with the body
`number = 10 * number + (*format - '0'); format++;`. -/
def number_while : Nat → List Char → Nat × List Char
  | number, [] => (number, [])
  | number, c :: format =>
    if c_isdigit c then
      number_while ((10 * number + (c.toNat - '0'.toNat)) % UINT_MODULUS) format
    else (number, c :: format)

/-- The loop `do { number = 10 * number + (*format - '0'); format++; }
while (c_isdigit (*format));`: the body once, then `number_while`. It is
entered on a digit only. -/
def number_do_while (number : Nat) : List Char → Nat × List Char
  | [] => (number, [])
  | c :: format =>
    number_while ((10 * number + (c.toNat - '0'.toNat)) % UINT_MODULUS) format

/-- The statement `if (*format == ',') { ... }` that parses the width: the
position after it, or the reason of the failure; `directives` is the counter
printed in the reason. -/
def parse_width (directives : Nat) (format : List Char) : Except invalid_reason (List Char) :=
  if at_head (· == ',') format then
    let format := format.drop 1
    let format := if at_head (· == '-') format then format.drop 1 else format
    if !at_head c_isdigit format then .error (.no_width_number directives)
    else .ok (do_skip_while c_isdigit format)
  else .ok format

/-- The statement `if (*format == ':') { ... }` that skips the format
specifiers. -/
def parse_specifiers (format : List Char) : List Char :=
  if at_head (· == ':') format then do_skip_while (· != '}') format else format

/-- The block "A directive." of `format_parse`, entered behind the '{': the
descriptor and the position behind the '}', or the reason of the failure. -/
def parse_directive (spec : spec) (format : List Char) :
    Except invalid_reason (FormatCsharp.spec × List Char) :=
  let spec := { spec with directives := (spec.directives + 1) % UINT_MODULUS }
  if !at_head c_isdigit format then .error (.no_argument_number spec.directives)
  else
    let (number, format) := number_do_while 0 format
    match parse_width spec.directives format with
    | .error reason => .error reason
    | .ok format =>
      match parse_specifiers format with
      | [] => .error .unterminated
      | c :: format =>
        if c ≠ '}' then
          .error (.invalid_terminator spec.directives (if c_isprint c then some c else none))
        else
          .ok ({ spec with
                 numbered_arg_count :=
                   if spec.numbered_arg_count ≤ number then (number + 1) % UINT_MODULUS
                   else spec.numbered_arg_count }, format)

/-- The `for (; *format != '\0';)` loop of `format_parse`. Its first argument
bounds the number of iterations and `none` is returned when the bound is
reached; every iteration reads a character at least, so that the length of the
string plus one is never reached (`format_parse_total`). -/
def format_parse_loop : Nat → List Char → spec → Option (Except invalid_reason spec)
  | 0, _, _ => none
  | _ + 1, [], spec => some (.ok spec)
  | fuel + 1, c :: format, spec =>
    if c = '{' then
      if at_head (· == '{') format then format_parse_loop fuel (format.drop 1) spec
      else
        match parse_directive spec format with
        | .error reason => some (.error reason)
        | .ok (spec, format) => format_parse_loop fuel format spec
    else if c = '}' then
      if at_head (· == '}') format then format_parse_loop fuel (format.drop 1) spec
      else
        some (.error (if spec.directives = 0 then .starts_in_middle
                      else .lone_close spec.directives))
    else format_parse_loop fuel format spec

/-- The function `format_parse` of format-csharp.c: the descriptor, or the
reason why the string is invalid. The flag `translated` is not used by the
code. -/
def format_parse (format : List Char) (_translated : Bool) :
    Option (Except invalid_reason spec) :=
  format_parse_loop (format.length + 1) format { directives := 0, numbered_arg_count := 0 }

/-- The function `format_get_number_of_directives`: the counter, converted to
`int` (two's complement, 32 bits). -/
def format_get_number_of_directives (descr : spec) : Int :=
  if descr.directives < 2147483648 then (descr.directives : Int)
  else (descr.directives : Int) - 4294967296

/-- What `format_check` leaves behind: the returned `err` and the calls of
`error_at_line` it made, each with its position and the `pretty_msgstr` put
into "number of format specifications in 'msgid' and '%s' does not match". -/
structure check_result where
  err : Bool
  diagnostics : List (lex_pos_ty × String)
deriving DecidableEq, Repr

/-- The function `format_check` of format-csharp.c; `spec1` describes the
msgid (the original) and `spec2` the msgstr (the translation). -/
def format_check (pos : lex_pos_ty) (spec1 spec2 : spec)
    (equality noisy : Bool) (pretty_msgstr : String) : check_result :=
  -- Check that the argument counts are the same.
  if (if equality then spec1.numbered_arg_count != spec2.numbered_arg_count
      else decide (spec1.numbered_arg_count < spec2.numbered_arg_count)) then
    { err := true, diagnostics := if noisy then [(pos, pretty_msgstr)] else [] }
  else { err := false, diagnostics := [] }

/-! ### The grammar of the numbered-brace strings, in the spec's words -/

/-- The pieces a numbered-brace string is made of: a character of literal
text, the doubled braces, and a directive, which is an argument index, an
optional width (a sign and digits) and an optional run of format
specifiers. -/
inductive token where
  | literal (c : Char)
  | open_brace
  | close_brace
  | directive (index : List Char) (width : Option (Bool × List Char))
      (specifiers : Option (List Char))
deriving DecidableEq, Repr

/-- The characters of the optional width of a directive: ',' then an optional
'-' then the digits. -/
def width_text : Option (Bool × List Char) → List Char
  | none => []
  | some (minus, digits) => ',' :: ((if minus then ['-'] else []) ++ digits)

/-- The characters of the optional format specifiers of a directive: ':' then
the run. -/
def specifiers_text : Option (List Char) → List Char
  | none => []
  | some run => ':' :: run

/-- The characters of a piece. -/
def token.text : token → List Char
  | .literal c => [c]
  | .open_brace => ['{', '{']
  | .close_brace => ['}', '}']
  | .directive index width specifiers =>
    '{' :: (index ++ (width_text width ++ (specifiers_text specifiers ++ ['}'])))

/-- Literal text is any character but a brace; in a directive the index is one
or more decimal digits, so is the width behind its optional '-', and the run
of format specifiers holds no '}'. -/
def token.well_formed : token → Prop
  | .literal c => c ≠ '{' ∧ c ≠ '}'
  | .open_brace => True
  | .close_brace => True
  | .directive index width specifiers =>
    (index ≠ [] ∧ ∀ c ∈ index, c_isdigit c = true) ∧
    (∀ w ∈ width, w.2 ≠ [] ∧ ∀ c ∈ w.2, c_isdigit c = true) ∧
    (∀ run ∈ specifiers, '}' ∉ run)

instance (t : token) : Decidable t.well_formed := by
  cases t <;> unfold token.well_formed <;> infer_instance

/-- The string made of the pieces `ts`, in this order. -/
def concatenation (ts : List token) : List Char :=
  (ts.map token.text).flatten

/-- Whether a piece is a directive. -/
def token.is_directive : token → Bool
  | .directive _ _ _ => true
  | _ => false

/-- The number a decimal numeral of any length denotes. -/
def decimal_value (digits : List Char) : Nat :=
  digits.foldl (fun n c => 10 * n + (c.toNat - '0'.toNat)) 0

/-- The value the code reads from the digits of an argument index: every step
of the accumulation is reduced modulo `UINT_MODULUS`. -/
def wrapped_value (number : Nat) (digits : List Char) : Nat :=
  digits.foldl (fun n c => (10 * n + (c.toNat - '0'.toNat)) % UINT_MODULUS) number

/-- What reading a piece does to the descriptor under construction. -/
def token.effect (s : spec) : token → spec
  | .directive index _ _ =>
    { directives := (s.directives + 1) % UINT_MODULUS
      numbered_arg_count :=
        if s.numbered_arg_count ≤ wrapped_value 0 index
        then (wrapped_value 0 index + 1) % UINT_MODULUS
        else s.numbered_arg_count }
  | _ => s

/-- The argument indices written in the directives of `ts`. -/
def argument_indices : List token → List Nat
  | [] => []
  | .directive index _ _ :: ts => decimal_value index :: argument_indices ts
  | _ :: ts => argument_indices ts

/-- One more than the largest of the indices, 0 when there is none. -/
def highest_index_succ : List Nat → Nat
  | [] => 0
  | index :: indices => max (index + 1) (highest_index_succ indices)

end FormatCsharp

namespace FormatYcp

/-- Whether a piece is the literal percent `%%`. -/
def token.is_percent : token → Bool
  | .percent => true
  | _ => false

/-- Whether a piece references an argument. -/
def token.is_argument : token → Bool
  | .argument _ => true
  | _ => false

/-- The largest of the arguments, 0 when there is none. -/
def largest_argument : List Nat → Nat
  | [] => 0
  | d :: ds => max d (largest_argument ds)

end FormatYcp

namespace FormatCsharp

/-- The `%u` argument of the text of a reason: the directive number it names,
if its text names one. -/
def invalid_reason.directive_number : invalid_reason → Option Nat
  | .no_argument_number directive => some directive
  | .no_width_number directive => some directive
  | .unterminated => none
  | .invalid_terminator directive _ => some directive
  | .starts_in_middle => none
  | .lone_close directive => some directive

/-- A well-formed directive opens at a '{' that has the characters `x` behind
it: `x` begins with the argument index, the optional width, the optional
format specifiers and the '}' of such a directive. -/
def starts_directive (x : List Char) : Prop :=
  ∃ (index : List Char) (width : Option (Bool × List Char))
    (specifiers : Option (List Char)) (rest : List Char),
    (token.directive index width specifiers).well_formed ∧
    '{' :: x = (token.directive index width specifiers).text ++ rest

end FormatCsharp

/-! ## The program msgcat

The function `main` of msgcat.c, from the loop over the options on. What
`getopt_long` returns is an input; the output is the list of the calls that
change or print something, in their order, and the exit status. The calls
before the loop (`set_program_name`, `setlocale`, `bindtextdomain`,
`textdomain`, `atexit`) are not modelled. An `int` is an integer.
-/

namespace Msgcat

/-- The constant `INT_MAX` of `<limits.h>`, for an `int` of 32 bits. -/
def INT_MAX : Int := 2147483647

/-- Modelled from the spec: the enumeration `input_syntax_ty` of the header
`read-po.h`, which is not among the sources; its values are the three on-disk
syntaxes of the spec, under the names msgcat.c uses. -/
inductive input_syntax_ty where
  | syntax_po
  | syntax_properties
  | syntax_stringtable
deriving DecidableEq, Repr

/-- The two exit statuses `main` uses. -/
inductive exit_status where
  | EXIT_SUCCESS
  | EXIT_FAILURE
deriving DecidableEq, Repr

/-- What `getopt_long` hands to one iteration of the loop: the option, with
`optarg` where the option has an argument. For the options whose argument is
read with `strtol`, the argument is given as the `int` stored in `value`, or
`none` when `strtol` reads no digit (`endp == optarg`). The first three are the
long options that `getopt_long` handles itself, storing into a flag and
returning 0. -/
inductive optchar where
  /-- `--add-location`: `line_comment` is set to 1. -/
  | add_location
  /-- `--force-po`: `force_po` is set to 1. -/
  | force_po
  /-- `--no-location`: `line_comment` is set to 0. -/
  | no_location
  /-- `'>'`, `--more-than`. -/
  | more_than (value : Option Int)
  /-- `'<'`, `--less-than`. -/
  | less_than (value : Option Int)
  /-- `'D'`, `--directory`. -/
  | directory (optarg : String)
  /-- `'e'`, `--no-escape`. -/
  | no_escape
  /-- `'E'`, `--escape`. -/
  | escape
  /-- `'f'`, `--files-from`. -/
  | files_from (optarg : String)
  /-- `'F'`, `--sort-by-file`. -/
  | sort_by_file
  /-- `'h'`, `--help`. -/
  | help
  /-- `'i'`, `--indent`. -/
  | indent
  /-- `'n'`. -/
  | n
  /-- `'o'`, `--output-file`. -/
  | output_file (optarg : String)
  /-- `'p'`, `--properties-output`. -/
  | properties_output
  /-- `'P'`, `--properties-input`. -/
  | properties_input
  /-- `'s'`, `--sort-output`. -/
  | sort_output
  /-- `'S'`, `--strict`. -/
  | strict
  /-- `'t'`, `--to-code`. -/
  | to_code (optarg : String)
  /-- `'u'`, `--unique`. -/
  | unique
  /-- `'V'`, `--version`. -/
  | version
  /-- `'w'`, `--width`. -/
  | width (value : Option Int)
  /-- `CHAR_MAX + 1`, `--use-first`. -/
  | use_first
  /-- `CHAR_MAX + 2`, `--no-wrap`. -/
  | no_wrap
  /-- `CHAR_MAX + 3`, `--stringtable-input`. -/
  | stringtable_input
  /-- `CHAR_MAX + 4`, `--stringtable-output`. -/
  | stringtable_output
  /-- Anything else `getopt_long` returns: the `default` label. -/
  | unrecognized
deriving DecidableEq, Repr

/-- The calls `main` makes that change or print something. -/
inductive event where
  | dir_list_append (optarg : String)
  | message_print_style_escape (flag : Bool)
  | message_print_style_indent
  | message_print_syntax_properties
  | message_print_style_uniforum
  | message_page_width_set (value : Int)
  | message_page_width_ignore
  | message_print_syntax_stringtable
  /-- The three `printf` of the version information. -/
  | version_information
  /-- What `usage (status)` prints. -/
  | usage (status : exit_status)
  /-- `error (EXIT_FAILURE, 0, _("%s and %s are mutually exclusive"), a, b)`. -/
  | error_mutually_exclusive (a b : String)
  /-- `error (EXIT_FAILURE, 0, _("impossible selection criteria specified
  (%d < n < %d)"), more_than, less_than)`. -/
  | error_impossible_selection (more_than less_than : Int)
  | catenate_msgdomain_list (file_list : List String) (to_code : Option String)
  | msgdomain_list_sort_by_filepos
  | msgdomain_list_sort_by_msgid
  | msgdomain_list_print (output_file : Option String) (force_po : Int)
deriving DecidableEq, Repr

/-- The merge work: reading and merging the catalogs, sorting the result and
writing it. -/
def event.is_merge_work : event → Bool
  | .catenate_msgdomain_list _ _ => true
  | .msgdomain_list_sort_by_filepos => true
  | .msgdomain_list_sort_by_msgid => true
  | .msgdomain_list_print _ _ => true
  | _ => false

/-- What the run leaves behind when the process exits. -/
structure outcome where
  events : List event
  status : exit_status
deriving DecidableEq, Repr

/-- The variables `main` works on, local and global, and the calls made so
far. A pointer that may be `NULL` is an `Option`. -/
structure main_state where
  do_help : Bool
  do_version : Bool
  output_file : Option String
  files_from : Option String
  more_than : Int
  less_than : Int
  use_first : Bool
  line_comment : Int
  force_po : Int
  to_code : Option String
  input_syntax : input_syntax_ty
  output_syntax : input_syntax_ty
  sort_by_msgid : Bool
  sort_by_filepos : Bool
  events : List event
deriving DecidableEq, Repr

/-- What msgcat.c takes from files that are not among the sources: the values
the globals `line_comment` and `input_syntax` have when `main` starts, and the
functions `read_names_from_file` and `string_list_append_unique`. -/
structure externals where
  line_comment : Int
  input_syntax : input_syntax_ty
  read_names_from_file : String → List String
  string_list_append_unique : List String → String → List String

/-- The variables after "Set default values for variables." and the
initialisers of the declarations; `force_po` and `to_code` are static, hence 0
and `NULL`. -/
def initial_state (env : externals) : main_state :=
  { do_help := false
    do_version := false
    output_file := none
    files_from := none
    more_than := 0
    less_than := INT_MAX
    use_first := false
    line_comment := env.line_comment
    force_po := 0
    to_code := none
    input_syntax := env.input_syntax
    output_syntax := .syntax_po
    sort_by_msgid := false
    sort_by_filepos := false
    events := [] }

/-- One iteration of the loop over the options: the `switch (optchar)`. The
`default` label calls `usage (EXIT_FAILURE)`, which exits. -/
def process_option (st : main_state) : optchar → Except outcome main_state
  | .add_location => .ok { st with line_comment := 1 }
  | .force_po => .ok { st with force_po := 1 }
  | .no_location => .ok { st with line_comment := 0 }
  | .more_than value =>
    match value with
    | some value => .ok { st with more_than := value }
    | none => .ok st
  | .less_than value =>
    match value with
    | some value => .ok { st with less_than := value }
    | none => .ok st
  | .directory optarg => .ok { st with events := st.events ++ [.dir_list_append optarg] }
  | .no_escape => .ok { st with events := st.events ++ [.message_print_style_escape false] }
  | .escape => .ok { st with events := st.events ++ [.message_print_style_escape true] }
  | .files_from optarg => .ok { st with files_from := some optarg }
  | .sort_by_file => .ok { st with sort_by_filepos := true }
  | .help => .ok { st with do_help := true }
  | .indent => .ok { st with events := st.events ++ [.message_print_style_indent] }
  | .n => .ok { st with line_comment := 1 }
  | .output_file optarg => .ok { st with output_file := some optarg }
  | .properties_output =>
    .ok { st with
          events := st.events ++ [.message_print_syntax_properties]
          output_syntax := .syntax_properties }
  | .properties_input => .ok { st with input_syntax := .syntax_properties }
  | .sort_output => .ok { st with sort_by_msgid := true }
  | .strict => .ok { st with events := st.events ++ [.message_print_style_uniforum] }
  | .to_code optarg => .ok { st with to_code := some optarg }
  | .unique => .ok { st with less_than := 2 }
  | .version => .ok { st with do_version := true }
  | .width value =>
    match value with
    | some value => .ok { st with events := st.events ++ [.message_page_width_set value] }
    | none => .ok st
  | .use_first => .ok { st with use_first := true }
  | .no_wrap => .ok { st with events := st.events ++ [.message_page_width_ignore] }
  | .stringtable_input => .ok { st with input_syntax := .syntax_stringtable }
  | .stringtable_output =>
    .ok { st with events := st.events ++ [.message_print_syntax_stringtable] }
  | .unrecognized =>
    .error { events := st.events ++ [.usage .EXIT_FAILURE], status := .EXIT_FAILURE }

/-- The loop `while ((optchar = getopt_long (...)) != EOF)`. -/
def process_options : main_state → List optchar → Except outcome main_state
  | st, [] => .ok st
  | st, o :: options =>
    match process_option st o with
    | .error out => .error out
    | .ok st => process_options st options

/-- The function `main` of msgcat.c, behind the loop over the options;
`arguments` are the `argv[optind]` to `argv[argc - 1]`. Both `error
(EXIT_FAILURE, ...)` and `usage` exit. -/
def main_after_options (env : externals) (st : main_state) (arguments : List String) :
    outcome :=
  -- Version information requested.
  if st.do_version then
    { events := st.events ++ [.version_information], status := .EXIT_SUCCESS }
  -- Help is requested.
  else if st.do_help then
    { events := st.events ++ [.usage .EXIT_SUCCESS], status := .EXIT_SUCCESS }
  -- Verify selected options.
  else if st.line_comment = 0 ∧ st.sort_by_filepos = true then
    { events := st.events ++ [.error_mutually_exclusive "--no-location" "--sort-by-file"]
      status := .EXIT_FAILURE }
  else if st.sort_by_msgid = true ∧ st.sort_by_filepos = true then
    { events := st.events ++ [.error_mutually_exclusive "--sort-output" "--sort-by-file"]
      status := .EXIT_FAILURE }
  -- Check the message selection criteria for sanity.
  else if st.more_than ≥ st.less_than ∨ st.less_than < 2 then
    { events := st.events ++ [.error_impossible_selection st.more_than st.less_than]
      status := .EXIT_FAILURE }
  else
    -- Determine list of files we have to process.
    let file_list :=
      match st.files_from with
      | some files_from => env.read_names_from_file files_from
      | none => []
    -- Append names from command line.
    let file_list := arguments.foldl env.string_list_append_unique file_list
    -- Read input files, then filter, convert and merge messages.
    let catenate := event.catenate_msgdomain_list file_list
      (if st.output_syntax ≠ .syntax_properties ∧ st.output_syntax ≠ .syntax_stringtable
       then st.to_code else some "UTF-8")
    -- Sorting the list of messages.
    let sorting :=
      if st.sort_by_filepos then [event.msgdomain_list_sort_by_filepos]
      else if st.sort_by_msgid then [event.msgdomain_list_sort_by_msgid]
      else []
    -- Write the PO file.
    { events := st.events ++ [catenate] ++ sorting ++
        [.msgdomain_list_print st.output_file st.force_po]
      status := .EXIT_SUCCESS }

/-- The function `main` of msgcat.c. -/
def main (env : externals) (options : List optchar) (arguments : List String) : outcome :=
  match process_options (initial_state env) options with
  | .error out => out
  | .ok st => main_after_options env st arguments

end Msgcat

/-! ## The catalogs and their merge

The function `catenate_msgdomain_list` and the types of the messages are
defined in files that are not among the sources (msgl-cat.c, message.h); the
help text of msgcat only says that translations, comments and file positions
are cumulated. What follows is the data model and the MergeEngine and
SelectionFilter components as the spec describes them.
-/

namespace Catalog

/-- Modelled from the spec: an Occurrence of `message.h` (not among the
sources), the pair of a source-file identifier and a line number. -/
structure Occurrence where
  file : String
  line : Nat
deriving DecidableEq, Repr

/-- Modelled from the spec: a Message of `message.h` (not among the sources):
its identity (optional context, singular identifier), the optional plural
identifier, the translated forms, the ordered occurrences, the human and the
extraction comments and the contribution count. -/
structure Message where
  context : Option String
  singular : String
  plural : Option String
  translations : List String
  occurrences : List Occurrence
  human_comments : String
  extraction_comments : String
  contribution_count : Nat
deriving DecidableEq, Repr

/-- Modelled from the spec: the identity of a message of `message.h` (not
among the sources), the pair (context, singular identifier). -/
def Message.identity (m : Message) : Option String × String :=
  (m.context, m.singular)

/-- Modelled from the spec: a MessageDomain of `message.h` (not among the
sources), a name and an ordered sequence of messages. -/
structure MessageDomain where
  name : String
  messages : List Message
deriving DecidableEq, Repr

/-- Modelled from the spec: a MessageDomainStore of `message.h` (not among the
sources), an ordered sequence of domains. -/
abbrev MessageDomainStore := List MessageDomain

/-- Modelled from the spec: the invariants of a store read from one source,
of `message.h` and `read-po.c` (not among the sources): the domains are an
ordered set, and within a domain the identity is unique. -/
def MessageDomainStore.invariant (store : MessageDomainStore) : Prop :=
  (store.map MessageDomain.name).Nodup ∧
    ∀ d ∈ store, (d.messages.map Message.identity).Nodup

instance (store : MessageDomainStore) : Decidable store.invariant := by
  unfold MessageDomainStore.invariant; infer_instance

/-- Modelled from the spec: the look-up step of the MergeEngine, in
`msgl-cat.c` (not among the sources): look the new element up by its key in the
result; if it is absent insert `fresh` of it behind the elements seen so far,
if it is present replace the element found by `combine` of it and the new
one. -/
def upsert {α β κ : Type} [DecidableEq κ] (key : α → κ) (key_of_new : β → κ)
    (fresh : β → α) (combine : α → β → α) : List α → β → List α
  | [], b => [fresh b]
  | a :: as, b =>
    if key a = key_of_new b then combine a b :: as
    else a :: upsert key key_of_new fresh combine as b

/-- Modelled from the spec: whether the translated-form field of a message is
non-empty, for `msgl-cat.c` (not among the sources): some form has text. -/
def Message.translated (m : Message) : Bool :=
  m.translations.any (fun form => form ≠ "")

/-- Modelled from the spec: the insertion of the MergeEngine, in `msgl-cat.c`
(not among the sources): a copy with contribution count 1 and its own
occurrences. -/
def Message.first_contribution (m : Message) : Message :=
  { m with contribution_count := 1 }

/-- Modelled from the spec: the cumulation of the MergeEngine, in `msgl-cat.c`
(not among the sources): the contribution count is incremented, the new
occurrences and comments are appended, and the translated forms follow the
override policy: without `use_first` a later non-empty translation replaces
the earlier one, with `use_first` it does so only as long as no non-empty
translation was met. -/
def Message.cumulate (use_first : Bool) (existing new : Message) : Message :=
  { existing with
    contribution_count := existing.contribution_count + 1
    occurrences := existing.occurrences ++ new.occurrences
    human_comments := existing.human_comments ++ new.human_comments
    extraction_comments := existing.extraction_comments ++ new.extraction_comments
    translations :=
      if new.translated && (!use_first || !existing.translated) then new.translations
      else existing.translations }

/-- Modelled from the spec: the MergeEngine on one message, in `msgl-cat.c`
(not among the sources): look it up by identity in the result domain. -/
def merge_message (use_first : Bool) : List Message → Message → List Message :=
  upsert Message.identity Message.identity Message.first_contribution
    (Message.cumulate use_first)

/-- Modelled from the spec: the MergeEngine on one source domain, in
`msgl-cat.c` (not among the sources): maintain or create the result domain of
that name and merge the messages into it in their order. -/
def merge_domain (use_first : Bool) :
    MessageDomainStore → MessageDomain → MessageDomainStore :=
  upsert MessageDomain.name MessageDomain.name
    (fun d => { name := d.name, messages := d.messages.foldl (merge_message use_first) [] })
    (fun r d => { r with messages := d.messages.foldl (merge_message use_first) r.messages })

/-- Modelled from the spec: the MergeEngine, `catenate_msgdomain_list` of
`msgl-cat.c` (not among the sources), on stores that are already read: the
stores are processed in input order, each store domain by domain. -/
def merge (use_first : Bool) (stores : List MessageDomainStore) : MessageDomainStore :=
  stores.foldl (fun result store => store.foldl (merge_domain use_first) result) []

/-- Modelled from the spec: the SelectionFilter, in `msgl-cat.c` (not among
the sources): in every domain keep the messages whose contribution count `c`
satisfies `lower < c < upper`; a domain left without message stays. -/
def selection_filter (store : MessageDomainStore) (lower upper : Int) :
    MessageDomainStore :=
  store.map (fun d =>
    { d with
      messages := d.messages.filter (fun m =>
        decide (lower < (m.contribution_count : Int) ∧ (m.contribution_count : Int) < upper)) })

/-- Modelled from the spec: what a message becomes in the MergeEngine of
`msgl-cat.c` (not among the sources) when, after its insertion, it is
contributed `n` more times. -/
def Message.repeated (use_first : Bool) (m : Message) : Nat → Message
  | 0 => m.first_contribution
  | n + 1 => Message.cumulate use_first (Message.repeated use_first m n) m

end Catalog

/-! ## The invocation of the C# compilers

The three functions of csharpcomp.c that build the argument list of a
compiler. An array of strings is a list and its count is the length of the
list; `*argp++ = x` appends `x` to the list of the slots written so far. The
static variables that remember whether a compiler is present, and what the
compiler run returns, are inputs.
-/

namespace Csharpcomp

/-- The test `strlen (source_file) >= 9 && memcmp (source_file + strlen
(source_file) - 9, ".resource", 9) == 0`. -/
def is_resource (source_file : List Char) : Bool :=
  decide (source_file.length ≥ 9) &&
    (source_file.drop (source_file.length - 9) == ".resource".toList)

/-- The slot written for one source file: the file name, or for a resource
the option made of `option` and the file name. -/
def source_argument (option : List Char) (source_file : List Char) : List Char :=
  if is_resource source_file then option ++ source_file else source_file

/-- How one of the three functions ends. -/
inductive outcome where
  /-- The compiler is not present: `return -1`. -/
  | absent
  /-- The check of the length of `argv` fails: `abort ()`. -/
  | aborted
  /-- The call `error (EXIT_FAILURE, errno, _("fdopen() failed"))`. -/
  | exit_failure
  /-- The compiler was run on `argv`, after the command was printed if
  `printed`, and `exitstatus != 0` is returned. -/
  | returned (argv : List (List Char)) (printed : Bool) (result : Bool)
deriving DecidableEq, Repr

/-- The value of `argc` in `compile_csharp_using_pnet`, an `unsigned int`. -/
def pnet_argc (sources_count libdirs_count libraries_count : Nat)
    (output_is_library optimize debug : Bool) : Nat :=
  (1 + (if output_is_library then 1 else 0) + 2 + 2 * libdirs_count
    + 2 * libraries_count + (if optimize then 1 else 0) + (if debug then 1 else 0)
    + sources_count) % UINT_MODULUS

/-- The slots `compile_csharp_using_pnet` writes through `argp`, before the
final `NULL`. -/
def pnet_argv (sources libdirs libraries : List (List Char)) (output_file : List Char)
    (output_is_library optimize debug : Bool) : List (List Char) :=
  let argv := ["cscc".toList]
  let argv := if output_is_library then argv ++ ["-shared".toList] else argv
  let argv := argv ++ ["-o".toList]
  let argv := argv ++ [output_file]
  let argv := libdirs.foldl (fun argv libdir => argv ++ ["-L".toList] ++ [libdir]) argv
  let argv := libraries.foldl (fun argv library => argv ++ ["-l".toList] ++ [library]) argv
  let argv := if optimize then argv ++ ["-O".toList] else argv
  let argv := if debug then argv ++ ["-g".toList] else argv
  sources.foldl
    (fun argv source_file => argv ++ [source_argument "-fresources=".toList source_file]) argv

/-- The function `compile_csharp_using_pnet`; `cscc_present` is the static
variable after the test for the presence of cscc and `execute` gives the exit
status of the run of cscc. The two sides of `argp - argv != argc` are compared
as integers. -/
def compile_csharp_using_pnet (cscc_present : Bool) (execute : List (List Char) → Int)
    (sources libdirs libraries : List (List Char)) (output_file : List Char)
    (output_is_library optimize debug verbose : Bool) : outcome :=
  if cscc_present then
    let argc := pnet_argc sources.length libdirs.length libraries.length
      output_is_library optimize debug
    let argv := pnet_argv sources libdirs libraries output_file output_is_library
      optimize debug
    -- Ensure argv length was correctly calculated.
    if argv.length ≠ argc then .aborted
    else .returned argv verbose (execute argv != 0)
  else .absent

/-- The value of `argc` in `compile_csharp_using_mono`, an `unsigned int`. -/
def mono_argc (sources_count libdirs_count libraries_count : Nat)
    (output_is_library debug : Bool) : Nat :=
  (1 + (if output_is_library then 1 else 0) + 2 + 2 * libdirs_count
    + 2 * libraries_count + (if debug then 1 else 0) + sources_count) % UINT_MODULUS

/-- The slots `compile_csharp_using_mono` writes through `argp`, before the
final `NULL`. -/
def mono_argv (sources libdirs libraries : List (List Char)) (output_file : List Char)
    (output_is_library debug : Bool) : List (List Char) :=
  let argv := ["mcs".toList]
  let argv := if output_is_library then argv ++ ["-target:library".toList] else argv
  let argv := argv ++ ["-o".toList]
  let argv := argv ++ [output_file]
  let argv := libdirs.foldl (fun argv libdir => argv ++ ["-L".toList] ++ [libdir]) argv
  let argv := libraries.foldl (fun argv library => argv ++ ["-r".toList] ++ [library]) argv
  let argv := if debug then argv ++ ["-g".toList] else argv
  sources.foldl
    (fun argv source_file => argv ++ [source_argument "-resource:".toList source_file]) argv

/-- The function `compile_csharp_using_mono`; `mcs_present` is the static
variable after the test for the presence of mcs, `fdopen_succeeds` tells
whether `fdopen` returns a stream, and `wait_subprocess` gives the exit status
of the run of mcs. The flag `optimize` is not used by the code. -/
def compile_csharp_using_mono (mcs_present fdopen_succeeds : Bool)
    (wait_subprocess : List (List Char) → Int)
    (sources libdirs libraries : List (List Char)) (output_file : List Char)
    (output_is_library _optimize debug verbose : Bool) : outcome :=
  if mcs_present then
    let argc := mono_argc sources.length libdirs.length libraries.length
      output_is_library debug
    let argv := mono_argv sources libdirs libraries output_file output_is_library debug
    -- Ensure argv length was correctly calculated.
    if argv.length ≠ argc then .aborted
    else if !fdopen_succeeds then .exit_failure
    else .returned argv verbose (wait_subprocess argv != 0)
  else .absent

/-- The value of `argc` in `compile_csharp_using_sscli`, an `unsigned int`. -/
def sscli_argc (sources_count libdirs_count libraries_count : Nat)
    (optimize debug : Bool) : Nat :=
  (1 + 1 + 1 + libdirs_count + libraries_count
    + (if optimize then 1 else 0) + (if debug then 1 else 0) + sources_count) % UINT_MODULUS

/-- The slots `compile_csharp_using_sscli` writes through `argp`, before the
final `NULL`. -/
def sscli_argv (sources libdirs libraries : List (List Char)) (output_file : List Char)
    (output_is_library optimize debug : Bool) : List (List Char) :=
  let argv := ["csc".toList]
  let argv :=
    argv ++ [if output_is_library then "-target:library".toList else "-target:exe".toList]
  let argv := argv ++ ["-out:".toList ++ output_file]
  let argv := libdirs.foldl (fun argv libdir => argv ++ ["-lib:".toList ++ libdir]) argv
  let argv :=
    libraries.foldl (fun argv library => argv ++ ["-reference:".toList ++ library]) argv
  let argv := if optimize then argv ++ ["-optimize+".toList] else argv
  let argv := if debug then argv ++ ["-debug+".toList] else argv
  sources.foldl
    (fun argv source_file => argv ++ [source_argument "-resource:".toList source_file]) argv

/-- The function `compile_csharp_using_sscli`; `csc_present` is the static
variable after the test for the presence of csc and `execute` gives the exit
status of the run of csc. -/
def compile_csharp_using_sscli (csc_present : Bool) (execute : List (List Char) → Int)
    (sources libdirs libraries : List (List Char)) (output_file : List Char)
    (output_is_library optimize debug verbose : Bool) : outcome :=
  if csc_present then
    let argc := sscli_argc sources.length libdirs.length libraries.length optimize debug
    let argv := sscli_argv sources libdirs libraries output_file output_is_library
      optimize debug
    -- Ensure argv length was correctly calculated.
    if argv.length ≠ argc then .aborted
    else .returned argv verbose (execute argv != 0)
  else .absent

end Csharpcomp

/-! ## The function `expand_escape` of ngettext.c

The pointer `cp` is the list of the characters of `str` from `cp` on, the empty
list standing for `cp[0] == '\0'`. The cells of `retval` below `rp` are the
list `written`; the store `*rp = c`, which does not advance `rp`, is kept in
`at_rp` until the next store through `rp` replaces it. The first argument of
the loops bounds the number of their iterations; `none` says that the bound
was reached.
-/

namespace Ngettext

/-- The test `strchr ("bfnrt\\01234567", c) != NULL` for a character other
than NUL. -/
def recognised (c : Char) : Bool :=
  decide (c ∈ ['b', 'f', 'n', 'r', 't', '\\', '0', '1', '2', '3', '4', '5', '6', '7'])

/-- The condition of the first loop: `cp[0] != '\0' && cp[1] != '\0' &&
strchr ("bfnrt\\01234567", cp[1]) == NULL`. -/
def scan_continues : List Char → Bool
  | _ :: c :: _ => !recognised c
  | _ => false

/-- The first loop of `expand_escape`: `do { while (cp[0] != '\0' && cp[0] !=
'\\') ++cp; } while (...)`. -/
def scan_loop : Nat → List Char → Option (List Char)
  | 0, _ => none
  | fuel + 1, cp =>
    let cp := cp.dropWhile (fun c => c != '\\')
    if scan_continues cp then scan_loop fuel cp else some cp

/-- The memory `expand_escape` writes through `rp`. -/
structure output where
  written : List Char
  at_rp : Option Char
deriving DecidableEq, Repr

/-- The store `*rp++ = c`. -/
def output.store_and_advance (out : output) (c : Char) : output :=
  { written := out.written ++ [c], at_rp := none }

/-- The store `*rp = c`. -/
def output.store (out : output) (c : Char) : output :=
  { out with at_rp := some c }

/-- The test `*cp >= '0' && *cp <= '7'`, false on NUL. -/
def octal_digit (c : Char) : Bool := decide ('0' ≤ c) && decide (c ≤ '7')

/-- The case of the octal digits: up to three digits are read into `ch`, and
`*rp = ch` stores the character of that code. -/
def octal_case (c : Char) (cp : List Char) (out : output) : List Char × output :=
  let ch := c.toNat - '0'.toNat
  match cp with
  | d :: cp1 =>
    if octal_digit d then
      let ch := ch * 8 + (d.toNat - '0'.toNat)
      match cp1 with
      | e :: cp2 =>
        if octal_digit e then
          (cp2, out.store (Char.ofNat ((ch * 8 + (e.toNat - '0'.toNat)) % 256)))
        else (cp1, out.store (Char.ofNat (ch % 256)))
      | [] => (cp1, out.store (Char.ofNat (ch % 256)))
    else (cp, out.store (Char.ofNat (ch % 256)))
  | [] => (cp, out.store (Char.ofNat (ch % 256)))

/-- The statement `switch (*++cp)`, entered with `cp` behind the backslash: the
position and the memory behind it. -/
def switch_case (cp : List Char) (out : output) : List Char × output :=
  match cp with
  | [] => (cp, out.store '\\')
  | c :: rest =>
    if c = 'b' then (rest, out.store_and_advance '\x08')
    else if c = 'f' then (rest, out.store_and_advance '\x0c')
    else if c = 'n' then (rest, out.store_and_advance '\n')
    else if c = 'r' then (rest, out.store_and_advance '\r')
    else if c = 't' then (rest, out.store_and_advance '\t')
    else if c = '\\' then (rest, out.store '\\')
    else if octal_digit c then octal_case c rest out
    else (cp, out.store '\\')

/-- The second loop of `expand_escape`: `do { switch (*++cp) ...; while
(cp[0] != '\0' && cp[0] != '\\') *rp++ = *cp++; } while (cp[0] != '\0')`. -/
def expand_loop : Nat → List Char → output → Option output
  | 0, _, _ => none
  | fuel + 1, cp, out =>
    let (cp, out) := switch_case (cp.drop 1) out
    let out := (cp.takeWhile (fun c => c != '\\')).foldl output.store_and_advance out
    let cp := cp.dropWhile (fun c => c != '\\')
    if cp ≠ [] then expand_loop fuel cp out else some out

/-- The function `expand_escape` of ngettext.c: the string it returns, or
`none` when one of its loops is still running after `fuel` iterations. The
final `*rp = '\0'` ends the returned string at `rp`. -/
def expand_escape (fuel : Nat) (str : List Char) : Option (List Char) :=
  match scan_loop fuel str with
  | none => none
  | some cp =>
    if cp = [] then some str
    else
      match expand_loop fuel cp
          { written := str.take (str.length - cp.length), at_rp := none } with
      | none => none
      | some out => some out.written

end Ngettext

/-! ## Properties of the single-digit-percent validator -/

namespace FormatYcp

theorem arg_used_of_valid {s : spec} (h : s.valid) (i : Nat) :
    arg_used s i = some (decide (s.uses i)) := by
  unfold arg_used spec.uses
  by_cases hi : i < s.arg_count
  · obtain ⟨b, hb⟩ := Option.isSome_iff_exists.mp (h.2.2 i hi)
    rw [List.getD_eq_getElem?_getD] at hb
    cases b <;> simp [hi, hb]
  · simp [hi]

/-- The loop of `format_check` on descriptors whose cells can be read: it
returns, and reports a mismatch iff one of the indices it visits disagrees. -/
theorem format_check_loop_spec (pos : lex_pos_ty) (s1 s2 : spec) (equality noisy : Bool)
    (pretty_msgstr : String) (u1 u2 : Nat → Bool)
    (h1 : ∀ i, arg_used s1 i = some (u1 i)) (h2 : ∀ i, arg_used s2 i = some (u2 i)) :
    ∀ n i, i + n = max s1.arg_count s2.arg_count →
      ∃ r, format_check_loop pos s1 s2 equality noisy pretty_msgstr n i = some r ∧
      (r.err = true ↔ ∃ j, i ≤ j ∧ j < i + n ∧
        (if equality then u1 j != u2 j else (!u1 j && u2 j)) = true) := by
  intro n
  induction n with
  | zero =>
    intro i _
    refine ⟨_, rfl, ?_⟩
    simp
    intro j hj; omega
  | succ n ih =>
    intro i hmax
    have hcond : i < s1.arg_count ∨ i < s2.arg_count := by
      rcases Nat.le_total s1.arg_count s2.arg_count with h | h
      · rw [Nat.max_eq_right h] at hmax; right; omega
      · rw [Nat.max_eq_left h] at hmax; left; omega
    unfold format_check_loop
    rw [if_pos hcond, h1 i, h2 i]
    dsimp only
    by_cases hm : (if equality then u1 i != u2 i else (!u1 i && u2 i)) = true
    · rw [if_pos hm]
      refine ⟨_, rfl, ?_⟩
      simp only [true_iff]
      exact ⟨i, le_refl _, by omega, hm⟩
    · obtain ⟨r, hr, hiff⟩ := ih (i + 1) (by omega)
      rw [if_neg hm]
      refine ⟨r, hr, ?_⟩
      rw [hiff]
      constructor
      · rintro ⟨j, hj1, hj2, hj3⟩
        exact ⟨j, by omega, by omega, hj3⟩
      · rintro ⟨j, hj1, hj2, hj3⟩
        have : j ≠ i := by
          intro h; subst h; exact hm hj3
        exact ⟨j, by omega, by omega, hj3⟩

/-- When the bound given to the loop of `format_check` is used up, the loop
condition `i < spec1->arg_count || i < spec2->arg_count` is false. -/
theorem format_check_loop_exit (s1 s2 : spec) :
    ¬ (0 + max s1.arg_count s2.arg_count < s1.arg_count ∨
       0 + max s1.arg_count s2.arg_count < s2.arg_count) := by
  rcases Nat.le_total s1.arg_count s2.arg_count with h | h
  · rw [Nat.max_eq_right h]; omega
  · rw [Nat.max_eq_left h]; omega

/-- On valid descriptors `format_check` returns, and it reports a mismatch iff
some index disagrees in the sense of the mode. -/
theorem format_check_spec (pos : lex_pos_ty) {s1 s2 : spec} (equality noisy : Bool)
    (pretty_msgstr : String) (h1 : s1.valid) (h2 : s2.valid) :
    ∃ r, format_check pos s1 s2 equality noisy pretty_msgstr = some r ∧
      (r.err = true ↔ ∃ j,
        (if equality then decide (s1.uses j) != decide (s2.uses j)
         else (!decide (s1.uses j) && decide (s2.uses j))) = true) := by
  obtain ⟨r, hr, hiff⟩ := format_check_loop_spec pos s1 s2 equality noisy pretty_msgstr
    (fun i => decide (s1.uses i)) (fun i => decide (s2.uses i))
    (arg_used_of_valid h1) (arg_used_of_valid h2) (max s1.arg_count s2.arg_count) 0
    (Nat.zero_add _)
  refine ⟨r, hr, ?_⟩
  rw [hiff]
  constructor
  · rintro ⟨j, _, _, hj⟩
    exact ⟨j, hj⟩
  · rintro ⟨j, hj⟩
    refine ⟨j, Nat.zero_le _, ?_, hj⟩
    by_contra hlt
    have hn1 : ¬ s1.uses j := fun h => hlt (by have := h.1; simp; omega)
    have hn2 : ¬ s2.uses j := fun h => hlt (by have := h.1; simp; omega)
    cases equality <;> simp [hn1, hn2] at hj

theorem nonzero_digit_bounds {d : Char} (h : '1' ≤ d ∧ d ≤ '9') :
    49 ≤ d.toNat ∧ d.toNat ≤ 57 := by
  obtain ⟨h1, h2⟩ := h
  exact ⟨h1, h2⟩

/-- What the loop that clears the cells up to `number` does, when it is given
no more iterations than it needs. -/
theorem clear_loop_spec (number : Nat) :
    ∀ n (s : spec), n ≤ number + 1 - s.arg_count →
      (clear_loop number n s).directives = s.directives ∧
      (clear_loop number n s).arg_count = s.arg_count + n ∧
      (clear_loop number n s).args_used.length = s.args_used.length ∧
      ∀ i, (clear_loop number n s).args_used[i]? =
        if s.arg_count ≤ i ∧ i < s.arg_count + n ∧ i < s.args_used.length
        then some (some false) else s.args_used[i]? := by
  intro n
  induction n with
  | zero =>
    intro s _
    refine ⟨rfl, rfl, rfl, ?_⟩
    intro i
    rw [if_neg (by omega)]
    rfl
  | succ n ih =>
    intro s hn
    have hle : s.arg_count ≤ number := by omega
    unfold clear_loop
    rw [if_pos hle]
    obtain ⟨h1, h2, h3, h4⟩ := ih
      { s with
        args_used := s.args_used.set s.arg_count (some false)
        arg_count := s.arg_count + 1 } (by simp; omega)
    refine ⟨h1, by rw [h2]; simp; omega, by rw [h3]; simp, ?_⟩
    intro i
    rw [h4 i]
    simp only [List.length_set, List.getElem?_set]
    by_cases hi : s.arg_count = i
    · subst hi
      by_cases hl : s.arg_count < s.args_used.length
      · simp [hl]
      · simp [hl]
        omega
    · by_cases hc : s.arg_count + 1 ≤ i ∧ i < s.arg_count + 1 + n ∧ i < s.args_used.length
      · rw [if_pos hc, if_pos ⟨by omega, by omega, hc.2.2⟩]
      · rw [if_neg hc, if_neg hi, if_neg (by omega)]

/-- The loop that clears the cells stops because its condition is false. -/
theorem clear_loop_exit (number : Nat) (s : spec) :
    ¬ (clear_loop number (number + 1 - s.arg_count) s).arg_count ≤ number := by
  rw [(clear_loop_spec number _ s (le_refl _)).2.1]
  omega

/-- The effect of a directive `%d` on a valid descriptor, with
`number = d - '1'`. -/
theorem reference_step (s : spec) (hv : s.valid) (number : Nat) (hn : number ≤ 8) :
    ({ clear_loop number (number + 1 - s.arg_count) s with
        args_used := (clear_loop number (number + 1 - s.arg_count) s).args_used.set
          number (some true) } : spec).valid ∧
    (∀ i, ({ clear_loop number (number + 1 - s.arg_count) s with
        args_used := (clear_loop number (number + 1 - s.arg_count) s).args_used.set
          number (some true) } : spec).uses i ↔ s.uses i ∨ i = number) := by
  obtain ⟨_, h2, h3, h4⟩ := clear_loop_spec number _ s (le_refl _)
  obtain ⟨v1, v2, v3⟩ := hv
  have key : ∀ i, ((clear_loop number (number + 1 - s.arg_count) s).args_used.set
      number (some true)).getD i none =
      if i = number then some true
      else if s.arg_count ≤ i ∧ i < number then some false
      else s.args_used.getD i none := by
    intro i
    rw [List.getD_eq_getElem?_getD, List.getD_eq_getElem?_getD, List.getElem?_set, h3, h4 i]
    by_cases hi : number = i
    · subst hi
      rw [if_pos rfl, if_pos rfl, if_pos (by omega)]
      rfl
    · rw [if_neg hi, if_neg (Ne.symm hi)]
      by_cases hc : s.arg_count ≤ i ∧ i < number
      · rw [if_pos hc, if_pos ⟨hc.1, by omega, by omega⟩]; rfl
      · rw [if_neg hc, if_neg (by omega)]
  refine ⟨⟨?_, ?_, ?_⟩, ?_⟩
  · show (clear_loop number (number + 1 - s.arg_count) s).arg_count ≤ 9
    rw [h2]; omega
  · show ((clear_loop number (number + 1 - s.arg_count) s).args_used.set
      number (some true)).length = 9
    rw [List.length_set, h3, v2]
  · intro i hi
    change i < (clear_loop number (number + 1 - s.arg_count) s).arg_count at hi
    rw [h2] at hi
    show (((clear_loop number (number + 1 - s.arg_count) s).args_used.set
      number (some true)).getD i none).isSome = true
    rw [key i]
    by_cases h1 : i = number
    · simp [h1]
    · rw [if_neg h1]
      by_cases hc : s.arg_count ≤ i ∧ i < number
      · simp [hc]
      · rw [if_neg hc]
        exact v3 i (by omega)
  · intro i
    show (i < (clear_loop number (number + 1 - s.arg_count) s).arg_count ∧
      ((clear_loop number (number + 1 - s.arg_count) s).args_used.set
        number (some true)).getD i none = some true) ↔ _
    rw [h2, key i]
    unfold spec.uses
    by_cases h1 : i = number
    · simp [h1]; omega
    · rw [if_neg h1]
      by_cases hc : s.arg_count ≤ i ∧ i < number
      · simp [hc, h1]
      · rw [if_neg hc]
        simp only [h1, or_false]
        constructor
        · rintro ⟨ha, hb⟩
          refine ⟨?_, hb⟩
          by_contra hlt
          exact hc ⟨by omega, by omega⟩
        · rintro ⟨ha, hb⟩
          exact ⟨by omega, hb⟩

/-- The loop of `format_parse` keeps a descriptor valid and marks as used
exactly the arguments the string references. -/
theorem format_parse_loop_uses :
    ∀ (format : List Char) (s r : spec), s.valid → format_parse_loop format s = .ok r →
      r.valid ∧ ∀ i, r.uses i ↔ s.uses i ∨ (i + 1) ∈ referenced_arguments format
  | [], s, r, hv, h => by
    simp only [format_parse_loop, Except.ok.injEq] at h
    subst h
    exact ⟨hv, by simp [referenced_arguments]⟩
  | [c], s, r, hv, h => by
    unfold format_parse_loop at h
    by_cases hc : c = '%'
    · simp [hc] at h
    · simp only [hc, if_false, format_parse_loop, Except.ok.injEq] at h
      subst h
      exact ⟨hv, by simp [referenced_arguments, hc]⟩
  | c :: d :: format, s, r, hv, h => by
    unfold format_parse_loop at h
    by_cases hc : c = '%'
    · simp only [hc, if_true] at h
      by_cases hd : d = '%'
      · simp only [hd, if_true] at h
        have ih := format_parse_loop_uses format
          { s with directives := (s.directives + 1) % UINT_MODULUS } r hv h
        refine ⟨ih.1, ?_⟩
        intro i
        rw [ih.2 i]
        simp [referenced_arguments, hc, hd, spec.uses]
      · simp only [hd, if_false] at h
        by_cases hr : '1' ≤ d ∧ d ≤ '9'
        · simp only [hr, and_self, if_true] at h
          have hb := nonzero_digit_bounds hr
          have hs := reference_step
            { s with directives := (s.directives + 1) % UINT_MODULUS } hv
            (d.toNat - '1'.toNat)
            (by have : '1'.toNat = 49 := rfl
                omega)
          have ih := format_parse_loop_uses format _ r hs.1 h
          refine ⟨ih.1, ?_⟩
          intro i
          rw [ih.2 i, hs.2 i]
          have e1 : '1'.toNat = 49 := rfl
          have e0 : '0'.toNat = 48 := rfl
          simp only [referenced_arguments, hc, if_true, hr, and_self, List.mem_cons, e1, e0]
          have : i = d.toNat - 49 ↔ i + 1 = d.toNat - 48 := by omega
          rw [this]
          simp only [spec.uses]
          tauto
        · simp [hr] at h
    · simp only [hc, if_false] at h
      have ih := format_parse_loop_uses (d :: format) s r hv h
      refine ⟨ih.1, ?_⟩
      intro i
      rw [ih.2 i]
      simp [referenced_arguments, hc]

theorem initial_valid :
    ({ directives := 0, arg_count := 0, args_used := List.replicate 9 none } : spec).valid := by
  decide

/-- A descriptor returned by `format_parse` is valid and marks as used exactly
the arguments the string references. -/
theorem format_parse_uses {format : List Char} {translated : Bool} {r : spec}
    (h : format_parse format translated = .ok r) :
    r.valid ∧ ∀ i, r.uses i ↔ (i + 1) ∈ referenced_arguments format := by
  obtain ⟨hv, hu⟩ := format_parse_loop_uses format _ r initial_valid h
  refine ⟨hv, fun i => ?_⟩
  rw [hu i]
  simp [spec.uses]

theorem referenced_arguments_pos :
    ∀ (format : List Char) (k : Nat), k ∈ referenced_arguments format → 1 ≤ k ∧ k ≤ 9
  | [], k, h => by simp [referenced_arguments] at h
  | [c], k, h => by
    unfold referenced_arguments at h
    by_cases hc : c = '%'
    · simp [hc] at h
    · simp [hc, referenced_arguments] at h
  | c :: d :: format, k, h => by
    unfold referenced_arguments at h
    by_cases hc : c = '%'
    · simp only [hc, if_true] at h
      by_cases hr : '1' ≤ d ∧ d ≤ '9'
      · simp only [hr, and_self, if_true, List.mem_cons] at h
        rcases h with h | h
        · have hb := nonzero_digit_bounds hr
          have e0 : '0'.toNat = 48 := rfl
          omega
        · exact referenced_arguments_pos format k h
      · simp only [hr, if_false] at h
        exact referenced_arguments_pos format k h
    · simp only [hc, if_false] at h
      exact referenced_arguments_pos (d :: format) k h

/-- Reading one well-formed piece: the loop goes on behind it with the
descriptor the piece leads to. -/
theorem ycp_parse_loop_token (t : token) (ht : t.well_formed) (rest : List Char)
    (s : spec) :
    format_parse_loop (t.text ++ rest) s = format_parse_loop rest (t.effect s) := by
  cases t with
  | literal c =>
    have hc : c ≠ '%' := ht
    simp [token.text, token.effect, format_parse_loop, hc]
  | percent =>
    simp [token.text, token.effect, format_parse_loop]
  | argument d =>
    have hr : '1' ≤ d ∧ d ≤ '9' := ht
    have hd : d ≠ '%' := by
      intro h; subst h; revert hr; decide
    simp [token.text, token.effect, format_parse_loop, hd, hr]

theorem ycp_parse_loop_concatenation :
    ∀ (ts : List token), (∀ t ∈ ts, t.well_formed) → ∀ (rest : List Char) (s : spec),
      format_parse_loop (concatenation ts ++ rest) s =
        format_parse_loop rest (ts.foldl token.effect s)
  | [], _, rest, s => by simp [concatenation]
  | t :: ts, h, rest, s => by
    have e : concatenation (t :: ts) ++ rest = t.text ++ (concatenation ts ++ rest) := by
      simp [concatenation]
    rw [e, ycp_parse_loop_token t (h t (List.mem_cons_self _ _)),
      ycp_parse_loop_concatenation ts (fun t ht => h t (List.mem_cons_of_mem _ ht))]
    rfl

/-- A string the loop accepts is made of well-formed pieces. -/
theorem ycp_tokens_of_parse_loop :
    ∀ (format : List Char) (s r : spec), format_parse_loop format s = .ok r →
      ∃ ts : List token, (∀ t ∈ ts, t.well_formed) ∧ concatenation ts = format
  | [], _, _, _ => ⟨[], by simp, rfl⟩
  | [c], s, r, h => by
    unfold format_parse_loop at h
    by_cases hc : c = '%'
    · simp [hc] at h
    · exact ⟨[.literal c], by simpa [token.well_formed] using hc, rfl⟩
  | c :: d :: format, s, r, h => by
    unfold format_parse_loop at h
    by_cases hc : c = '%'
    · simp only [hc, if_true] at h
      by_cases hd : d = '%'
      · simp only [hd, if_true] at h
        obtain ⟨ts, hts, hcat⟩ := ycp_tokens_of_parse_loop format _ r h
        refine ⟨.percent :: ts, ?_, ?_⟩
        · intro t ht
          rcases List.mem_cons.mp ht with rfl | ht
          · trivial
          · exact hts t ht
        · simp [concatenation, token.text, hc, hd] at hcat ⊢
          exact hcat
      · simp only [hd, if_false] at h
        by_cases hr : '1' ≤ d ∧ d ≤ '9'
        · simp only [hr, and_self, if_true] at h
          obtain ⟨ts, hts, hcat⟩ := ycp_tokens_of_parse_loop format _ r h
          refine ⟨.argument d :: ts, ?_, ?_⟩
          · intro t ht
            rcases List.mem_cons.mp ht with rfl | ht
            · exact hr
            · exact hts t ht
          · simp [concatenation, token.text, hc] at hcat ⊢
            exact hcat
        · simp [hr] at h
    · simp only [hc, if_false] at h
      obtain ⟨ts, hts, hcat⟩ := ycp_tokens_of_parse_loop (d :: format) s r h
      refine ⟨.literal c :: ts, ?_, ?_⟩
      · intro t ht
        rcases List.mem_cons.mp ht with rfl | ht
        · exact hc
        · exact hts t ht
      · simp [concatenation, token.text] at hcat ⊢
        exact hcat

/-- C1, as stated, fails: with the descriptor of "%1 has %2 items" as the
original and the descriptor of "%1 only" as the translation, argument 2 is used
in the original and not in the translation, yet the at-least check reports no
mismatch; with the two exchanged, argument 2 is used in the translation only
and the check reports a mismatch. -/
theorem ycp_at_least_original_only_counterexample :
    format_parse "%1 has %2 items".toList false =
      .ok ⟨2, 2, [some true, some true, none, none, none, none, none, none, none]⟩ ∧
    format_parse "%1 only".toList true =
      .ok ⟨1, 1, [some true, none, none, none, none, none, none, none, none]⟩ ∧
    (spec.uses ⟨2, 2, [some true, some true, none, none, none, none, none, none, none]⟩ 1 ∧
      ¬ spec.uses ⟨1, 1, [some true, none, none, none, none, none, none, none, none]⟩ 1) ∧
    format_check ⟨"a.po", 1⟩
      ⟨2, 2, [some true, some true, none, none, none, none, none, none, none]⟩
      ⟨1, 1, [some true, none, none, none, none, none, none, none, none]⟩
      false true "msgstr" = some ⟨false, []⟩ ∧
    (format_check ⟨"a.po", 1⟩
      ⟨1, 1, [some true, none, none, none, none, none, none, none, none]⟩
      ⟨2, 2, [some true, some true, none, none, none, none, none, none, none]⟩
      false true "msgstr").map (·.err) = some true := by
  decide

/-- C1, amended: in at-least mode (equality = false) the check of two valid
descriptors returns, and it reports a mismatch exactly when some argument is
used in the translation but not in the original; an argument used only in the
original is not a mismatch. -/
theorem ycp_at_least_mismatch (pos : lex_pos_ty) (original translation : spec)
    (noisy : Bool) (pretty_msgstr : String)
    (h1 : original.valid) (h2 : translation.valid) :
    ∃ r, format_check pos original translation false noisy pretty_msgstr = some r ∧
      (r.err = true ↔ ∃ i, translation.uses i ∧ ¬ original.uses i) := by
  obtain ⟨r, hr, hiff⟩ := format_check_spec pos false noisy pretty_msgstr h1 h2
  refine ⟨r, hr, ?_⟩
  rw [hiff]
  constructor
  · rintro ⟨j, hj⟩
    refine ⟨j, ?_⟩
    simpa [and_comm] using hj
  · rintro ⟨j, hj⟩
    refine ⟨j, ?_⟩
    simpa [and_comm] using hj

theorem ycp_at_least_mismatch_witness :
    spec.valid ⟨1, 1, [some true, none, none, none, none, none, none, none, none]⟩ ∧
    spec.valid ⟨2, 2, [some true, some true, none, none, none, none, none, none, none]⟩ ∧
    ∃ r, format_check ⟨"a.po", 1⟩
        ⟨1, 1, [some true, none, none, none, none, none, none, none, none]⟩
        ⟨2, 2, [some true, some true, none, none, none, none, none, none, none]⟩
        false true "msgstr" = some r ∧
      (r.err = true ↔ ∃ i,
        spec.uses ⟨2, 2, [some true, some true, none, none, none, none, none, none, none]⟩ i ∧
        ¬ spec.uses ⟨1, 1, [some true, none, none, none, none, none, none, none, none]⟩ i) :=
  ⟨by decide, by decide,
    ycp_at_least_mismatch ⟨"a.po", 1⟩ _ _ true "msgstr" (by decide) (by decide)⟩

/-- C2: in at-least mode the check of two valid descriptors passes exactly when
every argument used by the translation is used by the original. With the
original "%1 has %2 items" and the translation "%1 only" the at-least check
passes and the equality check fails; with the two strings exchanged the
at-least check reports a mismatch. -/
theorem ycp_at_least_passes_iff_subset :
    (∀ (pos : lex_pos_ty) (original translation : spec) (noisy : Bool)
        (pretty_msgstr : String), original.valid → translation.valid →
      ∃ r, format_check pos original translation false noisy pretty_msgstr = some r ∧
        (r.err = false ↔ ∀ i, translation.uses i → original.uses i)) ∧
    (∀ (pos : lex_pos_ty) (noisy : Bool) (pretty_msgstr : String),
      ∃ long short, format_parse "%1 has %2 items".toList false = .ok long ∧
        format_parse "%1 only".toList false = .ok short ∧
        (format_check pos long short false noisy pretty_msgstr).map (·.err) = some false ∧
        (format_check pos long short true noisy pretty_msgstr).map (·.err) = some true ∧
        (format_check pos short long false noisy pretty_msgstr).map (·.err) = some true) := by
  constructor
  · intro pos original translation noisy pretty_msgstr h1 h2
    obtain ⟨r, hr, hiff⟩ := format_check_spec pos false noisy pretty_msgstr h1 h2
    refine ⟨r, hr, ?_⟩
    rw [← Bool.not_eq_true, hiff]
    simp only [Bool.false_eq_true, if_false, Bool.and_eq_true, Bool.not_eq_true',
      decide_eq_false_iff_not, decide_eq_true_eq, not_exists, not_and, not_not]
    constructor
    · intro h i hi
      by_contra hn
      exact (h i hn) hi
    · intro h i hn hi
      exact hn (h i hi)
  · intro pos noisy pretty_msgstr
    refine ⟨_, _, rfl, rfl, ?_, ?_, ?_⟩ <;> cases noisy <;> rfl

/-- C3: when the msgid and the msgstr both parse, the equality check of their
descriptors returns, and it passes if and only if the two strings reference the
same set of arguments, whatever the order and the number of the directives. -/
theorem ycp_equality_passes_iff_same_arguments (pos : lex_pos_ty)
    (msgid msgstr : List Char) (t1 t2 : Bool) (s1 s2 : spec) (noisy : Bool)
    (pretty_msgstr : String)
    (h1 : format_parse msgid t1 = .ok s1) (h2 : format_parse msgstr t2 = .ok s2) :
    ∃ r, format_check pos s1 s2 true noisy pretty_msgstr = some r ∧
      (r.err = false ↔
        ∀ k, k ∈ referenced_arguments msgid ↔ k ∈ referenced_arguments msgstr) := by
  obtain ⟨v1, u1⟩ := format_parse_uses h1
  obtain ⟨v2, u2⟩ := format_parse_uses h2
  obtain ⟨r, hr, hiff⟩ := format_check_spec pos true noisy pretty_msgstr v1 v2
  refine ⟨r, hr, ?_⟩
  rw [← Bool.not_eq_true, hiff]
  simp only [if_true, bne_iff_ne, ne_eq, decide_eq_decide, not_exists, not_not]
  constructor
  · intro h k
    rcases Nat.eq_zero_or_pos k with hk | hk
    · subst hk
      constructor
      · intro h0; have := (referenced_arguments_pos _ _ h0).1; omega
      · intro h0; have := (referenced_arguments_pos _ _ h0).1; omega
    · obtain ⟨i, rfl⟩ : ∃ i, k = i + 1 := ⟨k - 1, by omega⟩
      rw [← u1 i, ← u2 i]
      exact h i
  · intro h i
    rw [u1 i, u2 i]
    exact h (i + 1)

theorem ycp_equality_passes_iff_same_arguments_witness :
    format_parse "%1 has %2 items".toList false =
      .ok ⟨2, 2, [some true, some true, none, none, none, none, none, none, none]⟩ ∧
    format_parse "%2 items, %1".toList true =
      .ok ⟨2, 2, [some true, some true, none, none, none, none, none, none, none]⟩ ∧
    ∃ r, format_check ⟨"a.po", 1⟩
        ⟨2, 2, [some true, some true, none, none, none, none, none, none, none]⟩
        ⟨2, 2, [some true, some true, none, none, none, none, none, none, none]⟩
        true true "msgstr" = some r ∧
      (r.err = false ↔
        ∀ k, k ∈ referenced_arguments "%1 has %2 items".toList ↔
          k ∈ referenced_arguments "%2 items, %1".toList) :=
  ⟨by decide, by decide,
    ycp_equality_passes_iff_same_arguments ⟨"a.po", 1⟩ _ _ false true _ _ true "msgstr"
      (by decide) (by decide)⟩

/-- C10: `format_parse` succeeds on a string if and only if the string is made,
from left to right, of characters other than '%', of `%%` and of '%' followed
by a digit from '1' to '9'. When, behind such pieces, a '%' is followed by any
other character ('0' included) the parse fails with the reason naming that
character, and when the string ends behind that '%' it fails with the reason
for an unterminated directive. -/
theorem ycp_parse_succeeds_iff (translated : Bool) :
    (∀ format : List Char, (∃ r, format_parse format translated = .ok r) ↔
      ∃ ts : List token, (∀ t ∈ ts, t.well_formed) ∧ concatenation ts = format) ∧
    (∀ (ts : List token) (c : Char) (rest : List Char), (∀ t ∈ ts, t.well_formed) →
      c ≠ '%' → ¬ ('1' ≤ c ∧ c ≤ '9') →
      ∃ n, format_parse (concatenation ts ++ '%' :: c :: rest) translated =
        .error (.not_a_digit n (if c_isprint c then some c else none))) ∧
    (∀ ts : List token, (∀ t ∈ ts, t.well_formed) →
      format_parse (concatenation ts ++ ['%']) translated =
        .error .unterminated_directive) ∧
    format_parse "%0".toList translated = .error (.not_a_digit 1 (some '0')) := by
  refine ⟨?_, ?_, ?_, rfl⟩
  · intro format
    constructor
    · rintro ⟨r, hr⟩
      exact ycp_tokens_of_parse_loop format _ r hr
    · rintro ⟨ts, hts, rfl⟩
      have := ycp_parse_loop_concatenation ts hts []
        { directives := 0, arg_count := 0, args_used := List.replicate 9 none }
      rw [List.append_nil] at this
      exact ⟨_, this⟩
  · intro ts c rest hts hc hr
    refine ⟨((ts.foldl token.effect
      { directives := 0, arg_count := 0, args_used := List.replicate 9 none }).directives + 1)
        % UINT_MODULUS, ?_⟩
    unfold format_parse
    rw [ycp_parse_loop_concatenation ts hts]
    simp only [format_parse_loop, if_true, hc, if_false, hr]
  · intro ts hts
    unfold format_parse
    rw [ycp_parse_loop_concatenation ts hts]
    simp only [format_parse_loop, if_true]

end FormatYcp

/-! ## Properties of the numbered-brace validator -/

namespace FormatCsharp

theorem dropWhile_append_of_all (p : Char → Bool) :
    ∀ (ds rest : List Char), (∀ c ∈ ds, p c = true) → at_head p rest = false →
      (ds ++ rest).dropWhile p = rest
  | [], [], _, _ => rfl
  | [], c :: rest, _, h => by
    have hc : p c = false := h
    simp [List.dropWhile_cons, hc]
  | d :: ds, rest, hds, h => by
    have hd : p d = true := hds d (List.mem_cons_self _ _)
    simp only [List.cons_append, List.dropWhile_cons, hd, if_true]
    exact dropWhile_append_of_all p ds rest (fun c hc => hds c (List.mem_cons_of_mem _ hc)) h

theorem dropWhile_decompose (p : Char → Bool) (l : List Char) :
    ∃ ds, (∀ c ∈ ds, p c = true) ∧ l = ds ++ l.dropWhile p ∧
      at_head p (l.dropWhile p) = false := by
  refine ⟨l.takeWhile p, fun c hc => (List.mem_takeWhile_imp hc),
    (List.takeWhile_append_dropWhile p l).symm, ?_⟩
  induction l with
  | nil => rfl
  | cons c l ih =>
    by_cases hc : p c = true
    · simpa [List.dropWhile_cons, hc] using ih
    · simp only [List.dropWhile_cons, hc, if_false]
      simpa [at_head] using hc

theorem number_while_append :
    ∀ (ds : List Char) (number : Nat) (rest : List Char), (∀ c ∈ ds, c_isdigit c = true) →
      at_head c_isdigit rest = false →
      number_while number (ds ++ rest) = (wrapped_value number ds, rest)
  | [], number, [], _, _ => rfl
  | [], number, c :: rest, _, h => by
    have hc : c_isdigit c = false := h
    simp [number_while, hc, wrapped_value]
  | d :: ds, number, rest, hds, h => by
    have hd : c_isdigit d = true := hds d (List.mem_cons_self _ _)
    simp only [List.cons_append, number_while, hd, if_true, List.append_eq]
    rw [number_while_append ds _ rest (fun c hc => hds c (List.mem_cons_of_mem _ hc)) h]
    rfl

theorem number_while_decompose :
    ∀ (l : List Char) (number : Nat), ∃ ds, (∀ c ∈ ds, c_isdigit c = true) ∧
      l = ds ++ (number_while number l).2 ∧
      at_head c_isdigit (number_while number l).2 = false
  | [], number => ⟨[], by simp, rfl, rfl⟩
  | c :: l, number => by
    by_cases hc : c_isdigit c = true
    · obtain ⟨ds, h1, h2, h3⟩ := number_while_decompose l
        ((10 * number + (c.toNat - '0'.toNat)) % UINT_MODULUS)
      refine ⟨c :: ds, ?_, ?_, ?_⟩
      · intro x hx
        rcases List.mem_cons.mp hx with rfl | hx
        · exact hc
        · exact h1 x hx
      · simp only [number_while, hc, if_true, List.cons_append]
        rw [← h2]
      · simpa only [number_while, hc, if_true] using h3
    · refine ⟨[], by simp, ?_, ?_⟩
      · simp [number_while, hc]
      · simp only [number_while, hc]
        simpa [at_head] using hc

theorem parse_width_text (directives : Nat) (width : Option (Bool × List Char))
    (rest : List Char) (hw : ∀ w ∈ width, w.2 ≠ [] ∧ ∀ c ∈ w.2, c_isdigit c = true)
    (h1 : at_head c_isdigit rest = false) (h2 : at_head (· == ',') rest = false) :
    parse_width directives (width_text width ++ rest) = .ok rest := by
  cases width with
  | none =>
    simp [parse_width, width_text, h2]
  | some w =>
    obtain ⟨minus, digits⟩ := w
    obtain ⟨hne, hds⟩ := hw (minus, digits) rfl
    cases digits with
    | nil => exact absurd rfl hne
    | cons d ds =>
      have hd : c_isdigit d = true := hds d (List.mem_cons_self _ _)
      have hds2 : ∀ c ∈ ds, c_isdigit c = true := fun c hc => hds c (List.mem_cons_of_mem _ hc)
      have hdm : (d == '-') = false := by
        rw [beq_eq_false_iff_ne]
        intro h; subst h; revert hd; decide
      cases minus
      · simp [parse_width, width_text, at_head, hd, hdm, do_skip_while,
          dropWhile_append_of_all c_isdigit ds rest hds2 h1]
      · simp [parse_width, width_text, at_head, hd, do_skip_while,
          dropWhile_append_of_all c_isdigit ds rest hds2 h1]

theorem parse_specifiers_text (specifiers : Option (List Char)) (rest : List Char)
    (hf : ∀ run ∈ specifiers, '}' ∉ run) :
    parse_specifiers (specifiers_text specifiers ++ '}' :: rest) = '}' :: rest := by
  cases specifiers with
  | none =>
    simp [parse_specifiers, specifiers_text, at_head]
  | some run =>
    have hrun : ∀ c ∈ run, (c != '}') = true := by
      intro c hc
      rw [bne_iff_ne]
      intro h; subst h
      exact hf run rfl hc
    have := dropWhile_append_of_all (· != '}') run ('}' :: rest) hrun (by simp [at_head])
    simp [parse_specifiers, specifiers_text, at_head, do_skip_while, this]

theorem at_head_width_specifiers (p : Char → Bool) (hc : p ',' = false) (hs : p ':' = false)
    (hb : p '}' = false) (width : Option (Bool × List Char))
    (specifiers : Option (List Char)) (rest : List Char) :
    at_head p (width_text width ++ (specifiers_text specifiers ++ '}' :: rest)) = false := by
  cases width with
  | some w => simpa [width_text, at_head] using hc
  | none =>
    cases specifiers with
    | some run => simpa [width_text, specifiers_text, at_head] using hs
    | none => simpa [width_text, specifiers_text, at_head] using hb

/-- Reading a well-formed directive behind its '{': the block returns the
descriptor the directive leads to and the position behind its '}'. -/
theorem parse_directive_text (s : spec) (index : List Char)
    (width : Option (Bool × List Char)) (specifiers : Option (List Char))
    (rest : List Char) (h : (token.directive index width specifiers).well_formed) :
    parse_directive s (index ++ (width_text width ++ (specifiers_text specifiers ++ '}' :: rest)))
      = .ok (token.effect s (.directive index width specifiers), rest) := by
  obtain ⟨⟨hne, hds⟩, hw, hf⟩ := h
  cases index with
  | nil => exact absurd rfl hne
  | cons d ds =>
    have hd : c_isdigit d = true := hds d (List.mem_cons_self _ _)
    have hds2 : ∀ c ∈ ds, c_isdigit c = true := fun c hc => hds c (List.mem_cons_of_mem _ hc)
    have hnum := number_while_append ds ((10 * 0 + (d.toNat - '0'.toNat)) % UINT_MODULUS)
      (width_text width ++ (specifiers_text specifiers ++ '}' :: rest)) hds2
      (at_head_width_specifiers c_isdigit (by decide) (by decide) (by decide) _ _ _)
    have hwidth := parse_width_text ((s.directives + 1) % UINT_MODULUS) width
      (specifiers_text specifiers ++ '}' :: rest) hw
      (by cases specifiers <;> simp [specifiers_text, at_head] <;> decide)
      (by cases specifiers <;> simp [specifiers_text, at_head])
    have hspec := parse_specifiers_text specifiers rest hf
    simp only [parse_directive, List.cons_append, at_head, hd, Bool.not_true,
      Bool.false_eq_true, if_false, number_do_while, hnum, hwidth, hspec, ne_eq,
      not_true_eq_false, token.effect]
    rfl

theorem at_head_true {p : Char → Bool} {l : List Char} (h : at_head p l = true) :
    ∃ c l', l = c :: l' ∧ p c = true := by
  cases l with
  | nil => simp [at_head] at h
  | cons c l' => exact ⟨c, l', rfl, h⟩

theorem parse_width_ok {directives : Nat} {format rest : List Char}
    (h : parse_width directives format = .ok rest) :
    ∃ width : Option (Bool × List Char),
      (∀ w ∈ width, w.2 ≠ [] ∧ ∀ c ∈ w.2, c_isdigit c = true) ∧
      format = width_text width ++ rest := by
  unfold parse_width at h
  by_cases hc : at_head (· == ',') format = true
  · obtain ⟨c, l, rfl, hcc⟩ := at_head_true hc
    have hcc : c = ',' := by simpa using hcc
    subst hcc
    simp only [hc, if_true, List.drop_succ_cons, List.drop_zero] at h
    by_cases hm : at_head (· == '-') l = true
    · obtain ⟨m, l2, rfl, hmm⟩ := at_head_true hm
      have hmm : m = '-' := by simpa using hmm
      subst hmm
      simp only [hm, if_true, List.drop_succ_cons, List.drop_zero] at h
      by_cases hd : at_head c_isdigit l2 = true
      · obtain ⟨e, l3, rfl, he⟩ := at_head_true hd
        simp only [hd, Bool.not_true, Bool.false_eq_true, if_false, do_skip_while,
          List.drop_succ_cons, List.drop_zero, Except.ok.injEq] at h
        obtain ⟨es, hes, hl3, _⟩ := dropWhile_decompose c_isdigit l3
        refine ⟨some (true, e :: es), ?_, ?_⟩
        · intro w hw
          cases hw
          refine ⟨by simp, ?_⟩
          intro x hx
          rcases List.mem_cons.mp hx with rfl | hx
          · exact he
          · exact hes x hx
        · rw [h] at hl3
          simp [width_text, ← hl3]
      · simp [hd] at h
    · simp only [hm, if_false] at h
      by_cases hd : at_head c_isdigit l = true
      · obtain ⟨e, l3, rfl, he⟩ := at_head_true hd
        simp only [hd, Bool.not_true, Bool.false_eq_true, if_false, do_skip_while,
          List.drop_succ_cons, List.drop_zero, Except.ok.injEq] at h
        obtain ⟨es, hes, hl3, _⟩ := dropWhile_decompose c_isdigit l3
        refine ⟨some (false, e :: es), ?_, ?_⟩
        · intro w hw
          cases hw
          refine ⟨by simp, ?_⟩
          intro x hx
          rcases List.mem_cons.mp hx with rfl | hx
          · exact he
          · exact hes x hx
        · rw [h] at hl3
          simp [width_text, ← hl3]
      · simp [hd] at h
  · simp only [hc, Bool.false_eq_true, if_false, Except.ok.injEq] at h
    exact ⟨none, by simp, by simp [width_text, h]⟩

theorem parse_specifiers_close {format rest : List Char}
    (h : parse_specifiers format = '}' :: rest) :
    ∃ specifiers : Option (List Char), (∀ run ∈ specifiers, '}' ∉ run) ∧
      format = specifiers_text specifiers ++ '}' :: rest := by
  unfold parse_specifiers at h
  by_cases hc : at_head (· == ':') format = true
  · obtain ⟨c, l, rfl, hcc⟩ := at_head_true hc
    have hcc : c = ':' := by simpa using hcc
    subst hcc
    simp only [hc, if_true, do_skip_while, List.drop_succ_cons, List.drop_zero] at h
    obtain ⟨run, hrun, hl, _⟩ := dropWhile_decompose (· != '}') l
    refine ⟨some run, ?_, ?_⟩
    · intro r hr
      cases hr
      intro hmem
      have := hrun _ hmem
      simp at this
    · rw [h] at hl
      simp [specifiers_text, ← hl]
  · simp only [hc, Bool.false_eq_true, if_false] at h
    exact ⟨none, by simp, by simp [specifiers_text, h]⟩

/-- What the block "A directive." has read when it succeeds: a well-formed
directive, up to the position it returns. -/
theorem parse_directive_ok {s s' : spec} {format rest : List Char}
    (h : parse_directive s format = .ok (s', rest)) :
    ∃ index width specifiers, (token.directive index width specifiers).well_formed ∧
      format = index ++ (width_text width ++ (specifiers_text specifiers ++ '}' :: rest)) := by
  unfold parse_directive at h
  by_cases hd : at_head c_isdigit format = true
  · obtain ⟨d, l, rfl, hdd⟩ := at_head_true hd
    simp only [hd, Bool.not_true, Bool.false_eq_true, if_false, number_do_while] at h
    obtain ⟨ds, hds, hl, _⟩ := number_while_decompose l
      ((10 * 0 + (d.toNat - '0'.toNat)) % UINT_MODULUS)
    generalize number_while ((10 * 0 + (d.toNat - '0'.toNat)) % UINT_MODULUS) l = nw at h hl
    obtain ⟨number, y⟩ := nw
    simp only at h hl
    cases hw : parse_width ((s.directives + 1) % UINT_MODULUS) y with
    | error e => rw [hw] at h; simp at h
    | ok z =>
      rw [hw] at h
      simp only at h
      obtain ⟨width, hwidth, hy⟩ := parse_width_ok hw
      cases hz : parse_specifiers z with
      | nil => rw [hz] at h; simp at h
      | cons c x =>
        rw [hz] at h
        simp only at h
        by_cases hc : c = '}'
        · subst hc
          simp only [ne_eq, not_true_eq_false, if_false, Except.ok.injEq, Prod.mk.injEq] at h
          obtain ⟨_, hx⟩ := h
          subst hx
          obtain ⟨specifiers, hspec, hzz⟩ := parse_specifiers_close hz
          refine ⟨d :: ds, width, specifiers, ⟨⟨by simp, ?_⟩, hwidth, hspec⟩, ?_⟩
          · intro x hx
            rcases List.mem_cons.mp hx with rfl | hx
            · exact hdd
            · exact hds x hx
          · rw [hl, hy, hzz]
            simp
        · simp [hc] at h
  · simp [hd] at h

theorem parse_directive_length {s s' : spec} {format rest : List Char}
    (h : parse_directive s format = .ok (s', rest)) : rest.length < format.length := by
  obtain ⟨index, width, specifiers, _, rfl⟩ := parse_directive_ok h
  simp only [List.length_append, List.length_cons]
  omega

/-- The bound on the iterations does not matter once it exceeds the length of
the string. -/
theorem format_parse_loop_fuel :
    ∀ (fuel1 fuel2 : Nat) (format : List Char) (s : spec),
      format.length < fuel1 → format.length < fuel2 →
      format_parse_loop fuel1 format s = format_parse_loop fuel2 format s := by
  intro fuel1
  induction fuel1 with
  | zero => intro fuel2 format s h1; omega
  | succ f1 ih =>
    intro fuel2 format s h1 h2
    cases fuel2 with
    | zero => omega
    | succ f2 =>
      cases format with
      | nil => rfl
      | cons c l =>
        simp only [List.length_cons] at h1 h2
        unfold format_parse_loop
        by_cases hc : c = '{'
        · simp only [hc, if_true]
          by_cases hh : at_head (· == '{') l = true
          · simp only [hh, if_true]
            exact ih f2 _ s (by rw [List.length_drop]; omega) (by rw [List.length_drop]; omega)
          · simp only [hh, Bool.false_eq_true, if_false]
            cases hp : parse_directive s l with
            | error e => rfl
            | ok p =>
              obtain ⟨s', x⟩ := p
              have := parse_directive_length hp
              exact ih f2 x s' (by omega) (by omega)
        · simp only [hc, if_false]
          by_cases hb : c = '}'
          · simp only [hb, if_true]
            by_cases hh : at_head (· == '}') l = true
            · simp only [hh, if_true]
              exact ih f2 _ s (by rw [List.length_drop]; omega) (by rw [List.length_drop]; omega)
            · simp only [hh, Bool.false_eq_true, if_false]
          · simp only [hb, if_false]
            exact ih f2 l s (by omega) (by omega)

/-- The loop of `format_parse` returns when its bound exceeds the length of
the string. -/
theorem format_parse_loop_total :
    ∀ (fuel : Nat) (format : List Char) (s : spec), format.length < fuel →
      ∃ r, format_parse_loop fuel format s = some r := by
  intro fuel
  induction fuel with
  | zero => intro format s h; omega
  | succ f ih =>
    intro format s h
    cases format with
    | nil => exact ⟨_, rfl⟩
    | cons c l =>
      simp only [List.length_cons] at h
      unfold format_parse_loop
      by_cases hc : c = '{'
      · simp only [hc, if_true]
        by_cases hh : at_head (· == '{') l = true
        · simp only [hh, if_true]
          exact ih _ s (by rw [List.length_drop]; omega)
        · simp only [hh, Bool.false_eq_true, if_false]
          cases hp : parse_directive s l with
          | error e => exact ⟨_, rfl⟩
          | ok p =>
            obtain ⟨s', x⟩ := p
            have := parse_directive_length hp
            exact ih x s' (by omega)
      · simp only [hc, if_false]
        by_cases hb : c = '}'
        · simp only [hb, if_true]
          by_cases hh : at_head (· == '}') l = true
          · simp only [hh, if_true]
            exact ih _ s (by rw [List.length_drop]; omega)
          · simp only [hh, Bool.false_eq_true, if_false]
            exact ⟨_, rfl⟩
        · simp only [hb, if_false]
          exact ih l s (by omega)

/-- Reading one well-formed piece: the loop goes on behind it with the
descriptor the piece leads to. -/
theorem format_parse_loop_token (t : token) (ht : t.well_formed) (rest : List Char)
    (s : spec) (fuel : Nat) (h : (t.text ++ rest).length < fuel) :
    format_parse_loop fuel (t.text ++ rest) s = format_parse_loop fuel rest (t.effect s) := by
  cases fuel with
  | zero => omega
  | succ f =>
    cases t with
    | literal c =>
      obtain ⟨h1, h2⟩ := ht
      simp only [token.text, List.singleton_append, List.length_cons] at h ⊢
      simp only [format_parse_loop, h1, h2, if_false, token.effect]
      exact format_parse_loop_fuel _ _ _ _ (by omega) (by omega)
    | open_brace =>
      simp only [token.text, List.cons_append, List.nil_append, List.length_cons] at h ⊢
      simp only [format_parse_loop, if_true, at_head, beq_self_eq_true, List.drop_succ_cons,
        List.drop_zero, token.effect]
      exact format_parse_loop_fuel _ _ _ _ (by omega) (by omega)
    | close_brace =>
      simp only [token.text, List.cons_append, List.nil_append, List.length_cons] at h ⊢
      have e : ('}' = '{') = False := by decide
      simp only [format_parse_loop, if_true, at_head, beq_self_eq_true, List.drop_succ_cons,
        List.drop_zero, token.effect, e, if_false]
      exact format_parse_loop_fuel _ _ _ _ (by omega) (by omega)
    | directive index width specifiers =>
      have hp := parse_directive_text s index width specifiers rest ht
      have hlen := parse_directive_length hp
      obtain ⟨⟨hne, hds⟩, _, _⟩ := ht
      have hhead : at_head (· == '{')
          (index ++ (width_text width ++ (specifiers_text specifiers ++ '}' :: rest))) = false := by
        cases index with
        | nil => exact absurd rfl hne
        | cons d ds =>
          have hd : c_isdigit d = true := hds d (List.mem_cons_self _ _)
          simp only [List.cons_append, at_head, beq_eq_false_iff_ne]
          intro h; subst h; revert hd; decide
      have e : token.text (.directive index width specifiers) ++ rest =
          '{' :: (index ++ (width_text width ++ (specifiers_text specifiers ++ '}' :: rest))) := by
        simp [token.text]
      rw [e] at h ⊢
      simp only [List.length_cons] at h
      simp only [format_parse_loop, if_true, hhead, Bool.false_eq_true, if_false, hp]
      exact format_parse_loop_fuel _ _ _ _ (by omega) (by omega)

theorem format_parse_loop_concatenation :
    ∀ (ts : List token), (∀ t ∈ ts, t.well_formed) → ∀ (rest : List Char) (s : spec)
      (fuel : Nat), (concatenation ts ++ rest).length < fuel →
      format_parse_loop fuel (concatenation ts ++ rest) s =
        format_parse_loop fuel rest (ts.foldl token.effect s)
  | [], _, rest, s, fuel, _ => by simp [concatenation]
  | t :: ts, h, rest, s, fuel, hl => by
    have e : concatenation (t :: ts) ++ rest = t.text ++ (concatenation ts ++ rest) := by
      simp [concatenation]
    rw [e] at hl ⊢
    rw [format_parse_loop_token t (h t (List.mem_cons_self _ _)) _ _ _ hl,
      format_parse_loop_concatenation ts (fun t ht => h t (List.mem_cons_of_mem _ ht)) rest _ fuel
        (by rw [List.length_append] at hl; omega)]
    rfl

/-- A string made of well-formed pieces is accepted, with the descriptor the
pieces lead to. -/
theorem format_parse_concatenation (ts : List token) (h : ∀ t ∈ ts, t.well_formed)
    (translated : Bool) :
    format_parse (concatenation ts) translated =
      some (.ok (ts.foldl token.effect { directives := 0, numbered_arg_count := 0 })) := by
  have := format_parse_loop_concatenation ts h [] { directives := 0, numbered_arg_count := 0 }
    ((concatenation ts).length + 1) (by simp)
  rw [List.append_nil] at this
  unfold format_parse
  rw [this]
  rfl

/-- A string the loop accepts is made of well-formed pieces. -/
theorem tokens_of_format_parse_loop :
    ∀ (fuel : Nat) (format : List Char) (s r : spec), format.length < fuel →
      format_parse_loop fuel format s = some (.ok r) →
      ∃ ts : List token, (∀ t ∈ ts, t.well_formed) ∧ concatenation ts = format := by
  intro fuel
  induction fuel with
  | zero => intro format s r h; omega
  | succ f ih =>
    intro format s r hl h
    cases format with
    | nil => exact ⟨[], by simp, rfl⟩
    | cons c l =>
      simp only [List.length_cons] at hl
      unfold format_parse_loop at h
      have cons_case : ∀ (t : token) (x : List Char) (s' : spec), t.well_formed →
          t.text ++ x = c :: l → x.length < f → format_parse_loop f x s' = some (.ok r) →
          ∃ ts : List token, (∀ t ∈ ts, t.well_formed) ∧ concatenation ts = c :: l := by
        intro t x s' ht hx hxl hr
        obtain ⟨ts, hts, hcat⟩ := ih x s' r hxl hr
        refine ⟨t :: ts, ?_, ?_⟩
        · intro t' ht'
          rcases List.mem_cons.mp ht' with rfl | ht'
          · exact ht
          · exact hts t' ht'
        · rw [← hx, ← hcat]
          simp [concatenation]
      by_cases hc : c = '{'
      · simp only [hc, if_true] at h
        subst hc
        by_cases hh : at_head (· == '{') l = true
        · simp only [hh, if_true] at h
          obtain ⟨c2, l2, rfl, hc2⟩ := at_head_true hh
          have hc2 : c2 = '{' := by simpa using hc2
          subst hc2
          exact cons_case .open_brace l2 s trivial rfl (by simp at hl; omega) h
        · simp only [hh, Bool.false_eq_true, if_false] at h
          cases hp : parse_directive s l with
          | error e => rw [hp] at h; simp at h
          | ok p =>
            obtain ⟨s', x⟩ := p
            rw [hp] at h
            simp only at h
            have hlen := parse_directive_length hp
            obtain ⟨index, width, specifiers, hwf, rfl⟩ := parse_directive_ok hp
            exact cons_case (.directive index width specifiers) x s' hwf
              (by simp [token.text]) (by omega) h
      · simp only [hc, if_false] at h
        by_cases hb : c = '}'
        · simp only [hb, if_true] at h
          subst hb
          by_cases hh : at_head (· == '}') l = true
          · simp only [hh, if_true] at h
            obtain ⟨c2, l2, rfl, hc2⟩ := at_head_true hh
            have hc2 : c2 = '}' := by simpa using hc2
            subst hc2
            exact cons_case .close_brace l2 s trivial rfl (by simp at hl; omega) h
          · simp [hh] at h
        · simp only [hb, if_false] at h
          exact cons_case (.literal c) l s ⟨hc, hb⟩ rfl (by omega) h

theorem foldl_effect_directives :
    ∀ (ts : List token) (s : spec), s.directives < UINT_MODULUS →
      (ts.foldl token.effect s).directives =
        (s.directives + ts.countP token.is_directive) % UINT_MODULUS
  | [], s, h => by simp [Nat.mod_eq_of_lt h]
  | t :: ts, s, h => by
    have hpos : 0 < UINT_MODULUS := by decide
    rw [List.foldl_cons, List.countP_cons]
    cases t with
    | directive index width specifiers =>
      rw [foldl_effect_directives ts _ (Nat.mod_lt _ hpos)]
      simp only [token.effect, token.is_directive, if_true]
      rw [Nat.add_mod, Nat.mod_mod, ← Nat.add_mod]
      congr 1
      omega
    | literal c =>
      have e : token.effect s (.literal c) = s := rfl
      rw [e, foldl_effect_directives ts _ h]
      simp [token.is_directive]
    | open_brace =>
      have e : token.effect s .open_brace = s := rfl
      rw [e, foldl_effect_directives ts _ h]
      simp [token.is_directive]
    | close_brace =>
      have e : token.effect s .close_brace = s := rfl
      rw [e, foldl_effect_directives ts _ h]
      simp [token.is_directive]

theorem foldl_step_congr (m : Nat) :
    ∀ (ds : List Char) (a b : Nat), a % m = b % m →
      (ds.foldl (fun n c => 10 * n + (c.toNat - '0'.toNat)) a) % m =
        (ds.foldl (fun n c => 10 * n + (c.toNat - '0'.toNat)) b) % m
  | [], _, _, h => h
  | d :: ds, a, b, h => by
    rw [List.foldl_cons, List.foldl_cons]
    apply foldl_step_congr m ds
    rw [Nat.add_mod, Nat.mul_mod, h, ← Nat.mul_mod, ← Nat.add_mod]

theorem wrapped_value_mod :
    ∀ (ds : List Char) (n : Nat),
      wrapped_value n ds % UINT_MODULUS =
        (ds.foldl (fun n c => 10 * n + (c.toNat - '0'.toNat)) n) % UINT_MODULUS
  | [], _ => rfl
  | d :: ds, n => by
    unfold wrapped_value
    rw [List.foldl_cons, List.foldl_cons]
    have := wrapped_value_mod ds ((10 * n + (d.toNat - '0'.toNat)) % UINT_MODULUS)
    unfold wrapped_value at this
    rw [this]
    exact foldl_step_congr _ ds _ _ (Nat.mod_mod _ _)

theorem wrapped_value_lt :
    ∀ (ds : List Char) (n : Nat), n < UINT_MODULUS → wrapped_value n ds < UINT_MODULUS
  | [], _, h => h
  | d :: ds, n, _ => by
    unfold wrapped_value
    rw [List.foldl_cons]
    exact wrapped_value_lt ds _ (Nat.mod_lt _ (by decide))

/-- The value the code reads from an argument index is the number the digits
denote, reduced modulo `UINT_MODULUS`. -/
theorem wrapped_value_eq (ds : List Char) :
    wrapped_value 0 ds = decimal_value ds % UINT_MODULUS := by
  rw [← Nat.mod_eq_of_lt (wrapped_value_lt ds 0 (by decide)), wrapped_value_mod]
  rfl

theorem foldl_effect_numbered_arg_count :
    ∀ (ts : List token) (s : spec),
      (∀ index ∈ argument_indices ts, index + 1 < UINT_MODULUS) →
      (ts.foldl token.effect s).numbered_arg_count =
        max s.numbered_arg_count (highest_index_succ (argument_indices ts))
  | [], s, _ => by simp [argument_indices, highest_index_succ]
  | t :: ts, s, h => by
    rw [List.foldl_cons]
    cases t with
    | directive index width specifiers =>
      have hi : decimal_value index + 1 < UINT_MODULUS :=
        h _ (by simp [argument_indices])
      rw [foldl_effect_numbered_arg_count ts _
        (fun i hi => h i (by simp [argument_indices, hi]))]
      simp only [token.effect, argument_indices, highest_index_succ, wrapped_value_eq]
      rw [Nat.mod_eq_of_lt (by omega : decimal_value index < UINT_MODULUS),
        Nat.mod_eq_of_lt hi]
      by_cases hle : s.numbered_arg_count ≤ decimal_value index
      · rw [if_pos hle]; omega
      · rw [if_neg hle]; omega
    | literal c =>
      have e : token.effect s (.literal c) = s := rfl
      rw [e, foldl_effect_numbered_arg_count ts _
        (fun i hi => h i (by simpa [argument_indices] using hi))]
      simp [argument_indices]
    | open_brace =>
      have e : token.effect s .open_brace = s := rfl
      rw [e, foldl_effect_numbered_arg_count ts _
        (fun i hi => h i (by simpa [argument_indices] using hi))]
      simp [argument_indices]
    | close_brace =>
      have e : token.effect s .close_brace = s := rfl
      rw [e, foldl_effect_numbered_arg_count ts _
        (fun i hi => h i (by simpa [argument_indices] using hi))]
      simp [argument_indices]

theorem highest_index_succ_eq_zero (indices : List Nat) :
    highest_index_succ indices = 0 ↔ indices = [] := by
  cases indices with
  | nil => simp [highest_index_succ]
  | cons i l => simp [highest_index_succ]

theorem argument_indices_eq_nil :
    ∀ ts : List token, argument_indices ts = [] ↔ ts.countP token.is_directive = 0
  | [] => by simp [argument_indices]
  | t :: ts => by
    have ih := argument_indices_eq_nil ts
    cases t <;> simp [argument_indices, List.countP_cons, token.is_directive, ih]

theorem at_head_index (p : Char → Bool) (hp : ∀ c, c_isdigit c = true → p c = false)
    (index rest : List Char) (h : index ≠ [] ∧ ∀ c ∈ index, c_isdigit c = true) :
    at_head p (index ++ rest) = false := by
  obtain ⟨hne, hds⟩ := h
  cases index with
  | nil => exact absurd rfl hne
  | cons d ds => exact hp d (hds d (List.mem_cons_self _ _))

theorem parse_directive_index (s : spec) (index rest : List Char)
    (h : index ≠ [] ∧ ∀ c ∈ index, c_isdigit c = true)
    (hrest : at_head c_isdigit rest = false) :
    parse_directive s (index ++ rest) =
      match parse_width ((s.directives + 1) % UINT_MODULUS) rest with
      | .error reason => .error reason
      | .ok format =>
        match parse_specifiers format with
        | [] => .error .unterminated
        | c :: format =>
          if c ≠ '}' then
            .error (.invalid_terminator ((s.directives + 1) % UINT_MODULUS)
              (if c_isprint c then some c else none))
          else
            .ok ({ directives := (s.directives + 1) % UINT_MODULUS
                   numbered_arg_count :=
                     if s.numbered_arg_count ≤ wrapped_value 0 index
                     then (wrapped_value 0 index + 1) % UINT_MODULUS
                     else s.numbered_arg_count }, format) := by
  obtain ⟨hne, hds⟩ := h
  cases index with
  | nil => exact absurd rfl hne
  | cons d ds =>
    have hd : c_isdigit d = true := hds d (List.mem_cons_self _ _)
    have hnum := number_while_append ds ((10 * 0 + (d.toNat - '0'.toNat)) % UINT_MODULUS)
      rest (fun c hc => hds c (List.mem_cons_of_mem _ hc)) hrest
    simp only [parse_directive, List.cons_append, at_head, hd, Bool.not_true,
      Bool.false_eq_true, if_false, number_do_while, hnum]
    rfl

/-- The string ends behind the argument index or behind the width. -/
theorem parse_directive_ends_behind_width (s : spec) (index : List Char)
    (width : Option (Bool × List Char))
    (h : index ≠ [] ∧ ∀ c ∈ index, c_isdigit c = true)
    (hw : ∀ w ∈ width, w.2 ≠ [] ∧ ∀ c ∈ w.2, c_isdigit c = true) :
    parse_directive s (index ++ width_text width) = .error .unterminated := by
  have hwidth := parse_width_text ((s.directives + 1) % UINT_MODULUS) width [] hw rfl rfl
  rw [List.append_nil] at hwidth
  have hhead : at_head c_isdigit (width_text width) = false := by
    cases width with
    | none => rfl
    | some w => simp [width_text, at_head]; decide
  rw [parse_directive_index s index _ h hhead, hwidth]
  rfl

/-- The string ends in the format specifiers. -/
theorem parse_directive_ends_in_specifiers (s : spec) (index : List Char)
    (width : Option (Bool × List Char)) (run : List Char)
    (h : index ≠ [] ∧ ∀ c ∈ index, c_isdigit c = true)
    (hw : ∀ w ∈ width, w.2 ≠ [] ∧ ∀ c ∈ w.2, c_isdigit c = true) (hrun : '}' ∉ run) :
    parse_directive s (index ++ (width_text width ++ ':' :: run)) = .error .unterminated := by
  have hwidth := parse_width_text ((s.directives + 1) % UINT_MODULUS) width (':' :: run) hw
    (by simp [at_head]; decide) (by simp [at_head])
  have hall : ∀ c ∈ run, (c != '}') = true := by
    intro c hc
    rw [bne_iff_ne]
    intro h; subst h
    exact hrun hc
  have hdrop := dropWhile_append_of_all (· != '}') run [] hall rfl
  rw [List.append_nil] at hdrop
  have hhead : at_head c_isdigit (width_text width ++ ':' :: run) = false := by
    cases width with
    | none => simp [width_text, at_head]; decide
    | some w => simp [width_text, at_head]; decide
  rw [parse_directive_index s index _ h hhead, hwidth]
  simp [parse_specifiers, at_head, do_skip_while, hdrop]

/-- The string ends behind the ',' of the width or behind its '-'. -/
theorem parse_directive_ends_behind_comma (s : spec) (index : List Char) (minus : Bool)
    (h : index ≠ [] ∧ ∀ c ∈ index, c_isdigit c = true) :
    parse_directive s (index ++ ',' :: (if minus then ['-'] else [])) =
      .error (.no_width_number ((s.directives + 1) % UINT_MODULUS)) := by
  rw [parse_directive_index s index _ h (by simp [at_head]; decide)]
  cases minus <;> simp [parse_width, at_head]

/-- Behind well-formed pieces, a '{' that opens a directive the block rejects
makes `format_parse` fail with the reason of the block. -/
theorem format_parse_directive_error (translated : Bool) (ts : List token)
    (hts : ∀ t ∈ ts, t.well_formed) (x : List Char) (reason : invalid_reason)
    (hx : at_head (· == '{') x = false)
    (hp : parse_directive (ts.foldl token.effect { directives := 0, numbered_arg_count := 0 }) x
      = .error reason) :
    format_parse (concatenation ts ++ '{' :: x) translated = some (.error reason) := by
  unfold format_parse
  rw [format_parse_loop_concatenation ts hts _ _ _ (Nat.lt_succ_self _)]
  simp only [format_parse_loop, if_true, hx, Bool.false_eq_true, if_false, hp]

theorem foldl_effect_directives_zero (ts : List token) :
    ((ts.foldl token.effect { directives := 0, numbered_arg_count := 0 }).directives + 1)
      % UINT_MODULUS = (ts.countP token.is_directive + 1) % UINT_MODULUS := by
  rw [foldl_effect_directives ts _ (by decide)]
  simp only [Nat.zero_add]
  rw [Nat.add_mod, Nat.mod_mod, ← Nat.add_mod]

theorem format_check_err (pos : lex_pos_ty) (spec1 spec2 : spec) (equality noisy : Bool)
    (pretty_msgstr : String) :
    (format_check pos spec1 spec2 equality noisy pretty_msgstr).err =
      (if equality then spec1.numbered_arg_count != spec2.numbered_arg_count
       else decide (spec1.numbered_arg_count < spec2.numbered_arg_count)) := by
  unfold format_check
  cases equality
  · by_cases h : spec1.numbered_arg_count < spec2.numbered_arg_count <;> simp [h]
  · by_cases h : spec1.numbered_arg_count = spec2.numbered_arg_count <;> simp [h]

/-- C4, as stated, fails: "{0}{1}" and "{5}{9}" both parse, each with two
directives over disjoint indices, to the argument counts 2 and 10, and the
equality check reports a mismatch. -/
theorem csharp_disjoint_indices_counterexample :
    format_parse "{0}{1}".toList false = some (.ok ⟨2, 2⟩) ∧
    format_parse "{5}{9}".toList true = some (.ok ⟨2, 10⟩) ∧
    format_check ⟨"a.po", 1⟩ ⟨2, 2⟩ ⟨2, 10⟩ true true "msgstr" =
      ⟨true, [(⟨"a.po", 1⟩, "msgstr")]⟩ := by
  decide

/-- C4, amended: the check compares the argument counts only, and the count of
a string is one more than its highest argument index: two strings made of
well-formed pieces, with indices below `UINT_MODULUS - 1`, both parse, and
their descriptors pass the equality check if and only if the highest indices
agree, whatever the other indices are. -/
theorem csharp_equality_compares_highest_index (pos : lex_pos_ty) (ts1 ts2 : List token)
    (t1 t2 noisy : Bool) (pretty_msgstr : String)
    (h1 : ∀ t ∈ ts1, t.well_formed) (h2 : ∀ t ∈ ts2, t.well_formed)
    (b1 : ∀ index ∈ argument_indices ts1, index + 1 < UINT_MODULUS)
    (b2 : ∀ index ∈ argument_indices ts2, index + 1 < UINT_MODULUS) :
    ∃ s1 s2, format_parse (concatenation ts1) t1 = some (.ok s1) ∧
      format_parse (concatenation ts2) t2 = some (.ok s2) ∧
      ((format_check pos s1 s2 true noisy pretty_msgstr).err = false ↔
        highest_index_succ (argument_indices ts1) =
          highest_index_succ (argument_indices ts2)) := by
  refine ⟨_, _, format_parse_concatenation ts1 h1 t1, format_parse_concatenation ts2 h2 t2, ?_⟩
  rw [format_check_err, foldl_effect_numbered_arg_count ts1 _ b1,
    foldl_effect_numbered_arg_count ts2 _ b2]
  simp

theorem csharp_equality_compares_highest_index_witness :
    (∀ t ∈ [token.directive ['0'] none none, token.directive ['1'] none none],
      t.well_formed) ∧
    (∀ t ∈ [token.directive ['1'] none none], t.well_formed) ∧
    (∀ index ∈ argument_indices [token.directive ['0'] none none,
      token.directive ['1'] none none], index + 1 < UINT_MODULUS) ∧
    (∀ index ∈ argument_indices [token.directive ['1'] none none],
      index + 1 < UINT_MODULUS) ∧
    ∃ s1 s2,
      format_parse (concatenation [token.directive ['0'] none none,
        token.directive ['1'] none none]) false = some (.ok s1) ∧
      format_parse (concatenation [token.directive ['1'] none none]) true = some (.ok s2) ∧
      ((format_check ⟨"a.po", 1⟩ s1 s2 true true "msgstr").err = false ↔
        highest_index_succ (argument_indices [token.directive ['0'] none none,
          token.directive ['1'] none none]) =
        highest_index_succ (argument_indices [token.directive ['1'] none none])) :=
  ⟨by decide, by decide, by decide, by decide,
    csharp_equality_compares_highest_index ⟨"a.po", 1⟩ _ _ false true true "msgstr"
      (by decide) (by decide) (by decide) (by decide)⟩

/-- C5: in equality mode the check reports a mismatch iff the two
`numbered_arg_count` differ; in at-least mode it reports a mismatch iff the
count of the translation is strictly greater than the count of the original;
the field `directives` of either descriptor has no influence on what the check
returns or prints. -/
theorem csharp_check_compares_counts (pos : lex_pos_ty) (spec1 spec2 : spec) (noisy : Bool)
    (pretty_msgstr : String) :
    ((format_check pos spec1 spec2 true noisy pretty_msgstr).err = true ↔
      spec1.numbered_arg_count ≠ spec2.numbered_arg_count) ∧
    ((format_check pos spec1 spec2 false noisy pretty_msgstr).err = true ↔
      spec2.numbered_arg_count > spec1.numbered_arg_count) ∧
    (∀ (equality : Bool) (d1 d2 : Nat),
      format_check pos { spec1 with directives := d1 } { spec2 with directives := d2 }
        equality noisy pretty_msgstr =
      format_check pos spec1 spec2 equality noisy pretty_msgstr) := by
  refine ⟨?_, ?_, ?_⟩
  · rw [format_check_err]; simp
  · rw [format_check_err]; simp
  · intro equality d1 d2
    rfl

/-- C6, as stated, fails: the string "{" ends inside its first directive and
the reason of the failure is "In the directive number 1, '{' is not followed by
an argument number.", not the reason for an unterminated directive. -/
theorem csharp_open_brace_at_end_counterexample :
    format_parse ['{'] false = some (.error (.no_argument_number 1)) ∧
    format_parse ['{'] false ≠ some (.error .unterminated) := by
  decide

/-- C6, amended: behind well-formed pieces, a string that ends inside a
directive behind the argument index, behind the width or in the format
specifiers fails with the reason for an unterminated directive; one that ends
right behind the '{' fails with the reason "'{' is not followed by an argument
number" and one that ends right behind the ',' of the width or its '-' with the
reason "',' is not followed by a number", both naming the directive. -/
theorem csharp_parse_ends_inside_directive (translated : Bool) (ts : List token)
    (index : List Char) (width : Option (Bool × List Char)) (run : List Char) (minus : Bool)
    (hts : ∀ t ∈ ts, t.well_formed)
    (hd : (token.directive index width (some run)).well_formed) :
    format_parse (concatenation ts ++ '{' :: (index ++ width_text width)) translated =
      some (.error .unterminated) ∧
    format_parse (concatenation ts ++ '{' :: (index ++ (width_text width ++ ':' :: run)))
      translated = some (.error .unterminated) ∧
    format_parse (concatenation ts ++ ['{']) translated =
      some (.error (.no_argument_number
        ((ts.countP token.is_directive + 1) % UINT_MODULUS))) ∧
    format_parse (concatenation ts ++ '{' :: (index ++ ',' :: (if minus then ['-'] else [])))
      translated =
      some (.error (.no_width_number ((ts.countP token.is_directive + 1) % UINT_MODULUS))) := by
  obtain ⟨hindex, hw, hrun⟩ := hd
  have hbrace : ∀ c, c_isdigit c = true → (c == '{') = false := by
    intro c hc
    rw [beq_eq_false_iff_ne]
    intro h; subst h; revert hc; decide
  refine ⟨?_, ?_, ?_, ?_⟩
  · exact format_parse_directive_error translated ts hts _ _
      (at_head_index _ hbrace index _ hindex)
      (parse_directive_ends_behind_width _ index width hindex hw)
  · exact format_parse_directive_error translated ts hts _ _
      (at_head_index _ hbrace index _ hindex)
      (parse_directive_ends_in_specifiers _ index width run hindex hw (hrun run rfl))
  · rw [← foldl_effect_directives_zero]
    exact format_parse_directive_error translated ts hts [] _ rfl rfl
  · rw [← foldl_effect_directives_zero]
    exact format_parse_directive_error translated ts hts _ _
      (at_head_index _ hbrace index _ hindex)
      (parse_directive_ends_behind_comma _ index minus hindex)

theorem csharp_parse_ends_inside_directive_witness :
    (∀ t ∈ [token.literal 'a'], t.well_formed) ∧
    (token.directive ['0'] (some (true, ['1', '2'])) (some ['x'])).well_formed ∧
    format_parse "a\x7b0,-12".toList false = some (.error .unterminated) ∧
    format_parse "a\x7b0,-12:x".toList false = some (.error .unterminated) ∧
    format_parse "a\x7b".toList false = some (.error (.no_argument_number 1)) ∧
    format_parse "a\x7b0,".toList false = some (.error (.no_width_number 1)) :=
  ⟨by decide, by decide,
    csharp_parse_ends_inside_directive false [token.literal 'a'] ['0']
      (some (true, ['1', '2'])) ['x'] false (by decide) (by decide)⟩

/-- C7: `format_parse` returns on every string; it succeeds if and only if the
string is made, from left to right, of characters other than braces, of the
pairs `{{` and `}}`, and of directives: '{', digits, optionally ',' with an
optional '-' and digits, optionally ':' with a run of characters other than
'}', and '}'. On every other string it fails with a reason. -/
theorem csharp_parse_succeeds_iff (format : List Char) (translated : Bool) :
    ((∃ s, format_parse format translated = some (.ok s)) ↔
      ∃ ts : List token, (∀ t ∈ ts, t.well_formed) ∧ concatenation ts = format) ∧
    ((¬ ∃ ts : List token, (∀ t ∈ ts, t.well_formed) ∧ concatenation ts = format) →
      ∃ reason, format_parse format translated = some (.error reason)) := by
  have hiff : (∃ s, format_parse format translated = some (.ok s)) ↔
      ∃ ts : List token, (∀ t ∈ ts, t.well_formed) ∧ concatenation ts = format := by
    constructor
    · rintro ⟨s, hs⟩
      exact tokens_of_format_parse_loop _ format _ s (Nat.lt_succ_self _) hs
    · rintro ⟨ts, hts, rfl⟩
      exact ⟨_, format_parse_concatenation ts hts translated⟩
  refine ⟨hiff, ?_⟩
  intro hno
  obtain ⟨r, hr⟩ := format_parse_loop_total (format.length + 1) format
    { directives := 0, numbered_arg_count := 0 } (Nat.lt_succ_self _)
  cases r with
  | error reason => exact ⟨reason, hr⟩
  | ok s => exact absurd (hiff.mp ⟨s, hr⟩) hno

/-- C8, as stated, fails: the string made of 4294967296 directives `{0}` is
accepted with the directive count 0, the counter being an `unsigned int`, and 0
is what `format_get_number_of_directives` returns; for the string made of
2147483648 directives `{0}` it returns -2147483648. -/
theorem csharp_directive_count_wraps_counterexample :
    (∀ t ∈ List.replicate 4294967296 (token.directive ['0'] none none), t.well_formed) ∧
    (List.replicate 4294967296 (token.directive ['0'] none none)).countP token.is_directive =
      4294967296 ∧
    (∃ s, format_parse (concatenation
        (List.replicate 4294967296 (token.directive ['0'] none none))) false = some (.ok s) ∧
      s.directives = 0 ∧ format_get_number_of_directives s = 0) ∧
    (∀ t ∈ List.replicate 2147483648 (token.directive ['0'] none none), t.well_formed) ∧
    (List.replicate 2147483648 (token.directive ['0'] none none)).countP token.is_directive =
      2147483648 ∧
    (∃ s, format_parse (concatenation
        (List.replicate 2147483648 (token.directive ['0'] none none))) false = some (.ok s) ∧
      s.directives = 2147483648 ∧ format_get_number_of_directives s = -2147483648) := by
  have hwf : ∀ n, ∀ t ∈ List.replicate n (token.directive ['0'] none none),
      t.well_formed := by
    intro n t ht
    rw [List.eq_of_mem_replicate ht]
    decide
  have hcount : ∀ n, (List.replicate n (token.directive ['0'] none none)).countP
      token.is_directive = n := by
    intro n
    rw [List.countP_replicate]
    rfl
  have hdir : ∀ n, (List.foldl token.effect { directives := 0, numbered_arg_count := 0 }
      (List.replicate n (token.directive ['0'] none none))).directives
        = n % UINT_MODULUS := by
    intro n
    rw [foldl_effect_directives _ _ (by decide), hcount]
    simp
  refine ⟨hwf _, hcount _, ⟨_, format_parse_concatenation _ (hwf _) false, ?_, ?_⟩,
    hwf _, hcount _, ⟨_, format_parse_concatenation _ (hwf _) false, ?_, ?_⟩⟩
  · rw [hdir]; rfl
  · unfold format_get_number_of_directives
    rw [hdir]
    rfl
  · rw [hdir]; rfl
  · unfold format_get_number_of_directives
    rw [hdir]
    rfl

/-- C8, amended: a string made of well-formed pieces is accepted and the
counter of its descriptor is the number of the directives among the pieces,
reduced modulo `UINT_MODULUS`: the number itself when it is below
`UINT_MODULUS`. The directive count `format_get_number_of_directives` returns
is this counter converted to `int`: the reduced number when that is below
2^31, and the reduced number minus 2^32 otherwise; hence it is the number of
the directives when that is below 2^31. The doubled braces and the braces in a
run of format specifiers are not counted. Every accepted string is made of such
pieces. "{0} items for {1}" gives 2, "{{literal}}" gives 0 and "{0:{}" gives
1. -/
theorem csharp_directive_count (translated : Bool) :
    (∀ ts : List token, (∀ t ∈ ts, t.well_formed) →
      ∃ s, format_parse (concatenation ts) translated = some (.ok s) ∧
        s.directives = ts.countP token.is_directive % UINT_MODULUS ∧
        (ts.countP token.is_directive < UINT_MODULUS →
          s.directives = ts.countP token.is_directive) ∧
        format_get_number_of_directives s =
          (if ts.countP token.is_directive % UINT_MODULUS < 2147483648
           then ((ts.countP token.is_directive % UINT_MODULUS : Nat) : Int)
           else ((ts.countP token.is_directive % UINT_MODULUS : Nat) : Int) - 4294967296) ∧
        (ts.countP token.is_directive < 2147483648 →
          format_get_number_of_directives s = ts.countP token.is_directive)) ∧
    (∀ (format : List Char) (s : spec), format_parse format translated = some (.ok s) →
      ∃ ts : List token, (∀ t ∈ ts, t.well_formed) ∧ concatenation ts = format ∧
        s.directives = ts.countP token.is_directive % UINT_MODULUS ∧
        format_get_number_of_directives s =
          (if ts.countP token.is_directive % UINT_MODULUS < 2147483648
           then ((ts.countP token.is_directive % UINT_MODULUS : Nat) : Int)
           else ((ts.countP token.is_directive % UINT_MODULUS : Nat) : Int) - 4294967296)) ∧
    format_parse "{0} items for {1}".toList translated = some (.ok ⟨2, 2⟩) ∧
    format_get_number_of_directives ⟨2, 2⟩ = 2 ∧
    format_parse "{{literal}}".toList translated = some (.ok ⟨0, 0⟩) ∧
    format_get_number_of_directives ⟨0, 0⟩ = 0 ∧
    format_parse ['{', '0', ':', '{', '}'] translated = some (.ok ⟨1, 1⟩) ∧
    format_get_number_of_directives ⟨1, 1⟩ = 1 := by
  have key : ∀ ts : List token,
      (ts.foldl token.effect { directives := 0, numbered_arg_count := 0 }).directives =
        ts.countP token.is_directive % UINT_MODULUS := by
    intro ts
    rw [foldl_effect_directives ts _ (by decide)]
    simp
  refine ⟨?_, ?_, rfl, rfl, rfl, rfl, rfl, rfl⟩
  · intro ts hts
    refine ⟨_, format_parse_concatenation ts hts translated, key ts, ?_, ?_, ?_⟩
    · intro hlt
      rw [key ts, Nat.mod_eq_of_lt hlt]
    · unfold format_get_number_of_directives
      rw [key ts]
    · intro hlt
      have hm : ts.countP token.is_directive % UINT_MODULUS = ts.countP token.is_directive :=
        Nat.mod_eq_of_lt (by unfold UINT_MODULUS; omega)
      unfold format_get_number_of_directives
      rw [key ts, hm, if_pos hlt]
  · intro format s hs
    obtain ⟨ts, hts, rfl⟩ :=
      tokens_of_format_parse_loop _ format _ s (Nat.lt_succ_self _) hs
    rw [format_parse_concatenation ts hts translated] at hs
    simp only [Option.some.injEq, Except.ok.injEq] at hs
    refine ⟨ts, hts, rfl, ?_, ?_⟩
    · rw [← hs, key ts]
    · unfold format_get_number_of_directives
      rw [← hs, key ts]

/-- C9, as stated, fails: "{4294967295}" is accepted, its only directive has
the index 4294967295, and the descriptor has one directive and the argument
count 0, not 4294967296. -/
theorem csharp_index_wraps_counterexample :
    concatenation [token.directive "4294967295".toList none none] = "{4294967295}".toList ∧
    (token.directive "4294967295".toList none none).well_formed ∧
    highest_index_succ (argument_indices [token.directive "4294967295".toList none none]) =
      4294967296 ∧
    format_parse "{4294967295}".toList false = some (.ok ⟨1, 0⟩) := by
  decide

/-- C9, amended: for a string made of well-formed pieces whose argument
indices are all below `UINT_MODULUS - 1`, the parse succeeds and
`numbered_arg_count` is one more than the largest index written in a
directive, and 0 when there is no directive; when moreover there are fewer
than `UINT_MODULUS` directives, `numbered_arg_count` is 0 iff the directive
count is 0. -/
theorem csharp_numbered_arg_count (translated : Bool) (ts : List token)
    (hts : ∀ t ∈ ts, t.well_formed)
    (hb : ∀ index ∈ argument_indices ts, index + 1 < UINT_MODULUS) :
    ∃ s, format_parse (concatenation ts) translated = some (.ok s) ∧
      s.numbered_arg_count = highest_index_succ (argument_indices ts) ∧
      (ts.countP token.is_directive = 0 → s.numbered_arg_count = 0) ∧
      (ts.countP token.is_directive < UINT_MODULUS →
        (s.numbered_arg_count = 0 ↔ s.directives = 0)) := by
  have hn : (ts.foldl token.effect { directives := 0, numbered_arg_count := 0 }).numbered_arg_count
      = highest_index_succ (argument_indices ts) := by
    rw [foldl_effect_numbered_arg_count ts _ hb]
    simp
  refine ⟨_, format_parse_concatenation ts hts translated, hn, ?_, ?_⟩
  · intro h0
    rw [hn, highest_index_succ_eq_zero, argument_indices_eq_nil]
    exact h0
  · intro hlt
    rw [hn, highest_index_succ_eq_zero, argument_indices_eq_nil,
      foldl_effect_directives ts _ (by decide)]
    simp only [Nat.zero_add, Nat.mod_eq_of_lt hlt]

theorem csharp_numbered_arg_count_witness :
    (∀ t ∈ [token.directive ['1', '2'] none none, token.literal 'a',
      token.directive ['3'] (some (false, ['5'])) (some ['x'])], t.well_formed) ∧
    (∀ index ∈ argument_indices [token.directive ['1', '2'] none none, token.literal 'a',
      token.directive ['3'] (some (false, ['5'])) (some ['x'])], index + 1 < UINT_MODULUS) ∧
    ∃ s, format_parse (concatenation [token.directive ['1', '2'] none none, token.literal 'a',
        token.directive ['3'] (some (false, ['5'])) (some ['x'])]) false = some (.ok s) ∧
      s.numbered_arg_count = highest_index_succ (argument_indices
        [token.directive ['1', '2'] none none, token.literal 'a',
          token.directive ['3'] (some (false, ['5'])) (some ['x'])]) ∧
      (([token.directive ['1', '2'] none none, token.literal 'a',
          token.directive ['3'] (some (false, ['5'])) (some ['x'])] : List token).countP
            token.is_directive = 0 → s.numbered_arg_count = 0) ∧
      (([token.directive ['1', '2'] none none, token.literal 'a',
          token.directive ['3'] (some (false, ['5'])) (some ['x'])] : List token).countP
            token.is_directive < UINT_MODULUS →
        (s.numbered_arg_count = 0 ↔ s.directives = 0)) :=
  ⟨by decide, by decide,
    csharp_numbered_arg_count false _ (by decide) (by decide)⟩

end FormatCsharp

/-! ## Further properties of the single-digit-percent validator -/

namespace FormatYcp

theorem largest_argument_mem :
    ∀ ds : List Nat, 0 < largest_argument ds → largest_argument ds ∈ ds
  | [], h => by simp [largest_argument] at h
  | d :: ds, h => by
    unfold largest_argument at h ⊢
    rcases Nat.le_total d (largest_argument ds) with hle | hle
    · rw [Nat.max_eq_right hle] at h ⊢
      exact List.mem_cons_of_mem _ (largest_argument_mem ds h)
    · rw [Nat.max_eq_left hle]
      exact List.mem_cons_self _ _

/-- The loop of `format_parse` leaves in `arg_count` the largest argument
referenced, or what it was if that is larger. -/
theorem format_parse_loop_arg_count :
    ∀ (format : List Char) (s r : spec), format_parse_loop format s = .ok r →
      r.arg_count = max s.arg_count (largest_argument (referenced_arguments format))
  | [], s, r, h => by
    simp only [format_parse_loop, Except.ok.injEq] at h
    subst h
    simp [referenced_arguments, largest_argument]
  | [c], s, r, h => by
    unfold format_parse_loop at h
    by_cases hc : c = '%'
    · simp [hc] at h
    · simp only [hc, if_false, format_parse_loop, Except.ok.injEq] at h
      subst h
      simp [referenced_arguments, largest_argument, hc]
  | c :: d :: format, s, r, h => by
    unfold format_parse_loop at h
    by_cases hc : c = '%'
    · simp only [hc, if_true] at h
      by_cases hd : d = '%'
      · simp only [hd, if_true] at h
        have ih := format_parse_loop_arg_count format _ r h
        rw [ih]
        simp [referenced_arguments, hc, hd]
      · simp only [hd, if_false] at h
        by_cases hr : '1' ≤ d ∧ d ≤ '9'
        · simp only [hr, and_self, if_true] at h
          have hb := nonzero_digit_bounds hr
          have ih := format_parse_loop_arg_count format _ r h
          have hcl := (clear_loop_spec (d.toNat - '1'.toNat)
            (d.toNat - '1'.toNat + 1 - s.arg_count)
            { s with directives := (s.directives + 1) % UINT_MODULUS } (le_refl _)).2.1
          have e1 : '1'.toNat = 49 := rfl
          have e0 : '0'.toNat = 48 := rfl
          rw [ih]
          show max (clear_loop (d.toNat - '1'.toNat) (d.toNat - '1'.toNat + 1 - s.arg_count)
            { s with directives := (s.directives + 1) % UINT_MODULUS }).arg_count _ = _
          rw [hcl]
          simp only [referenced_arguments, hc, if_true, hr, and_self, largest_argument]
          omega
        · simp [hr] at h
    · simp only [hc, if_false] at h
      have ih := format_parse_loop_arg_count (d :: format) s r h
      rw [ih]
      simp [referenced_arguments, hc]

/-- C11: for a string `format_parse` accepts, `arg_count` is the largest
argument a `%d` directive references (0 if there is none, 9 at most); every
cell of `args_used` below `arg_count` has been written, and holds true iff the
directive for its argument occurs in the string; when `arg_count` is positive
the cell `arg_count - 1` holds true. -/
theorem ycp_descriptor_of_accepted (format : List Char) (translated : Bool) (r : spec)
    (h : format_parse format translated = .ok r) :
    r.arg_count = largest_argument (referenced_arguments format) ∧ r.arg_count ≤ 9 ∧
    (∀ i, i < r.arg_count →
      (∃ b, r.args_used.getD i none = some b) ∧
      (r.args_used.getD i none = some true ↔ (i + 1) ∈ referenced_arguments format)) ∧
    (0 < r.arg_count → r.args_used.getD (r.arg_count - 1) none = some true) := by
  obtain ⟨hv, hu⟩ := format_parse_uses h
  have hac : r.arg_count = largest_argument (referenced_arguments format) := by
    have := format_parse_loop_arg_count format _ r h
    simpa using this
  refine ⟨hac, hv.1, ?_, ?_⟩
  · intro i hi
    refine ⟨Option.isSome_iff_exists.mp (hv.2.2 i hi), ?_⟩
    rw [← hu i]
    unfold spec.uses
    simp [hi]
  · intro hpos
    have hmem := largest_argument_mem _ (hac ▸ hpos)
    rw [← hac] at hmem
    have hi : r.arg_count - 1 + 1 = r.arg_count := by omega
    rw [← hi] at hmem
    exact ((hu (r.arg_count - 1)).mpr hmem).2

theorem ycp_descriptor_of_accepted_witness :
    format_parse "%3 of %1".toList false =
      .ok ⟨2, 3, [some true, some false, some true, none, none, none, none, none, none]⟩ ∧
    (3 = largest_argument (referenced_arguments "%3 of %1".toList) ∧ 3 ≤ 9 ∧
    (∀ i, i < 3 →
      (∃ b, [some true, some false, some true, none, none, none, none, none,
          (none : Option Bool)].getD i none = some b) ∧
      ([some true, some false, some true, none, none, none, none, none,
          (none : Option Bool)].getD i none = some true ↔
        (i + 1) ∈ referenced_arguments "%3 of %1".toList)) ∧
    (0 < 3 → [some true, some false, some true, none, none, none, none, none,
      (none : Option Bool)].getD (3 - 1) none = some true)) :=
  ⟨by decide,
    ycp_descriptor_of_accepted "%3 of %1".toList false
      ⟨2, 3, [some true, some false, some true, none, none, none, none, none, none]⟩
      (by decide)⟩

end FormatYcp

namespace FormatYcp

theorem format_check_loop_err_independent (pos pos' : lex_pos_ty) (s1 s2 : spec)
    (equality noisy noisy' : Bool) (pretty_msgstr pretty_msgstr' : String) :
    ∀ n i, (format_check_loop pos s1 s2 equality noisy pretty_msgstr n i).map (·.err) =
      (format_check_loop pos' s1 s2 equality noisy' pretty_msgstr' n i).map (·.err) := by
  intro n
  induction n with
  | zero => intro i; rfl
  | succ n ih =>
    intro i
    unfold format_check_loop
    by_cases hc : i < s1.arg_count ∨ i < s2.arg_count
    · rw [if_pos hc, if_pos hc]
      cases arg_used s1 i with
      | none => rfl
      | some u1 =>
        cases arg_used s2 i with
        | none => rfl
        | some u2 =>
          dsimp only
          by_cases hm : (if equality then u1 != u2 else (!u1 && u2)) = true
          · rw [if_pos hm, if_pos hm]; rfl
          · rw [if_neg hm, if_neg hm]; exact ih (i + 1)
    · rw [if_neg hc, if_neg hc]

theorem ycp_foldl_effect_directives :
    ∀ (ts : List token) (s : spec), s.directives < UINT_MODULUS →
      (ts.foldl token.effect s).directives =
        (s.directives + (ts.countP token.is_percent + ts.countP token.is_argument))
          % UINT_MODULUS
  | [], s, h => by simp [Nat.mod_eq_of_lt h]
  | t :: ts, s, h => by
    have hpos : 0 < UINT_MODULUS := by decide
    rw [List.foldl_cons, List.countP_cons, List.countP_cons]
    cases t with
    | literal c =>
      have e : token.effect s (.literal c) = s := rfl
      rw [e, ycp_foldl_effect_directives ts _ h]
      simp [token.is_percent, token.is_argument]
    | percent =>
      have e : (token.effect s .percent).directives = (s.directives + 1) % UINT_MODULUS := rfl
      rw [ycp_foldl_effect_directives ts _ (by rw [e]; exact Nat.mod_lt _ hpos), e]
      simp only [token.is_percent, token.is_argument, if_true, Bool.false_eq_true, if_false]
      rw [Nat.add_mod, Nat.mod_mod, ← Nat.add_mod]
      congr 1
      omega
    | argument d =>
      have e : (token.effect s (.argument d)).directives = (s.directives + 1) % UINT_MODULUS :=
        (clear_loop_spec (d.toNat - '1'.toNat) _
          { s with directives := (s.directives + 1) % UINT_MODULUS } (le_refl _)).1
      rw [ycp_foldl_effect_directives ts _ (by rw [e]; exact Nat.mod_lt _ hpos), e]
      simp only [token.is_percent, token.is_argument, if_true, Bool.false_eq_true, if_false]
      rw [Nat.add_mod, Nat.mod_mod, ← Nat.add_mod]
      congr 1
      omega

/-- A string made of well-formed pieces is accepted, with the descriptor the
pieces lead to. -/
theorem ycp_parse_concatenation (ts : List token) (h : ∀ t ∈ ts, t.well_formed)
    (translated : Bool) :
    format_parse (concatenation ts) translated =
      .ok (ts.foldl token.effect
        { directives := 0, arg_count := 0, args_used := List.replicate 9 none }) := by
  have := ycp_parse_loop_concatenation ts h []
    { directives := 0, arg_count := 0, args_used := List.replicate 9 none }
  rw [List.append_nil] at this
  exact this

/-- C20, as stated, fails: the string made of 4294967296 times `%%` is
accepted with the directive count 0, the counter being an `unsigned int`, and 0
is what `format_get_number_of_directives` returns; for the string made of
2147483648 times `%%` it returns -2147483648. -/
theorem ycp_directive_count_wraps_counterexample :
    (∀ t ∈ List.replicate 4294967296 token.percent, t.well_formed) ∧
    (List.replicate 4294967296 token.percent).countP token.is_percent +
      (List.replicate 4294967296 token.percent).countP token.is_argument = 4294967296 ∧
    (∃ r, format_parse (concatenation (List.replicate 4294967296 token.percent)) false
        = .ok r ∧ r.directives = 0 ∧ format_get_number_of_directives r = 0) ∧
    (∀ t ∈ List.replicate 2147483648 token.percent, t.well_formed) ∧
    (List.replicate 2147483648 token.percent).countP token.is_percent +
      (List.replicate 2147483648 token.percent).countP token.is_argument = 2147483648 ∧
    (∃ r, format_parse (concatenation (List.replicate 2147483648 token.percent)) false
        = .ok r ∧ r.directives = 2147483648 ∧
        format_get_number_of_directives r = -2147483648) := by
  have hwf : ∀ n, ∀ t ∈ List.replicate n token.percent, t.well_formed := by
    intro n t ht
    rw [List.eq_of_mem_replicate ht]
    trivial
  have hcount : ∀ n, (List.replicate n token.percent).countP token.is_percent +
      (List.replicate n token.percent).countP token.is_argument = n := by
    intro n
    rw [List.countP_replicate, List.countP_replicate]
    rfl
  have hdir : ∀ n, (List.foldl token.effect
      { directives := 0, arg_count := 0, args_used := List.replicate 9 none }
      (List.replicate n token.percent)).directives = n % UINT_MODULUS := by
    intro n
    rw [ycp_foldl_effect_directives _ _ (by decide), hcount]
    simp
  refine ⟨hwf _, hcount _, ⟨_, ycp_parse_concatenation _ (hwf _) false, ?_, ?_⟩,
    hwf _, hcount _, ⟨_, ycp_parse_concatenation _ (hwf _) false, ?_, ?_⟩⟩
  · rw [hdir]; rfl
  · unfold format_get_number_of_directives
    rw [hdir]
    rfl
  · rw [hdir]; rfl
  · unfold format_get_number_of_directives
    rw [hdir]
    rfl

/-- C20, amended: `%%` is accepted and changes neither `arg_count` nor
`args_used`, but it is counted as a directive. A string made of well-formed
pieces is accepted and the counter of its descriptor is the number of its `%%`
plus the number of its `%1` to `%9`, reduced modulo `UINT_MODULUS`: that number
itself when it is below `UINT_MODULUS`. The directive count
`format_get_number_of_directives` returns is this counter converted to `int`:
the reduced number when that is below 2^31, and the reduced number minus 2^32
otherwise; hence it is the number of the `%%` and `%1` to `%9` when that is
below 2^31. Every accepted string is made of such pieces. The string "%%" has
the directive count 1 and the `arg_count` 0. -/
theorem ycp_directive_count (translated : Bool) :
    (∀ (rest : List Char) (s : spec),
      format_parse_loop ('%' :: '%' :: rest) s =
        format_parse_loop rest
          { directives := (s.directives + 1) % UINT_MODULUS
            arg_count := s.arg_count
            args_used := s.args_used }) ∧
    (∀ ts : List token, (∀ t ∈ ts, t.well_formed) →
      ∃ r, format_parse (concatenation ts) translated = .ok r ∧
        r.directives =
          (ts.countP token.is_percent + ts.countP token.is_argument) % UINT_MODULUS ∧
        (ts.countP token.is_percent + ts.countP token.is_argument < UINT_MODULUS →
          r.directives = ts.countP token.is_percent + ts.countP token.is_argument) ∧
        format_get_number_of_directives r =
          (if (ts.countP token.is_percent + ts.countP token.is_argument) % UINT_MODULUS
              < 2147483648
           then (((ts.countP token.is_percent + ts.countP token.is_argument)
              % UINT_MODULUS : Nat) : Int)
           else (((ts.countP token.is_percent + ts.countP token.is_argument)
              % UINT_MODULUS : Nat) : Int) - 4294967296) ∧
        (ts.countP token.is_percent + ts.countP token.is_argument < 2147483648 →
          format_get_number_of_directives r =
            ((ts.countP token.is_percent + ts.countP token.is_argument : Nat) : Int))) ∧
    (∀ (format : List Char) (r : spec), format_parse format translated = .ok r →
      ∃ ts : List token, (∀ t ∈ ts, t.well_formed) ∧ concatenation ts = format ∧
        r.directives =
          (ts.countP token.is_percent + ts.countP token.is_argument) % UINT_MODULUS ∧
        format_get_number_of_directives r =
          (if (ts.countP token.is_percent + ts.countP token.is_argument) % UINT_MODULUS
              < 2147483648
           then (((ts.countP token.is_percent + ts.countP token.is_argument)
              % UINT_MODULUS : Nat) : Int)
           else (((ts.countP token.is_percent + ts.countP token.is_argument)
              % UINT_MODULUS : Nat) : Int) - 4294967296)) ∧
    format_parse "%%".toList translated = .ok ⟨1, 0, List.replicate 9 none⟩ ∧
    format_get_number_of_directives ⟨1, 0, List.replicate 9 none⟩ = 1 := by
  have key : ∀ ts : List token,
      (ts.foldl token.effect
        { directives := 0, arg_count := 0, args_used := List.replicate 9 none }).directives =
        (ts.countP token.is_percent + ts.countP token.is_argument) % UINT_MODULUS := by
    intro ts
    rw [ycp_foldl_effect_directives ts _ (by decide)]
    simp
  refine ⟨?_, ?_, ?_, rfl, rfl⟩
  · intro rest s
    simp [format_parse_loop]
  · intro ts hts
    refine ⟨_, ycp_parse_concatenation ts hts translated, key ts, ?_, ?_, ?_⟩
    · intro hlt
      rw [key ts, Nat.mod_eq_of_lt hlt]
    · unfold format_get_number_of_directives
      rw [key ts]
    · intro hlt
      have hm : (ts.countP token.is_percent + ts.countP token.is_argument) % UINT_MODULUS =
          ts.countP token.is_percent + ts.countP token.is_argument :=
        Nat.mod_eq_of_lt (by unfold UINT_MODULUS; omega)
      unfold format_get_number_of_directives
      rw [key ts, hm, if_pos hlt]
  · intro format r hr
    obtain ⟨ts, hts, rfl⟩ := ycp_tokens_of_parse_loop format _ r hr
    rw [ycp_parse_concatenation ts hts translated] at hr
    simp only [Except.ok.injEq] at hr
    refine ⟨ts, hts, rfl, ?_, ?_⟩
    · rw [← hr, key ts]
    · unfold format_get_number_of_directives
      rw [← hr, key ts]

end FormatYcp

/-- C12: for both grammars the boolean `format_check` returns does not depend
on the flag `noisy`, on the position or on `pretty_msgstr`: for all
descriptors and both modes any two choices of them give the same result (for
the single-digit-percent grammar also the same outcome when a cell that was
never written is read). -/
theorem format_check_err_independent_of_noisy :
    (∀ (pos pos' : lex_pos_ty) (spec1 spec2 : FormatCsharp.spec)
        (equality noisy noisy' : Bool) (pretty_msgstr pretty_msgstr' : String),
      (FormatCsharp.format_check pos spec1 spec2 equality noisy pretty_msgstr).err =
        (FormatCsharp.format_check pos' spec1 spec2 equality noisy' pretty_msgstr').err) ∧
    (∀ (pos pos' : lex_pos_ty) (spec1 spec2 : FormatYcp.spec)
        (equality noisy noisy' : Bool) (pretty_msgstr pretty_msgstr' : String),
      (FormatYcp.format_check pos spec1 spec2 equality noisy pretty_msgstr).map (·.err) =
        (FormatYcp.format_check pos' spec1 spec2 equality noisy' pretty_msgstr').map
          (·.err)) := by
  constructor
  · intro pos pos' spec1 spec2 equality noisy noisy' pretty_msgstr pretty_msgstr'
    rw [FormatCsharp.format_check_err, FormatCsharp.format_check_err]
  · intro pos pos' spec1 spec2 equality noisy noisy' pretty_msgstr pretty_msgstr'
    exact FormatYcp.format_check_loop_err_independent pos pos' spec1 spec2 equality noisy
      noisy' pretty_msgstr pretty_msgstr' _ 0

/-! ## Further properties of the numbered-brace validator -/

namespace FormatCsharp

theorem parse_width_error {directives : Nat} {format : List Char} {reason : invalid_reason}
    (h : parse_width directives format = .error reason) :
    reason = .no_width_number directives := by
  unfold parse_width at h
  dsimp only at h
  by_cases hc : at_head (· == ',') format = true
  · rw [if_pos hc] at h
    by_cases hd : (!at_head c_isdigit
        (if at_head (· == '-') (List.drop 1 format) = true then List.drop 1 (List.drop 1 format)
         else List.drop 1 format)) = true
    · rw [if_pos hd] at h
      simp only [Except.error.injEq] at h
      exact h.symm
    · rw [if_neg hd] at h
      simp at h
  · rw [if_neg hc] at h
    simp at h

/-- The reasons the block "A directive." fails with. -/
theorem parse_directive_error_reason {s : spec} {format : List Char} {reason : invalid_reason}
    (h : parse_directive s format = .error reason) :
    reason = .unterminated ∨
    reason = .no_argument_number ((s.directives + 1) % UINT_MODULUS) ∨
    reason = .no_width_number ((s.directives + 1) % UINT_MODULUS) ∨
    ∃ c, reason = .invalid_terminator ((s.directives + 1) % UINT_MODULUS) c := by
  unfold parse_directive at h
  by_cases hd : at_head c_isdigit format = true
  · simp only [hd, Bool.not_true, Bool.false_eq_true, if_false] at h
    generalize number_do_while 0 format = nw at h
    obtain ⟨number, y⟩ := nw
    simp only at h
    cases hw : parse_width ((s.directives + 1) % UINT_MODULUS) y with
    | error e =>
      rw [hw] at h
      simp only [Except.error.injEq] at h
      subst h
      exact Or.inr (Or.inr (Or.inl (parse_width_error hw)))
    | ok z =>
      rw [hw] at h
      simp only at h
      cases hz : parse_specifiers z with
      | nil =>
        rw [hz] at h
        simp only [Except.error.injEq] at h
        exact Or.inl h.symm
      | cons c x =>
        rw [hz] at h
        simp only at h
        by_cases hc : c = '}'
        · simp [hc] at h
        · simp only [ne_eq, hc, not_false_eq_true, if_true, Except.error.injEq] at h
          exact Or.inr (Or.inr (Or.inr ⟨_, h.symm⟩))
  · simp only [hd, Bool.not_false, if_true, Except.error.injEq] at h
    exact Or.inr (Or.inl h.symm)

/-- Where the loop of `format_parse` fails: behind well-formed pieces, either
in the block of a directive or on a '}' that is not doubled. -/
theorem format_parse_loop_error :
    ∀ (fuel : Nat) (format : List Char) (s : spec) (reason : invalid_reason),
      format.length < fuel → format_parse_loop fuel format s = some (.error reason) →
      ∃ (ts : List token) (x : List Char), (∀ t ∈ ts, t.well_formed) ∧
        ((format = concatenation ts ++ '{' :: x ∧ at_head (· == '{') x = false ∧
            parse_directive (ts.foldl token.effect s) x = .error reason) ∨
         (format = concatenation ts ++ '}' :: x ∧ at_head (· == '}') x = false ∧
            reason = (if (ts.foldl token.effect s).directives = 0 then .starts_in_middle
                      else .lone_close (ts.foldl token.effect s).directives))) := by
  intro fuel
  induction fuel with
  | zero => intro format s reason h; omega
  | succ f ih =>
    intro format s reason hl h
    cases format with
    | nil => simp [format_parse_loop] at h
    | cons c l =>
      simp only [List.length_cons] at hl
      unfold format_parse_loop at h
      have cons_case : ∀ (t : token) (rest : List Char), t.well_formed →
          t.text ++ rest = c :: l → rest.length < f →
          format_parse_loop f rest (t.effect s) = some (.error reason) →
          ∃ (ts : List token) (x : List Char), (∀ t ∈ ts, t.well_formed) ∧
            ((c :: l = concatenation ts ++ '{' :: x ∧ at_head (· == '{') x = false ∧
                parse_directive (ts.foldl token.effect s) x = .error reason) ∨
             (c :: l = concatenation ts ++ '}' :: x ∧ at_head (· == '}') x = false ∧
                reason = (if (ts.foldl token.effect s).directives = 0 then .starts_in_middle
                          else .lone_close (ts.foldl token.effect s).directives))) := by
        intro t rest ht hx hxl hr
        obtain ⟨ts, x, hts, hcase⟩ := ih rest (t.effect s) reason hxl hr
        have hwf : ∀ t' ∈ t :: ts, t'.well_formed := by
          intro t' ht'
          rcases List.mem_cons.mp ht' with rfl | ht'
          · exact ht
          · exact hts t' ht'
        refine ⟨t :: ts, x, hwf, ?_⟩
        rcases hcase with ⟨h1, h2, h3⟩ | ⟨h1, h2, h3⟩
        · refine Or.inl ⟨?_, h2, h3⟩
          rw [← hx, h1]
          simp [concatenation]
        · refine Or.inr ⟨?_, h2, h3⟩
          rw [← hx, h1]
          simp [concatenation]
      by_cases hc : c = '{'
      · simp only [hc, if_true] at h
        subst hc
        by_cases hh : at_head (· == '{') l = true
        · simp only [hh, if_true] at h
          obtain ⟨c2, l2, rfl, hc2⟩ := at_head_true hh
          have hc2 : c2 = '{' := by simpa using hc2
          subst hc2
          exact cons_case .open_brace l2 trivial rfl (by simp at hl; omega) h
        · simp only [hh, Bool.false_eq_true, if_false] at h
          cases hp : parse_directive s l with
          | error e =>
            rw [hp] at h
            simp only [Option.some.injEq, Except.error.injEq] at h
            subst h
            exact ⟨[], l, by simp, Or.inl ⟨by simp [concatenation], by simpa using hh, hp⟩⟩
          | ok p =>
            obtain ⟨s', x⟩ := p
            rw [hp] at h
            simp only at h
            have hlen := parse_directive_length hp
            obtain ⟨index, width, specifiers, hwf, rfl⟩ := parse_directive_ok hp
            rw [parse_directive_text s index width specifiers x hwf] at hp
            simp only [Except.ok.injEq, Prod.mk.injEq, and_true] at hp
            subst hp
            exact cons_case (.directive index width specifiers) x hwf
              (by simp [token.text]) (by omega) h
      · simp only [hc, if_false] at h
        by_cases hb : c = '}'
        · simp only [hb, if_true] at h
          subst hb
          by_cases hh : at_head (· == '}') l = true
          · simp only [hh, if_true] at h
            obtain ⟨c2, l2, rfl, hc2⟩ := at_head_true hh
            have hc2 : c2 = '}' := by simpa using hc2
            subst hc2
            exact cons_case .close_brace l2 trivial rfl (by simp at hl; omega) h
          · simp only [hh, Bool.false_eq_true, if_false, Option.some.injEq,
              Except.error.injEq] at h
            exact ⟨[], l, by simp, Or.inr ⟨by simp [concatenation], by simpa using hh, h.symm⟩⟩
        · simp only [hb, if_false] at h
          exact cons_case (.literal c) l ⟨hc, hb⟩ rfl (by omega) h

/-- Behind well-formed pieces, a '}' that is not doubled makes `format_parse`
fail. -/
theorem format_parse_lone_close (translated : Bool) (ts : List token)
    (hts : ∀ t ∈ ts, t.well_formed) (x : List Char) (hx : at_head (· == '}') x = false) :
    format_parse (concatenation ts ++ '}' :: x) translated =
      some (.error
        (if (ts.foldl token.effect { directives := 0, numbered_arg_count := 0 }).directives = 0
         then .starts_in_middle
         else .lone_close
          (ts.foldl token.effect { directives := 0, numbered_arg_count := 0 }).directives)) := by
  unfold format_parse
  rw [format_parse_loop_concatenation ts hts _ _ _ (Nat.lt_succ_self _)]
  have e : ('}' = '{') = False := by decide
  simp only [format_parse_loop, e, if_false, if_true, hx, Bool.false_eq_true]

theorem foldl_effect_directives_count (ts : List token) :
    (ts.foldl token.effect { directives := 0, numbered_arg_count := 0 }).directives =
      ts.countP token.is_directive % UINT_MODULUS := by
  rw [foldl_effect_directives ts _ (by decide)]
  simp

end FormatCsharp

namespace FormatCsharp

/-- The block "A directive." fails exactly behind a '{' at which no
well-formed directive opens. -/
theorem parse_directive_error_iff (s : spec) (x : List Char) :
    (∃ reason, parse_directive s x = .error reason) ↔ ¬ starts_directive x := by
  constructor
  · rintro ⟨reason, hr⟩ ⟨index, width, specifiers, rest, hwf, hx⟩
    have hx2 : x = index ++ (width_text width ++ (specifiers_text specifiers ++ '}' :: rest)) := by
      simp only [token.text, List.cons_append, List.cons.injEq, true_and] at hx
      rw [hx]
      simp
    rw [hx2, parse_directive_text s index width specifiers rest hwf] at hr
    simp at hr
  · intro hbad
    cases hp : parse_directive s x with
    | error reason => exact ⟨reason, rfl⟩
    | ok p =>
      obtain ⟨s', rest⟩ := p
      obtain ⟨index, width, specifiers, hwf, hx⟩ := parse_directive_ok hp
      refine absurd ⟨index, width, specifiers, rest, hwf, ?_⟩ hbad
      rw [hx]
      simp [token.text]

/-- A width followed by a character that continues neither the width nor, when
there is no width, opens one, is read up to that character. -/
theorem parse_width_terminator (directives : Nat) (width : Option (Bool × List Char))
    (c : Char) (rest : List Char)
    (hw : ∀ w ∈ width, w.2 ≠ [] ∧ ∀ c ∈ w.2, c_isdigit c = true)
    (hc : c_isdigit c = false) (hcomma : width = none → c ≠ ',') :
    parse_width directives (width_text width ++ c :: rest) = .ok (c :: rest) := by
  cases width with
  | none =>
    have h2 : (c == ',') = false := by
      rw [beq_eq_false_iff_ne]
      exact hcomma rfl
    simp [parse_width, width_text, at_head, h2]
  | some w =>
    obtain ⟨minus, digits⟩ := w
    obtain ⟨hne, hds⟩ := hw (minus, digits) rfl
    have h1 : at_head c_isdigit (c :: rest) = false := hc
    cases digits with
    | nil => exact absurd rfl hne
    | cons d ds =>
      have hd : c_isdigit d = true := hds d (List.mem_cons_self _ _)
      have hds2 : ∀ c ∈ ds, c_isdigit c = true := fun c hc => hds c (List.mem_cons_of_mem _ hc)
      have hdm : (d == '-') = false := by
        rw [beq_eq_false_iff_ne]
        intro h; subst h; revert hd; decide
      cases minus
      · simp [parse_width, width_text, at_head, hd, hdm, do_skip_while,
          dropWhile_append_of_all c_isdigit ds (c :: rest) hds2 h1]
      · simp [parse_width, width_text, at_head, hd, do_skip_while,
          dropWhile_append_of_all c_isdigit ds (c :: rest) hds2 h1]

/-- The reasons of the block "A directive.", with the number of the directive
written by the count of the directives before it. -/
theorem parse_directive_error_number (ts : List token) {x : List Char}
    {reason : invalid_reason}
    (h : parse_directive (ts.foldl token.effect { directives := 0, numbered_arg_count := 0 }) x
      = .error reason) :
    reason = .unterminated ∨
    reason = .no_argument_number ((ts.countP token.is_directive + 1) % UINT_MODULUS) ∨
    reason = .no_width_number ((ts.countP token.is_directive + 1) % UINT_MODULUS) ∨
    ∃ c, reason = .invalid_terminator ((ts.countP token.is_directive + 1) % UINT_MODULUS) c := by
  have := parse_directive_error_reason h
  rw [foldl_effect_directives_zero ts] at this
  exact this

/-- C15, as stated, fails: the string "{0" ends in its first directive and
the reason of the failure, "The string ends in the middle of a directive:
found '{' without matching '}'.", names no directive. -/
theorem csharp_unterminated_names_no_directive_counterexample :
    format_parse "\x7b0".toList false = some (.error .unterminated) ∧
    invalid_reason.directive_number .unterminated = none := by
  decide

/-- C15, amended: the offending directive is the one opened by the first '{'
that stands behind well-formed pieces, is not doubled, and at which no
well-formed directive opens. Behind such a '{' `format_parse` fails, with the
reason for an unterminated directive, which names no directive, or with one of
"'{' is not followed by an argument number", "',' is not followed by a number"
and "ends with an invalid character", which name the number of the directives
opened up to and including this one, reduced modulo `UINT_MODULUS`. The first
is the reason when no digit follows the '{', the second when no digit follows
the ',' and its optional '-', the third when the index and the optional width
are followed by a character that neither continues them nor is ':' or '}'.
Every failure of `format_parse` is reached in this way or on a '}' that is not
doubled, and in every such decomposition of the string the reason names the
directive of that decomposition. -/
theorem csharp_reason_names_directive (translated : Bool) :
    (∀ (ts : List token) (x : List Char), (∀ t ∈ ts, t.well_formed) →
      at_head (· == '{') x = false → ¬ starts_directive x →
      ∃ reason, format_parse (concatenation ts ++ '{' :: x) translated = some (.error reason) ∧
        (reason = .unterminated ∨
         reason = .no_argument_number ((ts.countP token.is_directive + 1) % UINT_MODULUS) ∨
         reason = .no_width_number ((ts.countP token.is_directive + 1) % UINT_MODULUS) ∨
         ∃ c, reason =
          .invalid_terminator ((ts.countP token.is_directive + 1) % UINT_MODULUS) c)) ∧
    (∀ (ts : List token) (x : List Char), (∀ t ∈ ts, t.well_formed) →
      at_head (· == '{') x = false → at_head c_isdigit x = false →
      format_parse (concatenation ts ++ '{' :: x) translated =
        some (.error (.no_argument_number
          ((ts.countP token.is_directive + 1) % UINT_MODULUS)))) ∧
    (∀ (ts : List token) (index : List Char) (minus : Bool) (y : List Char),
      (∀ t ∈ ts, t.well_formed) → (index ≠ [] ∧ ∀ c ∈ index, c_isdigit c = true) →
      at_head c_isdigit y = false → (minus = false → at_head (· == '-') y = false) →
      format_parse (concatenation ts ++ '{' ::
          (index ++ ',' :: ((if minus then ['-'] else []) ++ y))) translated =
        some (.error (.no_width_number
          ((ts.countP token.is_directive + 1) % UINT_MODULUS)))) ∧
    (∀ (ts : List token) (index : List Char) (width : Option (Bool × List Char))
        (c : Char) (rest : List Char),
      (∀ t ∈ ts, t.well_formed) → (token.directive index width none).well_formed →
      c ≠ '}' → c ≠ ':' → c_isdigit c = false → (width = none → c ≠ ',') →
      format_parse (concatenation ts ++ '{' :: (index ++ (width_text width ++ c :: rest)))
          translated =
        some (.error (.invalid_terminator ((ts.countP token.is_directive + 1) % UINT_MODULUS)
          (if c_isprint c then some c else none)))) ∧
    (∀ (format : List Char) (reason : invalid_reason),
      format_parse format translated = some (.error reason) →
      (∃ (ts : List token) (x : List Char), (∀ t ∈ ts, t.well_formed) ∧
        ((format = concatenation ts ++ '{' :: x ∧ at_head (· == '{') x = false ∧
          ¬ starts_directive x ∧
          parse_directive
            (ts.foldl token.effect { directives := 0, numbered_arg_count := 0 }) x =
              .error reason ∧
          (reason = .unterminated ∨
           reason = .no_argument_number ((ts.countP token.is_directive + 1) % UINT_MODULUS) ∨
           reason = .no_width_number ((ts.countP token.is_directive + 1) % UINT_MODULUS) ∨
           ∃ c, reason =
            .invalid_terminator ((ts.countP token.is_directive + 1) % UINT_MODULUS) c)) ∨
         (format = concatenation ts ++ '}' :: x ∧ at_head (· == '}') x = false ∧
          (reason = .starts_in_middle ∨
           reason = .lone_close (ts.countP token.is_directive % UINT_MODULUS))))) ∧
      (∀ (ts : List token) (x : List Char), (∀ t ∈ ts, t.well_formed) →
        format = concatenation ts ++ '{' :: x → at_head (· == '{') x = false →
        ¬ starts_directive x →
        reason = .unterminated ∨
        reason = .no_argument_number ((ts.countP token.is_directive + 1) % UINT_MODULUS) ∨
        reason = .no_width_number ((ts.countP token.is_directive + 1) % UINT_MODULUS) ∨
        ∃ c, reason =
          .invalid_terminator ((ts.countP token.is_directive + 1) % UINT_MODULUS) c)) := by
  have hbrace : ∀ c, c_isdigit c = true → (c == '{') = false := by
    intro c hc
    rw [beq_eq_false_iff_ne]
    intro h; subst h; revert hc; decide
  have forward : ∀ (ts : List token) (x : List Char), (∀ t ∈ ts, t.well_formed) →
      at_head (· == '{') x = false → ¬ starts_directive x →
      ∃ reason, format_parse (concatenation ts ++ '{' :: x) translated = some (.error reason) ∧
        (reason = .unterminated ∨
         reason = .no_argument_number ((ts.countP token.is_directive + 1) % UINT_MODULUS) ∨
         reason = .no_width_number ((ts.countP token.is_directive + 1) % UINT_MODULUS) ∨
         ∃ c, reason =
          .invalid_terminator ((ts.countP token.is_directive + 1) % UINT_MODULUS) c) := by
    intro ts x hts hx hbad
    obtain ⟨reason, hr⟩ := (parse_directive_error_iff
      (ts.foldl token.effect { directives := 0, numbered_arg_count := 0 }) x).mpr hbad
    exact ⟨reason, format_parse_directive_error translated ts hts x reason hx hr,
      parse_directive_error_number ts hr⟩
  refine ⟨forward, ?_, ?_, ?_, ?_⟩
  · intro ts x hts hx hd
    apply format_parse_directive_error translated ts hts x _ hx
    rw [← foldl_effect_directives_zero ts]
    simp [parse_directive, hd]
  · intro ts index minus y hts hindex hy hminus
    apply format_parse_directive_error translated ts hts _ _
      (at_head_index _ hbrace index _ hindex)
    have hpw : ∀ k, parse_width k (',' :: ((if minus then ['-'] else []) ++ y)) =
        .error (.no_width_number k) := by
      intro k
      have e1 : ∀ l, at_head (· == ',') (',' :: l) = true := fun _ => rfl
      have e2 : at_head (· == '-') ('-' :: y) = true := rfl
      cases minus
      · have hm := hminus rfl
        simp only [Bool.false_eq_true, if_false, List.nil_append]
        unfold parse_width
        simp only [e1, if_true, List.drop_succ_cons, List.drop_zero, hm, Bool.false_eq_true,
          if_false, hy, Bool.not_false]
      · simp only [if_true, List.cons_append, List.nil_append]
        unfold parse_width
        simp only [e1, if_true, List.drop_succ_cons, List.drop_zero, e2, hy, Bool.not_false]
    rw [← foldl_effect_directives_zero ts,
      parse_directive_index _ index _ hindex (by simp [at_head]; decide), hpw]
  · intro ts index width c rest hts hwf hc1 hc2 hc3 hc4
    obtain ⟨hindex, hw, _⟩ := hwf
    apply format_parse_directive_error translated ts hts _ _
      (at_head_index _ hbrace index _ hindex)
    have hhead : at_head c_isdigit (width_text width ++ c :: rest) = false := by
      cases width with
      | none => simpa [width_text, at_head] using hc3
      | some w => simp [width_text, at_head]; decide
    have hcolon : (c == ':') = false := by
      rw [beq_eq_false_iff_ne]
      exact hc2
    rw [← foldl_effect_directives_zero ts, parse_directive_index _ index _ hindex hhead,
      parse_width_terminator _ width c rest hw hc3 hc4]
    simp [parse_specifiers, at_head, hcolon, hc1]
  · intro format reason h
    constructor
    · obtain ⟨ts, x, hts, hcase⟩ := format_parse_loop_error _ format _ reason
        (Nat.lt_succ_self _) h
      refine ⟨ts, x, hts, ?_⟩
      rcases hcase with ⟨h1, h2, h3⟩ | ⟨h1, h2, h3⟩
      · exact Or.inl ⟨h1, h2, (parse_directive_error_iff _ x).mp ⟨reason, h3⟩, h3,
          parse_directive_error_number ts h3⟩
      · refine Or.inr ⟨h1, h2, ?_⟩
        rw [foldl_effect_directives_count ts] at h3
        by_cases h0 : ts.countP token.is_directive % UINT_MODULUS = 0
        · rw [if_pos h0] at h3
          exact Or.inl h3
        · rw [if_neg h0] at h3
          exact Or.inr h3
    · intro ts x hts hf hx hbad
      obtain ⟨reason', hr, hshape⟩ := forward ts x hts hx hbad
      rw [← hf, h] at hr
      simp only [Option.some.injEq, Except.error.injEq] at hr
      rw [hr]
      exact hshape

theorem csharp_reason_names_directive_witness :
    format_parse "\x7b0\x7d\x7b1\x7d\x7b2x".toList false =
      some (.error (.invalid_terminator 3 (some 'x'))) ∧
    (∀ t ∈ [token.directive ['0'] none none, token.directive ['1'] none none],
      t.well_formed) ∧
    "\x7b0\x7d\x7b1\x7d\x7b2x".toList =
      concatenation [token.directive ['0'] none none, token.directive ['1'] none none]
        ++ '\x7b' :: ['2', 'x'] ∧
    at_head (· == '\x7b') ['2', 'x'] = false ∧
    ¬ starts_directive ['2', 'x'] ∧
    (invalid_reason.invalid_terminator 3 (some 'x') = .unterminated ∨
      invalid_reason.invalid_terminator 3 (some 'x') = .no_argument_number
        (([token.directive ['0'] none none, token.directive ['1'] none none].countP
          token.is_directive + 1) % UINT_MODULUS) ∨
      invalid_reason.invalid_terminator 3 (some 'x') = .no_width_number
        (([token.directive ['0'] none none, token.directive ['1'] none none].countP
          token.is_directive + 1) % UINT_MODULUS) ∨
      ∃ c, invalid_reason.invalid_terminator 3 (some 'x') = .invalid_terminator
        (([token.directive ['0'] none none, token.directive ['1'] none none].countP
          token.is_directive + 1) % UINT_MODULUS) c) ∧
    ([token.directive ['0'] none none, token.directive ['1'] none none].countP
      token.is_directive + 1) % UINT_MODULUS = 3 :=
  ⟨by decide, by decide, by decide, by decide,
    (parse_directive_error_iff ⟨0, 0⟩ ['2', 'x']).mp
      ⟨.invalid_terminator 1 (some 'x'), by decide⟩,
    ((csharp_reason_names_directive false).2.2.2.2 "\x7b0\x7d\x7b1\x7d\x7b2x".toList
      (.invalid_terminator 3 (some 'x')) (by decide)).2
      [token.directive ['0'] none none, token.directive ['1'] none none] ['2', 'x']
      (by decide) (by decide) (by decide)
      ((parse_directive_error_iff ⟨0, 0⟩ ['2', 'x']).mp
      ⟨.invalid_terminator 1 (some 'x'), by decide⟩),
    by decide⟩

/-- C19, as stated, fails: behind 4294967296 directives `{0}` a lone '}' is
reported with "The string starts in the middle of a directive", the counter
of the directives, an `unsigned int`, being 0 again. -/
theorem csharp_lone_close_wraps_counterexample :
    (∀ t ∈ List.replicate 4294967296 (token.directive ['0'] none none), t.well_formed) ∧
    (List.replicate 4294967296 (token.directive ['0'] none none)).countP token.is_directive =
      4294967296 ∧
    format_parse (concatenation
        (List.replicate 4294967296 (token.directive ['0'] none none)) ++ ['}']) false =
      some (.error .starts_in_middle) := by
  have hwf : ∀ t ∈ List.replicate 4294967296 (token.directive ['0'] none none),
      t.well_formed := by
    intro t ht
    rw [List.eq_of_mem_replicate ht]
    decide
  have hcount : (List.replicate 4294967296 (token.directive ['0'] none none)).countP
      token.is_directive = 4294967296 := by
    rw [List.countP_replicate]
    rfl
  refine ⟨hwf, hcount, ?_⟩
  rw [format_parse_lone_close false _ hwf [] rfl, foldl_effect_directives_count, hcount]
  rfl

/-- C19, amended: behind well-formed pieces, a '}' that is not followed by a
second '}' makes `format_parse` fail. With `n` the number of the directives
among the pieces, the reason is "The string starts in the middle of a
directive" when `n` is 0 (whatever literal text precedes the '}'), and more
generally when `n` is a multiple of `UINT_MODULUS`; otherwise it is "The string
contains a lone '}' after directive number" with `n` reduced modulo
`UINT_MODULUS`, which is `n` itself below `UINT_MODULUS`. -/
theorem csharp_lone_close (translated : Bool) (ts : List token) (x : List Char)
    (hts : ∀ t ∈ ts, t.well_formed) (hx : at_head (· == '}') x = false) :
    format_parse (concatenation ts ++ '}' :: x) translated =
      some (.error
        (if ts.countP token.is_directive % UINT_MODULUS = 0 then .starts_in_middle
         else .lone_close (ts.countP token.is_directive % UINT_MODULUS))) ∧
    (ts.countP token.is_directive = 0 →
      format_parse (concatenation ts ++ '}' :: x) translated =
        some (.error .starts_in_middle)) ∧
    (0 < ts.countP token.is_directive → ts.countP token.is_directive < UINT_MODULUS →
      format_parse (concatenation ts ++ '}' :: x) translated =
        some (.error (.lone_close (ts.countP token.is_directive)))) := by
  have key := format_parse_lone_close translated ts hts x hx
  rw [foldl_effect_directives_count] at key
  refine ⟨key, ?_, ?_⟩
  · intro h0
    rw [key, h0]
    rfl
  · intro hpos hlt
    rw [key, Nat.mod_eq_of_lt hlt, if_neg (by omega)]

theorem csharp_lone_close_witness :
    (∀ t ∈ [token.literal 'a', token.directive ['0'] none none, token.close_brace],
      t.well_formed) ∧
    at_head (· == '}') ['b'] = false ∧
    format_parse "a\x7b0\x7d\x7d\x7d\x7db".toList false = some (.error (.lone_close 1)) :=
  ⟨by decide, by decide,
    ((csharp_lone_close false
      [token.literal 'a', token.directive ['0'] none none, token.close_brace] ['b']
      (by decide) (by decide)).2.2 (by decide) (by decide))⟩

end FormatCsharp

/-! ## Properties of msgcat -/

namespace Msgcat

/-- What one iteration of the loop over the options does to the four flags,
and that it does no merge work. -/
theorem process_option_flags {st0 st1 : main_state} {o : optchar}
    (h : process_option st0 o = .ok st1) :
    st1.sort_by_msgid = (st0.sort_by_msgid || decide (o = .sort_output)) ∧
    st1.sort_by_filepos = (st0.sort_by_filepos || decide (o = .sort_by_file)) ∧
    st1.do_help = (st0.do_help || decide (o = .help)) ∧
    st1.do_version = (st0.do_version || decide (o = .version)) ∧
    (∀ e ∈ st1.events, e ∈ st0.events ∨ e.is_merge_work = false) := by
  have close : ∀ (st : main_state), st = st1 →
      (st.sort_by_msgid = (st0.sort_by_msgid || decide (o = .sort_output)) ∧
       st.sort_by_filepos = (st0.sort_by_filepos || decide (o = .sort_by_file)) ∧
       st.do_help = (st0.do_help || decide (o = .help)) ∧
       st.do_version = (st0.do_version || decide (o = .version)) ∧
       (∀ e ∈ st.events, e ∈ st0.events ∨ e.is_merge_work = false)) →
      (st1.sort_by_msgid = (st0.sort_by_msgid || decide (o = .sort_output)) ∧
       st1.sort_by_filepos = (st0.sort_by_filepos || decide (o = .sort_by_file)) ∧
       st1.do_help = (st0.do_help || decide (o = .help)) ∧
       st1.do_version = (st0.do_version || decide (o = .version)) ∧
       (∀ e ∈ st1.events, e ∈ st0.events ∨ e.is_merge_work = false)) := by
    intro st hst hall
    rw [← hst]
    exact hall
  have keep : ∀ e ∈ st0.events, e ∈ st0.events ∨ e.is_merge_work = false :=
    fun e he => Or.inl he
  have add : ∀ x : event, x.is_merge_work = false →
      ∀ e ∈ st0.events ++ [x], e ∈ st0.events ∨ e.is_merge_work = false := by
    intro x hx e he
    rcases List.mem_append.mp he with h | h
    · exact Or.inl h
    · rw [List.mem_singleton.mp h]
      exact Or.inr hx
  cases o with
  | unrecognized => simp [process_option] at h
  | more_than value =>
    cases value <;> exact close _ (Except.ok.inj h) ⟨by simp, by simp, by simp, by simp, keep⟩
  | less_than value =>
    cases value <;> exact close _ (Except.ok.inj h) ⟨by simp, by simp, by simp, by simp, keep⟩
  | width value =>
    cases value with
    | none => exact close _ (Except.ok.inj h) ⟨by simp, by simp, by simp, by simp, keep⟩
    | some v =>
      exact close _ (Except.ok.inj h) ⟨by simp, by simp, by simp, by simp, add _ rfl⟩
  | add_location | force_po | no_location | files_from _ | sort_by_file | help | n
  | output_file _ | properties_input | sort_output | to_code _ | unique | version
  | use_first | stringtable_input =>
    exact close _ (Except.ok.inj h) ⟨by simp, by simp, by simp, by simp, keep⟩
  | directory _ | no_escape | escape | indent | properties_output | strict | no_wrap
  | stringtable_output =>
    exact close _ (Except.ok.inj h) ⟨by simp, by simp, by simp, by simp, add _ rfl⟩

theorem process_options_flags :
    ∀ (options : List optchar) (st0 st : main_state),
      process_options st0 options = .ok st →
      st.sort_by_msgid = (st0.sort_by_msgid || decide (optchar.sort_output ∈ options)) ∧
      st.sort_by_filepos = (st0.sort_by_filepos || decide (optchar.sort_by_file ∈ options)) ∧
      st.do_help = (st0.do_help || decide (optchar.help ∈ options)) ∧
      st.do_version = (st0.do_version || decide (optchar.version ∈ options)) ∧
      (∀ e ∈ st.events, e ∈ st0.events ∨ e.is_merge_work = false)
  | [], st0, st, h => by
    simp only [process_options, Except.ok.injEq] at h
    subst h
    exact ⟨by simp, by simp, by simp, by simp, fun e he => Or.inl he⟩
  | o :: options, st0, st, h => by
    unfold process_options at h
    cases h1 : process_option st0 o with
    | error out => rw [h1] at h; simp at h
    | ok st1 =>
      rw [h1] at h
      simp only at h
      obtain ⟨a1, a2, a3, a4, a5⟩ := process_option_flags h1
      obtain ⟨b1, b2, b3, b4, b5⟩ := process_options_flags options st1 st h
      refine ⟨?_, ?_, ?_, ?_, ?_⟩
      · rw [b1, a1]; simp [Bool.or_assoc, eq_comm]
      · rw [b2, a2]; simp [Bool.or_assoc, eq_comm]
      · rw [b3, a3]; simp [Bool.or_assoc, eq_comm]
      · rw [b4, a4]; simp [Bool.or_assoc, eq_comm]
      · intro e he
        rcases b5 e he with h5 | h5
        · exact a5 e h5
        · exact Or.inr h5

theorem main_eq {env : externals} {options : List optchar} {st : main_state}
    (h : process_options (initial_state env) options = .ok st) (arguments : List String) :
    main env options arguments = main_after_options env st arguments := by
  unfold main
  rw [h]

/-- C13: behind the loop over the options, `main` ends with the fatal error
"impossible selection criteria specified" exactly when control reaches the
sanity check (no version or help requested, no conflict between the sorting and
location options) and `more_than >= less_than` or `less_than < 2`. Hence a run
whose options set only the range to (more_than, less_than) is rejected if and
only if `more_than >= less_than` or `less_than < 2`: more-than 5 with less-than
3 is rejected, so is less-than 1, and the default range (0, `INT_MAX`) and the
range of `--unique` (0, 2) are accepted. -/
theorem msgcat_selection_criteria (env : externals) (arguments : List String) :
    (∀ (options : List optchar) (st : main_state),
      process_options (initial_state env) options = .ok st →
      (main env options arguments =
          { events := st.events ++ [.error_impossible_selection st.more_than st.less_than]
            status := .EXIT_FAILURE } ↔
        (st.do_version = false ∧ st.do_help = false ∧
          ¬ (st.line_comment = 0 ∧ st.sort_by_filepos = true) ∧
          ¬ (st.sort_by_msgid = true ∧ st.sort_by_filepos = true) ∧
          (st.more_than ≥ st.less_than ∨ st.less_than < 2)))) ∧
    (∀ more_than less_than : Int,
      main env [.more_than (some more_than), .less_than (some less_than)] arguments =
          { events := [.error_impossible_selection more_than less_than]
            status := .EXIT_FAILURE } ↔
        (more_than ≥ less_than ∨ less_than < 2)) ∧
    main env [.more_than (some 5), .less_than (some 3)] arguments =
      { events := [.error_impossible_selection 5 3], status := .EXIT_FAILURE } ∧
    main env [.less_than (some 1)] arguments =
      { events := [.error_impossible_selection 0 1], status := .EXIT_FAILURE } ∧
    (main env [] arguments).status = .EXIT_SUCCESS ∧
    (main env [.unique] arguments).status = .EXIT_SUCCESS := by
  have general : ∀ (st : main_state),
      (main_after_options env st arguments =
          { events := st.events ++ [.error_impossible_selection st.more_than st.less_than]
            status := .EXIT_FAILURE } ↔
        (st.do_version = false ∧ st.do_help = false ∧
          ¬ (st.line_comment = 0 ∧ st.sort_by_filepos = true) ∧
          ¬ (st.sort_by_msgid = true ∧ st.sort_by_filepos = true) ∧
          (st.more_than ≥ st.less_than ∨ st.less_than < 2))) := by
    intro st
    unfold main_after_options
    by_cases h1 : st.do_version = true
    · rw [if_pos h1]
      constructor
      · intro h; simp at h
      · rintro ⟨hv, _⟩; rw [hv] at h1; exact absurd h1 (by decide)
    · rw [if_neg h1]
      by_cases h2 : st.do_help = true
      · rw [if_pos h2]
        constructor
        · intro h; simp at h
        · rintro ⟨_, hh, _⟩; rw [hh] at h2; exact absurd h2 (by decide)
      · rw [if_neg h2]
        by_cases h3 : st.line_comment = 0 ∧ st.sort_by_filepos = true
        · rw [if_pos h3]
          constructor
          · intro h; simp at h
          · rintro ⟨_, _, hn, _⟩; exact absurd h3 hn
        · rw [if_neg h3]
          by_cases h4 : st.sort_by_msgid = true ∧ st.sort_by_filepos = true
          · rw [if_pos h4]
            constructor
            · intro h; simp at h
            · rintro ⟨_, _, _, hn, _⟩; exact absurd h4 hn
          · rw [if_neg h4]
            by_cases h5 : st.more_than ≥ st.less_than ∨ st.less_than < 2
            · rw [if_pos h5]
              simp only [true_iff]
              simp only [Bool.not_eq_true] at h1 h2
              exact ⟨h1, h2, h3, h4, h5⟩
            · rw [if_neg h5]
              constructor
              · intro h; simp at h
              · rintro ⟨_, _, _, _, hn⟩; exact absurd hn h5
  refine ⟨?_, ?_, ?_, ?_, ?_, ?_⟩
  · intro options st h
    rw [main_eq h]
    exact general st
  · intro more_than less_than
    have h : process_options (initial_state env)
        [.more_than (some more_than), .less_than (some less_than)] =
        .ok { initial_state env with more_than := more_than, less_than := less_than } := rfl
    rw [main_eq h]
    have := general { initial_state env with more_than := more_than, less_than := less_than }
    simpa [initial_state] using this
  · have h : process_options (initial_state env) [.more_than (some 5), .less_than (some 3)] =
        .ok { initial_state env with more_than := 5, less_than := 3 } := rfl
    rw [main_eq h]
    simp [main_after_options, initial_state]
  · have h : process_options (initial_state env) [.less_than (some 1)] =
        .ok { initial_state env with less_than := 1 } := rfl
    rw [main_eq h]
    simp [main_after_options, initial_state]
  · have h : process_options (initial_state env) [] = .ok (initial_state env) := rfl
    rw [main_eq h]
    simp [main_after_options, initial_state, INT_MAX]
  · have h : process_options (initial_state env) [.unique] =
        .ok { initial_state env with less_than := 2 } := rfl
    rw [main_eq h]
    simp [main_after_options, initial_state]

/-- C14, as stated, fails: when `--sort-output`, `--sort-by-file` and `--help`
are given, `main` prints the usage and exits with success. -/
theorem msgcat_conflict_with_help_counterexample :
    main ⟨1, .syntax_po, fun _ => [], fun l s => l ++ [s]⟩
        [.sort_output, .sort_by_file, .help] ["a.po"] =
      { events := [.usage .EXIT_SUCCESS], status := .EXIT_SUCCESS } := by
  rfl

/-- C14, amended: when the loop over the options has ended, and both
`--sort-output` and `--sort-by-file` were given, or `--sort-by-file` was given
and `line_comment` is 0, or the selection range is invalid (`more_than >=
less_than` or `less_than < 2`), then `main` calls neither
`catenate_msgdomain_list` nor a sorting function nor `msgdomain_list_print`,
and, unless `--version` or `--help` was given, it exits with failure. -/
theorem msgcat_configuration_errors (env : externals) (options : List optchar)
    (arguments : List String) (st : main_state)
    (h : process_options (initial_state env) options = .ok st)
    (hconflict : (optchar.sort_output ∈ options ∧ optchar.sort_by_file ∈ options) ∨
      (optchar.sort_by_file ∈ options ∧ st.line_comment = 0) ∨
      (st.more_than ≥ st.less_than ∨ st.less_than < 2)) :
    (∀ e ∈ (main env options arguments).events, e.is_merge_work = false) ∧
    (optchar.version ∉ options → optchar.help ∉ options →
      (main env options arguments).status = .EXIT_FAILURE) := by
  obtain ⟨f1, f2, f3, f4, f5⟩ := process_options_flags options _ st h
  have hev : ∀ e ∈ st.events, e.is_merge_work = false := by
    intro e he
    rcases f5 e he with h0 | h0
    · simp [initial_state] at h0
    · exact h0
  have hadd : ∀ x : event, x.is_merge_work = false →
      ∀ e ∈ st.events ++ [x], e.is_merge_work = false := by
    intro x hx e he
    rcases List.mem_append.mp he with h0 | h0
    · exact hev e h0
    · rw [List.mem_singleton.mp h0]
      exact hx
  have hsel : (st.line_comment = 0 ∧ st.sort_by_filepos = true) ∨
      (st.sort_by_msgid = true ∧ st.sort_by_filepos = true) ∨
      (st.more_than ≥ st.less_than ∨ st.less_than < 2) := by
    rcases hconflict with ⟨a, b⟩ | ⟨a, b⟩ | c
    · exact Or.inr (Or.inl ⟨by rw [f1]; simp [a], by rw [f2]; simp [b]⟩)
    · exact Or.inl ⟨b, by rw [f2]; simp [a]⟩
    · exact Or.inr (Or.inr c)
  rw [main_eq h]
  unfold main_after_options
  by_cases h1 : st.do_version = true
  · rw [if_pos h1]
    refine ⟨hadd _ rfl, ?_⟩
    intro hv
    rw [f4] at h1
    simp [initial_state, hv] at h1
  · rw [if_neg h1]
    by_cases h2 : st.do_help = true
    · rw [if_pos h2]
      refine ⟨hadd _ rfl, ?_⟩
      intro _ hh
      rw [f3] at h2
      simp [initial_state, hh] at h2
    · rw [if_neg h2]
      by_cases h3 : st.line_comment = 0 ∧ st.sort_by_filepos = true
      · rw [if_pos h3]
        exact ⟨hadd _ rfl, fun _ _ => rfl⟩
      · rw [if_neg h3]
        by_cases h4 : st.sort_by_msgid = true ∧ st.sort_by_filepos = true
        · rw [if_pos h4]
          exact ⟨hadd _ rfl, fun _ _ => rfl⟩
        · rw [if_neg h4]
          have h5 : st.more_than ≥ st.less_than ∨ st.less_than < 2 := by
            rcases hsel with a | a | a
            · exact absurd a h3
            · exact absurd a h4
            · exact a
          rw [if_pos h5]
          exact ⟨hadd _ rfl, fun _ _ => rfl⟩

theorem msgcat_configuration_errors_witness :
    process_options (initial_state ⟨1, .syntax_po, fun _ => [], fun l s => l ++ [s]⟩)
        [.no_escape, .sort_output, .sort_by_file] =
      .ok { initial_state ⟨1, .syntax_po, fun _ => [], fun l s => l ++ [s]⟩ with
            sort_by_msgid := true, sort_by_filepos := true
            events := [.message_print_style_escape false] } ∧
    (∀ e ∈ (main ⟨1, .syntax_po, fun _ => [], fun l s => l ++ [s]⟩
        [.no_escape, .sort_output, .sort_by_file] ["a.po"]).events,
      e.is_merge_work = false) ∧
    (optchar.version ∉ [optchar.no_escape, .sort_output, .sort_by_file] →
      optchar.help ∉ [optchar.no_escape, .sort_output, .sort_by_file] →
      (main ⟨1, .syntax_po, fun _ => [], fun l s => l ++ [s]⟩
        [.no_escape, .sort_output, .sort_by_file] ["a.po"]).status = .EXIT_FAILURE) :=
  ⟨rfl,
    msgcat_configuration_errors ⟨1, .syntax_po, fun _ => [], fun l s => l ++ [s]⟩
      [.no_escape, .sort_output, .sort_by_file] ["a.po"] _ rfl
      (Or.inl ⟨by decide, by decide⟩)⟩

end Msgcat

/-! ## Properties of the merge of catalogs -/

namespace Catalog

theorem upsert_absent {α β κ : Type} [DecidableEq κ] (key : α → κ) (key_of_new : β → κ)
    (fresh : β → α) (combine : α → β → α) (b : β) :
    ∀ l : List α, (∀ a ∈ l, key a ≠ key_of_new b) →
      upsert key key_of_new fresh combine l b = l ++ [fresh b]
  | [], _ => rfl
  | a :: l, h => by
    unfold upsert
    rw [if_neg (h a (List.mem_cons_self _ _)),
      upsert_absent key key_of_new fresh combine b l
        (fun x hx => h x (List.mem_cons_of_mem _ hx))]
    rfl

theorem upsert_present {α β κ : Type} [DecidableEq κ] (key : α → κ) (key_of_new : β → κ)
    (fresh : β → α) (combine : α → β → α) (b : β) (q : α) (rest : List α)
    (hq : key q = key_of_new b) :
    ∀ l : List α, (∀ a ∈ l, key a ≠ key_of_new b) →
      upsert key key_of_new fresh combine (l ++ q :: rest) b = l ++ combine q b :: rest
  | [], _ => by
    simp only [List.nil_append]
    unfold upsert
    rw [if_pos hq]
  | a :: l, h => by
    simp only [List.cons_append]
    unfold upsert
    rw [if_neg (h a (List.mem_cons_self _ _)),
      upsert_present key key_of_new fresh combine b q rest hq l
        (fun x hx => h x (List.mem_cons_of_mem _ hx))]

/-- Merging elements with new, pairwise distinct keys appends them. -/
theorem foldl_upsert_fresh {α β κ : Type} [DecidableEq κ] (key : α → κ) (key_of_new : β → κ)
    (fresh : β → α) (combine : α → β → α) (hfresh : ∀ b, key (fresh b) = key_of_new b) :
    ∀ (news : List β) (l : List α), (news.map key_of_new).Nodup →
      (∀ a ∈ l, ∀ b ∈ news, key a ≠ key_of_new b) →
      news.foldl (upsert key key_of_new fresh combine) l = l ++ news.map fresh
  | [], l, _, _ => by simp
  | b :: news, l, hnd, hdis => by
    rw [List.map_cons, List.nodup_cons] at hnd
    rw [List.foldl_cons,
      upsert_absent key key_of_new fresh combine b l
        (fun a ha => hdis a ha b (List.mem_cons_self _ _)),
      foldl_upsert_fresh key key_of_new fresh combine hfresh news _ hnd.2]
    · simp
    · intro a ha x hx
      rcases List.mem_append.mp ha with h | h
      · exact hdis a h x (List.mem_cons_of_mem _ hx)
      · rw [List.mem_singleton.mp h, hfresh]
        intro heq
        exact hnd.1 (heq ▸ List.mem_map_of_mem key_of_new hx)

/-- Merging elements whose keys are those of the result, in the same order,
combines them pairwise. -/
theorem foldl_upsert_again {α β κ : Type} [DecidableEq κ] (key : α → κ) (key_of_new : β → κ)
    (fresh : β → α) (combine : α → β → α) (hcombine : ∀ a b, key (combine a b) = key a) :
    ∀ (news : List β) (olds l : List α), (news.map key_of_new).Nodup →
      olds.map key = news.map key_of_new →
      (∀ a ∈ l, ∀ b ∈ news, key a ≠ key_of_new b) →
      news.foldl (upsert key key_of_new fresh combine) (l ++ olds) =
        l ++ List.zipWith combine olds news
  | [], olds, l, _, hkeys, _ => by
    have : olds = [] := by simpa using hkeys
    subst this
    simp
  | b :: news, [], l, _, hkeys, _ => by simp at hkeys
  | b :: news, q :: olds, l, hnd, hkeys, hdis => by
    rw [List.map_cons, List.nodup_cons] at hnd
    simp only [List.map_cons, List.cons.injEq] at hkeys
    rw [List.foldl_cons,
      upsert_present key key_of_new fresh combine b q olds hkeys.1 l
        (fun a ha => hdis a ha b (List.mem_cons_self _ _))]
    have e : l ++ combine q b :: olds = (l ++ [combine q b]) ++ olds := by simp
    rw [e, foldl_upsert_again key key_of_new fresh combine hcombine news olds _ hnd.2 hkeys.2]
    · simp
    · intro a ha x hx
      rcases List.mem_append.mp ha with h | h
      · exact hdis a h x (List.mem_cons_of_mem _ hx)
      · rw [List.mem_singleton.mp h, hcombine, hkeys.1]
        intro heq
        exact hnd.1 (heq ▸ List.mem_map_of_mem key_of_new hx)

theorem zipWith_map_self {α β : Type} (f : β → α → β) (g : α → β) :
    ∀ l : List α, List.zipWith f (l.map g) l = l.map (fun x => f (g x) x)
  | [] => rfl
  | a :: l => by
    simp only [List.map_cons, List.zipWith_cons_cons, zipWith_map_self f g l]

theorem repeated_identity (use_first : Bool) (m : Message) :
    ∀ n, (Message.repeated use_first m n).identity = m.identity
  | 0 => rfl
  | n + 1 => by
    show (Message.repeated use_first m n).identity = m.identity
    exact repeated_identity use_first m n

theorem repeated_contribution_count (use_first : Bool) (m : Message) :
    ∀ n, (Message.repeated use_first m n).contribution_count = n + 1
  | 0 => rfl
  | n + 1 => by
    show (Message.repeated use_first m n).contribution_count + 1 = n + 1 + 1
    rw [repeated_contribution_count use_first m n]

theorem merge_messages_fresh (use_first : Bool) (messages : List Message)
    (h : (messages.map Message.identity).Nodup) :
    messages.foldl (merge_message use_first) [] = messages.map Message.first_contribution := by
  have := foldl_upsert_fresh Message.identity Message.identity Message.first_contribution
    (Message.cumulate use_first) (fun _ => rfl) messages [] h (by simp)
  simpa [merge_message] using this

theorem merge_messages_again (use_first : Bool) (messages : List Message) (n : Nat)
    (h : (messages.map Message.identity).Nodup) :
    messages.foldl (merge_message use_first)
        (messages.map (fun m => Message.repeated use_first m n)) =
      messages.map (fun m => Message.repeated use_first m (n + 1)) := by
  have := foldl_upsert_again Message.identity Message.identity Message.first_contribution
    (Message.cumulate use_first) (fun _ _ => rfl) messages
    (messages.map (fun m => Message.repeated use_first m n)) [] h
    (by
      rw [List.map_map]
      exact List.map_congr_left (fun m _ => repeated_identity use_first m n))
    (by simp)
  rw [List.nil_append, List.nil_append, zipWith_map_self] at this
  exact this

theorem merge_store_fresh (use_first : Bool) (store : MessageDomainStore)
    (h : store.invariant) :
    store.foldl (merge_domain use_first) [] =
      store.map (fun d =>
        { name := d.name, messages := d.messages.map (fun m => Message.repeated use_first m 0) })
    := by
  have := foldl_upsert_fresh MessageDomain.name MessageDomain.name
    (fun d => ({ name := d.name, messages := d.messages.foldl (merge_message use_first) [] } :
      MessageDomain))
    (fun r d => { r with messages := d.messages.foldl (merge_message use_first) r.messages })
    (fun _ => rfl) store [] h.1 (by simp)
  rw [List.nil_append] at this
  unfold merge_domain
  rw [this]
  apply List.map_congr_left
  intro d hd
  rw [merge_messages_fresh use_first d.messages (h.2 d hd)]
  rfl

theorem merge_store_again (use_first : Bool) (store : MessageDomainStore) (n : Nat)
    (h : store.invariant) :
    store.foldl (merge_domain use_first)
        (store.map (fun d =>
          { name := d.name
            messages := d.messages.map (fun m => Message.repeated use_first m n) })) =
      store.map (fun d =>
        { name := d.name
          messages := d.messages.map (fun m => Message.repeated use_first m (n + 1)) }) := by
  have := foldl_upsert_again MessageDomain.name MessageDomain.name
    (fun d => ({ name := d.name, messages := d.messages.foldl (merge_message use_first) [] } :
      MessageDomain))
    (fun r d => { r with messages := d.messages.foldl (merge_message use_first) r.messages })
    (fun _ _ => rfl) store
    (store.map (fun d =>
      ({ name := d.name
         messages := d.messages.map (fun m => Message.repeated use_first m n) } :
        MessageDomain))) [] h.1
    (by rw [List.map_map]; rfl)
    (by simp)
  rw [List.nil_append, List.nil_append, zipWith_map_self] at this
  unfold merge_domain
  rw [this]
  apply List.map_congr_left
  intro d hd
  show ({ name := d.name, messages := _ } : MessageDomain) = _
  rw [merge_messages_again use_first d.messages n (h.2 d hd)]

/-- The merge of `n + 1` copies of a store that satisfies the invariants. -/
theorem merge_replicate (use_first : Bool) (store : MessageDomainStore)
    (h : store.invariant) :
    ∀ n, merge use_first (List.replicate (n + 1) store) =
      store.map (fun d =>
        { name := d.name
          messages := d.messages.map (fun m => Message.repeated use_first m n) })
  | 0 => by
    show store.foldl (merge_domain use_first) [] = _
    exact merge_store_fresh use_first store h
  | n + 1 => by
    have ih := merge_replicate use_first store h n
    unfold merge at ih ⊢
    rw [List.replicate_succ', List.foldl_append, ih]
    exact merge_store_again use_first store n h

/-- C16: merging `n + 1` copies of a store that satisfies the invariants of
the data model yields the domains of the store, each with the identities of its
messages in their order, hence one message per distinct identity, and every
message has the contribution count `n + 1`. Merging two stores that hold one
message each with the same identity, one found in file A at line 3 and one in
file B at line 7, yields one message with the occurrences (A, 3), (B, 7) in
this order and the contribution count 2. -/
theorem merge_counts_contributions (use_first : Bool) (store : MessageDomainStore) (n : Nat)
    (h : store.invariant) :
    (merge use_first (List.replicate (n + 1) store)).map
        (fun d => (d.name, d.messages.map (fun m => (m.identity, m.contribution_count)))) =
      store.map (fun d => (d.name, d.messages.map (fun m => (m.identity, n + 1)))) ∧
    merge use_first
        [[{ name := "messages"
            messages := [{ context := none, singular := "Hello", plural := none
                           translations := [""], occurrences := [⟨"A", 3⟩]
                           human_comments := "", extraction_comments := ""
                           contribution_count := 1 }] }],
         [{ name := "messages"
            messages := [{ context := none, singular := "Hello", plural := none
                           translations := [""], occurrences := [⟨"B", 7⟩]
                           human_comments := "", extraction_comments := ""
                           contribution_count := 1 }] }]] =
      [{ name := "messages"
         messages := [{ context := none, singular := "Hello", plural := none
                        translations := [""], occurrences := [⟨"A", 3⟩, ⟨"B", 7⟩]
                        human_comments := "", extraction_comments := ""
                        contribution_count := 2 }] }] := by
  constructor
  · rw [merge_replicate use_first store h n, List.map_map]
    apply List.map_congr_left
    intro d _
    simp only [Function.comp, List.map_map, Prod.mk.injEq, true_and]
    apply List.map_congr_left
    intro m _
    simp only [Function.comp, repeated_identity, repeated_contribution_count]
  · cases use_first <;> decide

theorem merge_counts_contributions_witness :
    MessageDomainStore.invariant
      [{ name := "messages"
         messages := [{ context := none, singular := "Hello", plural := none
                        translations := ["Bonjour"], occurrences := [⟨"A", 3⟩]
                        human_comments := "", extraction_comments := ""
                        contribution_count := 1 },
                      { context := some "menu", singular := "Hello", plural := none
                        translations := [""], occurrences := []
                        human_comments := "", extraction_comments := ""
                        contribution_count := 1 }] },
       { name := "errors", messages := [] }] ∧
    (merge false (List.replicate (2 + 1)
      [{ name := "messages"
         messages := [{ context := none, singular := "Hello", plural := none
                        translations := ["Bonjour"], occurrences := [⟨"A", 3⟩]
                        human_comments := "", extraction_comments := ""
                        contribution_count := 1 },
                      { context := some "menu", singular := "Hello", plural := none
                        translations := [""], occurrences := []
                        human_comments := "", extraction_comments := ""
                        contribution_count := 1 }] },
       { name := "errors", messages := [] }])).map
        (fun d => (d.name, d.messages.map (fun m => (m.identity, m.contribution_count)))) =
      [("messages", [((none, "Hello"), 3), ((some "menu", "Hello"), 3)]), ("errors", [])] :=
  ⟨by decide, (merge_counts_contributions false _ 2 (by decide)).1⟩

/-- C17: the filter keeps the domains of the store, in their order and also
when no message is left in them, and in every domain it keeps, in their order,
exactly the messages whose contribution count `c` satisfies `lower < c <
upper`. A message of contribution count 2, merged from two stores, is kept
under the default range (0, `INT_MAX`) and removed under the range of
`--unique` (0, 2), which leaves its domain empty. -/
theorem selection_filter_keeps (store : MessageDomainStore) (lower upper : Int) :
    List.Forall₂
      (fun filtered d => filtered.name = d.name ∧ filtered.messages.Sublist d.messages ∧
        ∀ m, m ∈ filtered.messages ↔
          (m ∈ d.messages ∧ lower < (m.contribution_count : Int) ∧
            (m.contribution_count : Int) < upper))
      (selection_filter store lower upper) store ∧
    selection_filter
      [{ name := "messages"
         messages := [{ context := none, singular := "Hello", plural := none
                        translations := [""], occurrences := [⟨"A", 3⟩, ⟨"B", 7⟩]
                        human_comments := "", extraction_comments := ""
                        contribution_count := 2 }] }] 0 Msgcat.INT_MAX =
      [{ name := "messages"
         messages := [{ context := none, singular := "Hello", plural := none
                        translations := [""], occurrences := [⟨"A", 3⟩, ⟨"B", 7⟩]
                        human_comments := "", extraction_comments := ""
                        contribution_count := 2 }] }] ∧
    selection_filter
      [{ name := "messages"
         messages := [{ context := none, singular := "Hello", plural := none
                        translations := [""], occurrences := [⟨"A", 3⟩, ⟨"B", 7⟩]
                        human_comments := "", extraction_comments := ""
                        contribution_count := 2 }] }] 0 2 =
      [{ name := "messages", messages := [] }] := by
  refine ⟨?_, by decide, by decide⟩
  unfold selection_filter
  rw [List.forall₂_map_left_iff, List.forall₂_same]
  intro d _
  refine ⟨rfl, List.filter_sublist _, ?_⟩
  intro m
  simp [List.mem_filter]

/-- C18: when two stores hold, in a domain of the same name, one message each
with the same identity and a non-empty translation, their merge holds one
message, of contribution count 2, whose occurrences and comments are those of
the first followed by those of the second, and whose translation is the one of
the second store when `use_first` is not set and the one of the first store
when it is set. With the translations "Bonjour" and "Salut" the merge yields
"Salut" without `use_first` and "Bonjour" with it. -/
theorem merge_override_policy :
    (∀ (use_first : Bool) (name : String) (a b : Message), a.identity = b.identity →
      a.translated = true → b.translated = true →
      ∃ m, merge use_first [[{ name := name, messages := [a] }],
          [{ name := name, messages := [b] }]] = [{ name := name, messages := [m] }] ∧
        m.translations = (if use_first then a.translations else b.translations) ∧
        m.occurrences = a.occurrences ++ b.occurrences ∧
        m.human_comments = a.human_comments ++ b.human_comments ∧
        m.extraction_comments = a.extraction_comments ++ b.extraction_comments ∧
        m.contribution_count = 2) ∧
    (∀ use_first : Bool,
      merge use_first
        [[{ name := "messages"
            messages := [{ context := none, singular := "Hello", plural := none
                           translations := ["Bonjour"], occurrences := [⟨"A", 3⟩]
                           human_comments := "first", extraction_comments := "one"
                           contribution_count := 1 }] }],
         [{ name := "messages"
            messages := [{ context := none, singular := "Hello", plural := none
                           translations := ["Salut"], occurrences := [⟨"B", 7⟩]
                           human_comments := "second", extraction_comments := "two"
                           contribution_count := 1 }] }]] =
      [{ name := "messages"
         messages := [{ context := none, singular := "Hello", plural := none
                        translations := if use_first then ["Bonjour"] else ["Salut"]
                        occurrences := [⟨"A", 3⟩, ⟨"B", 7⟩]
                        human_comments := "firstsecond", extraction_comments := "onetwo"
                        contribution_count := 2 }] }]) := by
  constructor
  · intro use_first name a b hid ha hb
    refine ⟨Message.cumulate use_first a.first_contribution b, ?_, ?_, rfl, rfl, rfl, rfl⟩
    · have hid' : a.first_contribution.identity = b.identity := hid
      simp [merge, merge_domain, merge_message, upsert, hid']
    · have ha' : a.first_contribution.translated = true := ha
      cases use_first
      · simp [Message.cumulate, hb]
      · simp [Message.cumulate, ha']
        rfl
  · intro use_first
    cases use_first <;> decide

end Catalog

/-! ## Properties of the invocation of the C# compilers -/

namespace Csharpcomp

theorem foldl_append_two_length (a : List Char) :
    ∀ (l init : List (List Char)),
      (l.foldl (fun argv x => argv ++ [a, x]) init).length = init.length + 2 * l.length
  | [], init => by simp
  | x :: l, init => by
    rw [List.foldl_cons, foldl_append_two_length a l]
    simp only [List.length_append, List.length_cons, List.length_nil]
    omega

theorem foldl_append_one (f : List Char → List Char) :
    ∀ (l init : List (List Char)),
      l.foldl (fun argv x => argv ++ [f x]) init = init ++ l.map f
  | [], init => by simp
  | x :: l, init => by
    rw [List.foldl_cons, foldl_append_one f l]
    simp

/-- The slots written by `compile_csharp_using_pnet`: the options, then one
slot per source file. -/
theorem pnet_argv_shape (sources libdirs libraries : List (List Char))
    (output_file : List Char) (output_is_library optimize debug : Bool) :
    ∃ options : List (List Char),
      pnet_argv sources libdirs libraries output_file output_is_library optimize debug =
        options ++ sources.map (source_argument "-fresources=".toList) ∧
      options.length = 1 + (if output_is_library then 1 else 0) + 2 + 2 * libdirs.length
        + 2 * libraries.length + (if optimize then 1 else 0) + (if debug then 1 else 0) := by
  refine ⟨_, foldl_append_one _ sources _, ?_⟩
  cases output_is_library <;> cases optimize <;> cases debug <;>
    simp [foldl_append_two_length]

/-- The slots written by `compile_csharp_using_mono`. -/
theorem mono_argv_shape (sources libdirs libraries : List (List Char))
    (output_file : List Char) (output_is_library debug : Bool) :
    ∃ options : List (List Char),
      mono_argv sources libdirs libraries output_file output_is_library debug =
        options ++ sources.map (source_argument "-resource:".toList) ∧
      options.length = 1 + (if output_is_library then 1 else 0) + 2 + 2 * libdirs.length
        + 2 * libraries.length + (if debug then 1 else 0) := by
  refine ⟨_, foldl_append_one _ sources _, ?_⟩
  cases output_is_library <;> cases debug <;>
    simp [foldl_append_two_length]

/-- The slots written by `compile_csharp_using_sscli`. -/
theorem sscli_argv_shape (sources libdirs libraries : List (List Char))
    (output_file : List Char) (output_is_library optimize debug : Bool) :
    ∃ options : List (List Char),
      sscli_argv sources libdirs libraries output_file output_is_library optimize debug =
        options ++ sources.map (source_argument "-resource:".toList) ∧
      options.length = 1 + 1 + 1 + libdirs.length + libraries.length
        + (if optimize then 1 else 0) + (if debug then 1 else 0) := by
  refine ⟨_, foldl_append_one _ sources _, ?_⟩
  cases optimize <;> cases debug <;> simp [foldl_append_one] <;> omega

theorem drop_of_shape {argv options tail : List (List Char)} (h : argv = options ++ tail) :
    argv.drop (argv.length - tail.length) = tail := by
  subst h
  rw [List.length_append, Nat.add_sub_cancel]
  exact List.drop_left _ _

/-- C21: in each of the three back-ends, when the unwrapped value of `argc`
is below `UINT_MODULUS`, the number of slots written equals `argc`, so that the
function does not abort, whether the compiler is present or not; when the
compiler is present it is run on these slots, and the last `sources_count` slots
are the arguments of the source files in input order. -/
theorem csharp_argv_matches_argc (sources libdirs libraries : List (List Char))
    (output_file : List Char) (output_is_library optimize debug verbose : Bool)
    (present fdopen_succeeds : Bool) (execute : List (List Char) → Int)
    (h : 6 + 2 * libdirs.length + 2 * libraries.length + sources.length < UINT_MODULUS) :
    ((pnet_argv sources libdirs libraries output_file output_is_library optimize debug).length
        = pnet_argc sources.length libdirs.length libraries.length output_is_library
            optimize debug ∧
      compile_csharp_using_pnet present execute sources libdirs libraries output_file
        output_is_library optimize debug verbose ≠ .aborted ∧
      (∃ argv, compile_csharp_using_pnet true execute sources libdirs libraries output_file
          output_is_library optimize debug verbose = .returned argv verbose (execute argv != 0)
        ∧ argv.drop (argv.length - sources.length) =
          sources.map (source_argument "-fresources=".toList))) ∧
    ((mono_argv sources libdirs libraries output_file output_is_library debug).length
        = mono_argc sources.length libdirs.length libraries.length output_is_library debug ∧
      compile_csharp_using_mono present fdopen_succeeds execute sources libdirs libraries
        output_file output_is_library optimize debug verbose ≠ .aborted ∧
      (∃ argv, compile_csharp_using_mono true true execute sources libdirs libraries
          output_file output_is_library optimize debug verbose =
            .returned argv verbose (execute argv != 0)
        ∧ argv.drop (argv.length - sources.length) =
          sources.map (source_argument "-resource:".toList))) ∧
    ((sscli_argv sources libdirs libraries output_file output_is_library optimize
          debug).length
        = sscli_argc sources.length libdirs.length libraries.length optimize debug ∧
      compile_csharp_using_sscli present execute sources libdirs libraries output_file
        output_is_library optimize debug verbose ≠ .aborted ∧
      (∃ argv, compile_csharp_using_sscli true execute sources libdirs libraries output_file
          output_is_library optimize debug verbose = .returned argv verbose (execute argv != 0)
        ∧ argv.drop (argv.length - sources.length) =
          sources.map (source_argument "-resource:".toList))) := by
  have hm : UINT_MODULUS = 4294967296 := rfl
  obtain ⟨o1, e1, l1⟩ := pnet_argv_shape sources libdirs libraries output_file
    output_is_library optimize debug
  obtain ⟨o2, e2, l2⟩ := mono_argv_shape sources libdirs libraries output_file
    output_is_library debug
  obtain ⟨o3, e3, l3⟩ := sscli_argv_shape sources libdirs libraries output_file
    output_is_library optimize debug
  have len1 : (pnet_argv sources libdirs libraries output_file output_is_library optimize
      debug).length = pnet_argc sources.length libdirs.length libraries.length
        output_is_library optimize debug := by
    unfold pnet_argc
    rw [e1, List.length_append, List.length_map, l1, Nat.mod_eq_of_lt]
    cases output_is_library <;> cases optimize <;> cases debug <;> simp <;> omega
  have len2 : (mono_argv sources libdirs libraries output_file output_is_library
      debug).length = mono_argc sources.length libdirs.length libraries.length
        output_is_library debug := by
    unfold mono_argc
    rw [e2, List.length_append, List.length_map, l2, Nat.mod_eq_of_lt]
    cases output_is_library <;> cases debug <;> simp <;> omega
  have len3 : (sscli_argv sources libdirs libraries output_file output_is_library optimize
      debug).length = sscli_argc sources.length libdirs.length libraries.length
        optimize debug := by
    unfold sscli_argc
    rw [e3, List.length_append, List.length_map, l3, Nat.mod_eq_of_lt]
    cases optimize <;> cases debug <;> simp <;> omega
  refine ⟨⟨len1, ?_, ?_⟩, ⟨len2, ?_, ?_⟩, ⟨len3, ?_, ?_⟩⟩
  · unfold compile_csharp_using_pnet
    cases present <;> simp [len1]
  · refine ⟨_, ?_, by have hd := drop_of_shape e1; rwa [List.length_map] at hd⟩
    unfold compile_csharp_using_pnet
    simp [len1]
  · unfold compile_csharp_using_mono
    cases present <;> cases fdopen_succeeds <;> simp [len2]
  · refine ⟨_, ?_, by have hd := drop_of_shape e2; rwa [List.length_map] at hd⟩
    unfold compile_csharp_using_mono
    simp [len2]
  · unfold compile_csharp_using_sscli
    cases present <;> simp [len3]
  · refine ⟨_, ?_, by have hd := drop_of_shape e3; rwa [List.length_map] at hd⟩
    unfold compile_csharp_using_sscli
    simp [len3]

theorem csharp_argv_matches_argc_witness :
    6 + 2 * ["d".toList].length + 2 * ([] : List (List Char)).length
      + ["a.cs".toList, "b.resource".toList].length < UINT_MODULUS ∧
    compile_csharp_using_pnet true (fun _ => 0) ["a.cs".toList, "b.resource".toList]
      ["d".toList] [] "o.dll".toList true false true false =
      .returned ["cscc".toList, "-shared".toList, "-o".toList, "o.dll".toList, "-L".toList,
        "d".toList, "-g".toList, "a.cs".toList, "-fresources=b.resource".toList] false false ∧
    (pnet_argv ["a.cs".toList, "b.resource".toList] ["d".toList] [] "o.dll".toList true false
        true).length = pnet_argc 2 1 0 true false true :=
  ⟨by decide, by decide,
    (csharp_argv_matches_argc ["a.cs".toList, "b.resource".toList] ["d".toList] []
      "o.dll".toList true false true false true true (fun _ => 0) (by decide)).1.1⟩

end Csharpcomp

/-! ## Properties of expand_escape -/

namespace Ngettext

theorem dropWhile_not_backslash (pre rest : List Char) (h : ∀ x ∈ pre, x ≠ '\\') :
    (pre ++ '\\' :: rest).dropWhile (fun c => c != '\\') = '\\' :: rest := by
  induction pre with
  | nil => simp [List.dropWhile]
  | cons a pre ih =>
    have ha : a ≠ '\\' := h a (List.mem_cons_self _ _)
    have hp : ∀ x ∈ pre, x ≠ '\\' := fun x hx => h x (List.mem_cons_of_mem _ hx)
    have hb : (a != '\\') = true := by simp [ha]
    rw [List.cons_append, List.dropWhile_cons, hb, if_pos rfl]
    exact ih hp

/-- The first loop makes no progress at a backslash that is followed by a
character outside "bfnrt\\01234567": whatever the number of iterations, it is
still running. -/
theorem scan_loop_stuck (pre rest : List Char) (c : Char) (hpre : ∀ x ∈ pre, x ≠ '\\')
    (hc : recognised c = false) :
    ∀ fuel, scan_loop fuel (pre ++ '\\' :: c :: rest) = none := by
  have hstuck : ∀ fuel, scan_loop fuel ('\\' :: c :: rest) = none := by
    intro fuel
    induction fuel with
    | zero => rfl
    | succ fuel ih =>
      unfold scan_loop
      have hd := dropWhile_not_backslash [] (c :: rest) (by simp)
      simp only [List.nil_append] at hd
      simp only [hd, scan_continues, hc, Bool.not_false, if_true]
      exact ih
  intro fuel
  cases fuel with
  | zero => rfl
  | succ fuel =>
    unfold scan_loop
    simp only [dropWhile_not_backslash pre (c :: rest) hpre, scan_continues, hc,
      Bool.not_false, if_true]
    exact hstuck fuel

/-- A string without backslash is returned as it is. -/
theorem expand_escape_no_backslash (str : List Char) (h : ∀ x ∈ str, x ≠ '\\') (fuel : Nat) :
    expand_escape (fuel + 1) str = some str := by
  have hd : str.dropWhile (fun c => c != '\\') = [] := by
    rw [List.dropWhile_eq_nil_iff]
    intro x hx
    simp [h x hx]
  unfold expand_escape scan_loop
  simp [hd, scan_continues]

/-- C22, at inputs on which it fails: on the two characters backslash
backslash `expand_escape` returns the empty string, not the string of one
backslash; on "a\\b" (one escaped backslash) it returns "ab"; on the escape
of the octal code 101 it returns the empty string, not "A"; and on "x\101y" it
returns "xy". In these cases the character is stored with `*rp = ...` and `rp`
is not advanced, so that the next store overwrites it. -/
theorem expand_escape_loses_backslash_and_octal (fuel : Nat) :
    expand_escape (fuel + 1) ['\\', '\\'] = some [] ∧
    expand_escape (fuel + 1) ['a', '\\', '\\', 'b'] = some ['a', 'b'] ∧
    expand_escape (fuel + 1) ['\\', '1', '0', '1'] = some [] ∧
    expand_escape (fuel + 1) ['x', '\\', '1', '0', '1', 'y'] = some ['x', 'y'] ∧
    expand_escape (fuel + 1) ['a', '\\', 'n', 'b'] = some ['a', '\n', 'b'] := by
  refine ⟨rfl, rfl, rfl, rfl, rfl⟩

/-- C23, at an input on which it fails: on the two characters backslash `q`
the first loop of `expand_escape` is still running after any number of
iterations, and so it is on every string that has a `q` behind its first
backslash. -/
theorem expand_escape_does_not_terminate :
    (∀ fuel, expand_escape fuel ['\\', 'q'] = none) ∧
    (∀ fuel rest, expand_escape fuel ('a' :: 'b' :: '\\' :: 'q' :: rest) = none) := by
  constructor
  · intro fuel
    unfold expand_escape
    have hs := scan_loop_stuck [] [] 'q' (by simp) (by decide) fuel
    simp only [List.nil_append] at hs
    rw [hs]
  · intro fuel rest
    unfold expand_escape
    have hs := scan_loop_stuck ['a', 'b'] rest 'q' (by decide) (by decide) fuel
    simp only [List.cons_append, List.nil_append] at hs
    rw [hs]

end Ngettext

/-! ## Further properties of msgcat -/

namespace Msgcat

/-- C24, as stated, fails: with `--more-than=2 --less-than=3` the sanity check
lets `main` go on to `catenate_msgdomain_list`, and no integer lies strictly
between 2 and 3. -/
theorem msgcat_accepts_empty_range_counterexample :
    main ⟨1, .syntax_po, fun _ => [], fun l s => l ++ [s]⟩
        [.more_than (some 2), .less_than (some 3)] ["a.po"] =
      { events := [.catenate_msgdomain_list ["a.po"] none, .msgdomain_list_print none 0]
        status := .EXIT_SUCCESS } ∧
    ¬ ∃ n : Int, 2 < n ∧ n < 3 := by
  refine ⟨rfl, ?_⟩
  rintro ⟨n, h1, h2⟩
  omega

/-- C24, amended: when the loop over the options has ended without a request
for the version or the help, and `main` exits with success, the range satisfies
`more_than < less_than` and `less_than >= 2`, and `main` has gone on to
`catenate_msgdomain_list`; an integer `n` with `more_than < n < less_than`
exists if and only if moreover `more_than + 1 < less_than`. -/
theorem msgcat_accepted_range (env : externals) (options : List optchar)
    (arguments : List String) (st : main_state)
    (h : process_options (initial_state env) options = .ok st)
    (hversion : st.do_version = false) (hhelp : st.do_help = false)
    (hstatus : (main env options arguments).status = .EXIT_SUCCESS) :
    st.more_than < st.less_than ∧ 2 ≤ st.less_than ∧
    (∃ file_list to_code,
      event.catenate_msgdomain_list file_list to_code ∈ (main env options arguments).events) ∧
    ((∃ n : Int, st.more_than < n ∧ n < st.less_than) ↔ st.more_than + 1 < st.less_than) := by
  rw [main_eq h] at hstatus ⊢
  unfold main_after_options at hstatus ⊢
  simp only [hversion, hhelp, Bool.false_eq_true, if_false] at hstatus ⊢
  by_cases h3 : st.line_comment = 0 ∧ st.sort_by_filepos = true
  · rw [if_pos h3] at hstatus
    exact absurd hstatus (by simp)
  · rw [if_neg h3] at hstatus ⊢
    by_cases h4 : st.sort_by_msgid = true ∧ st.sort_by_filepos = true
    · rw [if_pos h4] at hstatus
      exact absurd hstatus (by simp)
    · rw [if_neg h4] at hstatus ⊢
      by_cases h5 : st.more_than ≥ st.less_than ∨ st.less_than < 2
      · rw [if_pos h5] at hstatus
        exact absurd hstatus (by simp)
      · rw [if_neg h5]
        have h6 : st.more_than < st.less_than := by omega
        have h7 : 2 ≤ st.less_than := by omega
        refine ⟨h6, h7, ?_, ?_⟩
        · exact ⟨_, _, List.mem_append_left _ (List.mem_append_left _
            (List.mem_append_right _ (List.mem_singleton.mpr rfl)))⟩
        · constructor
          · rintro ⟨n, a, b⟩
            omega
          · intro a
            exact ⟨st.more_than + 1, by omega, a⟩

theorem msgcat_accepted_range_witness :
    process_options (initial_state ⟨1, .syntax_po, fun _ => [], fun l s => l ++ [s]⟩)
        [.more_than (some 2), .less_than (some 5)] =
      .ok { initial_state ⟨1, .syntax_po, fun _ => [], fun l s => l ++ [s]⟩ with
            more_than := 2, less_than := 5 } ∧
    (main ⟨1, .syntax_po, fun _ => [], fun l s => l ++ [s]⟩
        [.more_than (some 2), .less_than (some 5)] ["a.po"]).status = .EXIT_SUCCESS ∧
    (2 : Int) < 5 ∧ (2 : Int) ≤ 5 ∧
    (∃ file_list to_code,
      event.catenate_msgdomain_list file_list to_code ∈
        (main ⟨1, .syntax_po, fun _ => [], fun l s => l ++ [s]⟩
          [.more_than (some 2), .less_than (some 5)] ["a.po"]).events) ∧
    ((∃ n : Int, 2 < n ∧ n < 5) ↔ (2 : Int) + 1 < 5) :=
  ⟨rfl, rfl,
    msgcat_accepted_range ⟨1, .syntax_po, fun _ => [], fun l s => l ++ [s]⟩
      [.more_than (some 2), .less_than (some 5)] ["a.po"]
      { initial_state ⟨1, .syntax_po, fun _ => [], fun l s => l ++ [s]⟩ with
        more_than := 2, less_than := 5 } rfl rfl rfl rfl⟩

/-- C25, at an input on which it fails: with `--stringtable-output
--to-code=ISO-8859-1` the encoding passed to `catenate_msgdomain_list` is
"ISO-8859-1", not "UTF-8", whatever the environment and the file arguments,
because the case of `--stringtable-output` leaves `output_syntax` at
`syntax_po`; with `--properties-output --to-code=ISO-8859-1` it is "UTF-8". -/
theorem msgcat_stringtable_output_keeps_to_code (env : externals) (arguments : List String) :
    main env [.stringtable_output, .to_code "ISO-8859-1"] arguments =
      { events := [.message_print_syntax_stringtable,
          .catenate_msgdomain_list (arguments.foldl env.string_list_append_unique [])
            (some "ISO-8859-1"),
          .msgdomain_list_print none 0]
        status := .EXIT_SUCCESS } ∧
    main env [.properties_output, .to_code "ISO-8859-1"] arguments =
      { events := [.message_print_syntax_properties,
          .catenate_msgdomain_list (arguments.foldl env.string_list_append_unique [])
            (some "UTF-8"),
          .msgdomain_list_print none 0]
        status := .EXIT_SUCCESS } ∧
    (∀ (options : List optchar) (st : main_state),
      process_options (initial_state env) options = .ok st →
        st.output_syntax ≠ .syntax_stringtable) := by
  refine ⟨?_, ?_, ?_⟩
  · simp [main, process_options, process_option, main_after_options, initial_state, INT_MAX]
  · simp [main, process_options, process_option, main_after_options, initial_state, INT_MAX]
  · have hstep : ∀ (o : optchar) (s0 s1 : main_state), process_option s0 o = .ok s1 →
        s0.output_syntax ≠ .syntax_stringtable → s1.output_syntax ≠ .syntax_stringtable := by
      intro o s0 s1 h0 hs
      cases o <;> simp only [process_option] at h0 <;>
        first
          | (injection h0 with h0; subst h0; first | exact hs | simp)
          | (split at h0 <;> injection h0 with h0 <;> subst h0 <;> exact hs)
          | exact absurd h0 (by simp)
    have hall : ∀ (options : List optchar) (s0 s1 : main_state),
        process_options s0 options = .ok s1 →
        s0.output_syntax ≠ .syntax_stringtable → s1.output_syntax ≠ .syntax_stringtable := by
      intro options
      induction options with
      | nil =>
        intro s0 s1 h0 hs
        simp only [process_options] at h0
        injection h0 with h0
        subst h0
        exact hs
      | cons o options ih =>
        intro s0 s1 h0 hs
        simp only [process_options] at h0
        cases hp : process_option s0 o with
        | error out => rw [hp] at h0; simp at h0
        | ok s => rw [hp] at h0; exact ih s s1 h0 (hstep o s0 s hp hs)
    intro options st h
    exact hall options _ st h (by simp [initial_state])

end Msgcat
